import Mathlib

/-!
Verification of the colour-conversion core of `octocat/exts/utils/colour.py`.

The Python source computes with IEEE floats; the embedding models that real
arithmetic with exact rationals (`ℚ`).  `round` is Python's builtin
(round half to even), `int` is Python truncation, `x % 1.0` is Python's
floating modulo, and `int(x * 255 + 0.5)` is the scaling used by
`PIL.ImageColor.getrgb`.  The Batteries rational operations are restored
to normal reducibility so that concrete values can be evaluated by `decide`.
-/

attribute [local semireducible] Rat.add Rat.sub Rat.mul Rat.inv Rat.ofScientific

namespace Octocat

/-- Python's builtin `round`: round to the nearest integer, halves to even. -/
def pyRound (q : ℚ) : ℤ :=
  if q - q.floor < 1/2 then q.floor
  else if (1:ℚ)/2 < q - q.floor then q.floor + 1
  else if q.floor % 2 = 0 then q.floor else q.floor + 1

/-- Python's `x % 1.0` (floor modulo), used by `colorsys` on the hue. -/
def pyMod1 (q : ℚ) : ℚ := q - q.floor

/-- Python's `int(_)` truncation toward zero. -/
def pyInt (q : ℚ) : ℤ := if 0 ≤ q then q.floor else -(Rat.floor (-q))

/-- `int(x * 255 + 0.5)`, the channel scaling in `PIL.ImageColor.getrgb`
(its argument is always nonnegative there, so `int` is a floor). -/
def pilScale (q : ℚ) : ℤ := (q * 255 + 1/2).floor

/-- `colorsys.rgb_to_hsv` (CPython `Lib/colorsys.py`), on exact rationals. -/
def rgb_to_hsv (r g b : ℚ) : ℚ × ℚ × ℚ :=
  let maxc := max r (max g b)
  let minc := min r (min g b)
  let v := maxc
  if minc = maxc then (0, 0, v)
  else
    let rangec := maxc - minc
    let s := rangec / maxc
    let rc := (maxc - r) / rangec
    let gc := (maxc - g) / rangec
    let bc := (maxc - b) / rangec
    let h := if r = maxc then bc - gc
      else if g = maxc then 2 + rc - bc
      else 4 + gc - rc
    (pyMod1 (h / 6), s, v)

/-- `colorsys.rgb_to_hls`, on exact rationals; returns `(h, l, s)`. -/
def rgb_to_hls (r g b : ℚ) : ℚ × ℚ × ℚ :=
  let maxc := max r (max g b)
  let minc := min r (min g b)
  let l := (minc + maxc) / 2
  if minc = maxc then (0, l, 0)
  else
    let rangec := maxc - minc
    let s := if l ≤ 1/2 then rangec / (maxc + minc) else rangec / (2 - maxc - minc)
    let rc := (maxc - r) / rangec
    let gc := (maxc - g) / rangec
    let bc := (maxc - b) / rangec
    let h := if r = maxc then bc - gc
      else if g = maxc then 2 + rc - bc
      else 4 + gc - rc
    (pyMod1 (h / 6), l, s)

/-- `colorsys.hsv_to_rgb`, on exact rationals. -/
def hsv_to_rgb (h s v : ℚ) : ℚ × ℚ × ℚ :=
  if s = 0 then (v, v, v)
  else
    let i0 := pyInt (h * 6)
    let f := h * 6 - i0
    let p := v * (1 - s)
    let q := v * (1 - s * f)
    let t := v * (1 - s * (1 - f))
    let i := i0 % 6
    if i = 0 then (v, t, p)
    else if i = 1 then (q, v, p)
    else if i = 2 then (p, v, t)
    else if i = 3 then (p, q, v)
    else if i = 4 then (t, p, v)
    else (v, p, q)

/-- `colorsys._v`, the linear interpolation helper of `hls_to_rgb`. -/
def _v (m1 m2 hue : ℚ) : ℚ :=
  let hue := pyMod1 hue
  if hue < 1/6 then m1 + (m2 - m1) * hue * 6
  else if hue < 1/2 then m2
  else if hue < 2/3 then m1 + (m2 - m1) * (2/3 - hue) * 6
  else m1

/-- `colorsys.hls_to_rgb`, on exact rationals. -/
def hls_to_rgb (h l s : ℚ) : ℚ × ℚ × ℚ :=
  if s = 0 then (l, l, l)
  else
    let m2 := if l ≤ 1/2 then l * (1 + s) else l + s - l * s
    let m1 := 2 * l - m2
    (_v m1 m2 (h + 1/3), _v m1 m2 h, _v m1 m2 (h - 1/3))

/-- `Colour._rgb_to_hsv`: scale the channels to `[0,1]`, convert with
`colorsys.rgb_to_hsv` and round to integer degrees / percents. -/
def _rgb_to_hsv (r g b : ℕ) : ℤ × ℤ × ℤ :=
  let hsv := rgb_to_hsv ((r:ℚ)/255) ((g:ℚ)/255) ((b:ℚ)/255)
  (pyRound (hsv.1 * 360), pyRound (hsv.2.1 * 100), pyRound (hsv.2.2 * 100))

/-- `Colour._rgb_to_hsl`: like `_rgb_to_hsv` but through `colorsys.rgb_to_hls`;
note the result order is `(h, s, l)` while `rgb_to_hls` returns `(h, l, s)`. -/
def _rgb_to_hsl (r g b : ℕ) : ℤ × ℤ × ℤ :=
  let hls := rgb_to_hls ((r:ℚ)/255) ((g:ℚ)/255) ((b:ℚ)/255)
  (pyRound (hls.1 * 360), pyRound (hls.2.2 * 100), pyRound (hls.2.1 * 100))

/-- `Colour._rgb_to_cmyk`: all-zero input short-circuits to `(0,0,0,100)`,
otherwise the reciprocal formula on `k = 1 - max`. -/
def _rgb_to_cmyk (r g b : ℕ) : ℤ × ℤ × ℤ × ℤ :=
  let rq := (r:ℚ)/255
  let gq := (g:ℚ)/255
  let bq := (b:ℚ)/255
  if rq = 0 ∧ gq = 0 ∧ bq = 0 then (0, 0, 0, 100)
  else
    let k := 1 - max rq (max gq bq)
    (pyRound ((1 - rq - k) * 100 / (1 - k)),
     pyRound ((1 - gq - k) * 100 / (1 - k)),
     pyRound ((1 - bq - k) * 100 / (1 - k)),
     pyRound (k * 100))

/-- One lowercase hexadecimal digit, as Python's `hex` prints it. -/
def hexDigitChar (n : ℕ) : Char :=
  if n < 10 then Char.ofNat ('0'.toNat + n) else Char.ofNat ('a'.toNat + n - 10)

/-- Minimal-length lowercase hexadecimal digits of `n` (Python `hex(n)[2:]` for
`n ≥ 0`), written with explicit fuel so that the kernel can evaluate it; `n`
itself is more than enough fuel since the value shrinks 16-fold each step. -/
def hexAux : ℕ → ℕ → List Char
  | 0, n => [hexDigitChar (n % 16)]
  | fuel + 1, n =>
    if n < 16 then [hexDigitChar n]
    else hexAux fuel (n / 16) ++ [hexDigitChar (n % 16)]

/-- Python `hex(n)[2:]` for `n ≥ 0`. -/
def pyHexDigits (n : ℕ) : List Char := hexAux n n

/-- `str.zfill(k)` for digit strings: left-pad with `'0'` to length `k`. -/
def zfill (k : ℕ) (s : List Char) : List Char :=
  List.replicate (k - s.length) '0' ++ s

/-- `Colour._rgb_to_hex`: each channel as `hex(val)[2:].zfill(2)`, joined,
prefixed with `#`, and the whole string uppercased. -/
def _rgb_to_hex (r g b : ℕ) : String :=
  ⟨('#' :: (zfill 2 (pyHexDigits r) ++ zfill 2 (pyHexDigits g) ++ zfill 2 (pyHexDigits b))).map
    Char.toUpper⟩

/-- The two failure modes of the command handlers: `commands.BadArgument`
raised by the range/format validation, and the `IndexError` escaping from
`Colour.hex` on the empty string. -/
inductive CmdErr
  | badArgument
  | indexError
  deriving DecidableEq

instance {ε α : Type} [DecidableEq ε] [DecidableEq α] : DecidableEq (Except ε α) := fun a b =>
  match a, b with
  | .ok x, .ok y => if h : x = y then .isTrue (by rw [h]) else .isFalse (by simp [h])
  | .error x, .error y => if h : x = y then .isTrue (by rw [h]) else .isFalse (by simp [h])
  | .ok _, .error _ => .isFalse (by simp)
  | .error _, .ok _ => .isFalse (by simp)

/-- `PIL.ImageColor.getrgb("hsv(h, s%, v%)")`: `colorsys.hsv_to_rgb` on the
normalized fractions, each resulting channel scaled by `int(x * 255 + 0.5)`. -/
def pilHsv (h s v : ℤ) : ℤ × ℤ × ℤ :=
  let rgb := hsv_to_rgb ((h:ℚ)/360) ((s:ℚ)/100) ((v:ℚ)/100)
  (pilScale rgb.1, pilScale rgb.2.1, pilScale rgb.2.2)

/-- `PIL.ImageColor.getrgb("hsl(h, s%, l%)")`: note PIL hands the groups to
`colorsys.hls_to_rgb` in `(h, l, s)` order. -/
def pilHsl (h s l : ℤ) : ℤ × ℤ × ℤ :=
  let rgb := hls_to_rgb ((h:ℚ)/360) ((l:ℚ)/100) ((s:ℚ)/100)
  (pilScale rgb.1, pilScale rgb.2.1, pilScale rgb.2.2)

/-- `Colour.rgb`: validate `range(256)` membership of every channel. -/
def rgbCmd (red green blue : ℤ) : Except CmdErr (ℤ × ℤ × ℤ) :=
  if ¬(0 ≤ red ∧ red ≤ 255) ∨ ¬(0 ≤ green ∧ green ≤ 255) ∨ ¬(0 ≤ blue ∧ blue ≤ 255) then
    .error .badArgument
  else .ok (red, green, blue)

/-- `Colour.hsv`: validate hue in `range(361)`, saturation/value in
`range(101)`, then convert through `ImageColor.getrgb`. -/
def hsvCmd (hue saturation value : ℤ) : Except CmdErr (ℤ × ℤ × ℤ) :=
  if ¬(0 ≤ hue ∧ hue ≤ 360) ∨ ¬(0 ≤ saturation ∧ saturation ≤ 100) ∨
      ¬(0 ≤ value ∧ value ≤ 100) then
    .error .badArgument
  else .ok (pilHsv hue saturation value)

/-- `Colour.hsl`: validation as for `hsv`, conversion through `getrgb("hsl…")`. -/
def hslCmd (hue saturation lightness : ℤ) : Except CmdErr (ℤ × ℤ × ℤ) :=
  if ¬(0 ≤ hue ∧ hue ≤ 360) ∨ ¬(0 ≤ saturation ∧ saturation ≤ 100) ∨
      ¬(0 ≤ lightness ∧ lightness ≤ 100) then
    .error .badArgument
  else .ok (pilHsl hue saturation lightness)

/-- `Colour.cmyk`: validate `range(101)` membership, then the direct
per-channel formula `round(255 * (1 - X/100) * (1 - key/100))`. -/
def cmykCmd (cyan magenta yellow key : ℤ) : Except CmdErr (ℤ × ℤ × ℤ) :=
  if ¬(0 ≤ cyan ∧ cyan ≤ 100) ∨ ¬(0 ≤ magenta ∧ magenta ≤ 100) ∨
      ¬(0 ≤ yellow ∧ yellow ≤ 100) ∨ ¬(0 ≤ key ∧ key ≤ 100) then
    .error .badArgument
  else
    .ok (pyRound (255 * (1 - (cyan:ℚ)/100) * (1 - (key:ℚ)/100)),
         pyRound (255 * (1 - (magenta:ℚ)/100) * (1 - (key:ℚ)/100)),
         pyRound (255 * (1 - (yellow:ℚ)/100) * (1 - (key:ℚ)/100)))

/-- Python's `string.hexdigits`. -/
def hexdigits : List Char := "0123456789abcdefABCDEF".data

/-- Value of one hexadecimal digit (either case), as `int(_, 16)` reads it. -/
def hexVal (c : Char) : ℕ :=
  if c.isDigit then c.toNat - '0'.toNat
  else if 'a' ≤ c then c.toNat - 'a'.toNat + 10
  else c.toNat - 'A'.toNat + 10

/-- `Colour.hex`: index `hex_code[0]` (an `IndexError` on the empty string),
prepend `#` when missing, validate length (with `#`) in `(4, 5, 7, 9)` and the
digits against `string.hexdigits`, then parse as `PIL.ImageColor.getrgb` does
(`#rgb` duplicates each digit, i.e. `17 * digit`; 4- and 8-digit forms carry an
alpha value the handler drops).  The final catch-all arm is unreachable: the
length check admits exactly 3, 4, 6 or 8 digits. -/
def hexCmd (s : String) : Except CmdErr (ℕ × ℕ × ℕ) :=
  match s.data with
  | [] => .error .indexError
  | c0 :: rest =>
    let code := if c0 ≠ '#' then '#' :: c0 :: rest else c0 :: rest
    if (code.length = 4 ∨ code.length = 5 ∨ code.length = 7 ∨ code.length = 9) ∧
        ∀ d ∈ code.tail, d ∈ hexdigits then
      match code.tail with
      | [d1, d2, d3] => .ok (17 * hexVal d1, 17 * hexVal d2, 17 * hexVal d3)
      | [d1, d2, d3, _] => .ok (17 * hexVal d1, 17 * hexVal d2, 17 * hexVal d3)
      | [d1, d2, d3, d4, d5, d6] =>
          .ok (16 * hexVal d1 + hexVal d2, 16 * hexVal d3 + hexVal d4, 16 * hexVal d5 + hexVal d6)
      | [d1, d2, d3, d4, d5, d6, _, _] =>
          .ok (16 * hexVal d1 + hexVal d2, 16 * hexVal d3 + hexVal d4, 16 * hexVal d5 + hexVal d6)
      | _ => .error .badArgument
    else .error .badArgument

/-- The basic-latin upper → lower case table. -/
def lowerTable : List (Char × Char) :=
  [('A', 'a'), ('B', 'b'), ('C', 'c'), ('D', 'd'), ('E', 'e'), ('F', 'f'), ('G', 'g'),
   ('H', 'h'), ('I', 'i'), ('J', 'j'), ('K', 'k'), ('L', 'l'), ('M', 'm'), ('N', 'n'),
   ('O', 'o'), ('P', 'p'), ('Q', 'q'), ('R', 'r'), ('S', 's'), ('T', 't'), ('U', 'u'),
   ('V', 'v'), ('W', 'w'), ('X', 'x'), ('Y', 'y'), ('Z', 'z')]

/-- Case folding of one character (table-driven basic-latin lowering, the
range `str.lower` touches for these inputs). -/
def pyLower (c : Char) : Char :=
  match lowerTable.find? (fun p => p.1 == c) with
  | some p => p.2
  | none => c

/-- Modelled from the spec: `rapidfuzz`'s default preprocessing (the library is
not vendored here) — the spec asks for a similarity "robust to minor spelling
variation and case", and its examples score `"#FE0000"` against `"FF0000"` at
80 or above, so non-alphanumeric characters are dropped and case is folded. -/
def default_process (s : List Char) : List Char :=
  (s.filter Char.isAlphanum).map pyLower

/-- Modelled from the spec: plain insert/delete edit distance, the core of a
"normalized edit-distance ratio".  Written with explicit fuel (the summed
length of the two strings bounds the recursion) so the kernel can evaluate it. -/
def indelGo : ℕ → List Char → List Char → ℕ
  | _, [], ys => ys.length
  | _, x :: xs, [] => (x :: xs).length
  | 0, xs, ys => xs.length + ys.length
  | fuel + 1, x :: xs, y :: ys =>
    if x = y then indelGo fuel xs ys
    else 1 + min (indelGo fuel xs (y :: ys)) (indelGo fuel (x :: xs) ys)

/-- Modelled from the spec: insert/delete edit distance between two strings. -/
def indelDist (a b : List Char) : ℕ := indelGo (a.length + b.length) a b

/-- Modelled from the spec: the 0–100 normalized edit-distance ratio
("100 is identical", "completely disjoint strings score near 0"). -/
def simScore (a b : List Char) : ℚ :=
  if a.length + b.length = 0 then 100
  else 100 * (1 - (indelDist a b : ℚ) / (a.length + b.length))

/-- Modelled from the spec: the similarity actually applied by the lookups —
preprocessing followed by the normalized ratio. -/
def fuzzScore (a b : List Char) : ℚ :=
  simScore (default_process a) (default_process b)

/-- One scan step of `extractOne`: a later choice replaces the incumbent only
on a strictly larger score. -/
def extractStep (query : List Char) (best : Option (List Char × ℚ)) (c : List Char) :
    Option (List Char × ℚ) :=
  match best with
  | none => some (c, fuzzScore query c)
  | some p => if p.2 < fuzzScore query c then some (c, fuzzScore query c) else some p

/-- Modelled from the spec: `rapidfuzz.process.extractOne` — score every
choice, keep the first choice attaining the running maximum, and return it
with its score provided the score reaches the cutoff; `none` otherwise (also
for an empty choice list, where the Python caller catches the resulting
error). -/
def extractOne (query : List Char) (choices : List (List Char)) (cutoff : ℚ) :
    Option (List Char × ℚ) :=
  match choices.foldl (extractStep query) none with
  | none => none
  | some p => if cutoff ≤ p.2 then some p else none

/-- `Colour._rgb_to_name`: fuzzy-match the uppercase hex code of `rgb` against
the palette's hex values (cutoff 80), then return the first palette name whose
hex equals the matched value; `None` when nothing reached the cutoff.  The
palette is the cog's `colour_mapping`, an insertion-ordered name → hex dict,
modelled as an association list. -/
def _rgb_to_name (palette : List (String × String)) (r g b : ℕ) : Option String :=
  match extractOne (_rgb_to_hex r g b).data (palette.map fun e => e.2.data) 80 with
  | none => none
  | some p => (palette.find? fun e => e.2.data == p.1).map fun e => e.1

/-- `Colour.match_colour_name`: fuzzy-match the query against the palette's
names (cutoff 80) and return `"#" ++` the matched entry's hex value. -/
def match_colour_name (palette : List (String × String)) (q : String) : Option String :=
  match extractOne q.data (palette.map fun e => e.1.data) 80 with
  | none => none
  | some p => (palette.find? fun e => e.1.data == p.1).map fun e => "#" ++ e.2

/-! ### Integer-level mirrors and specification-side helpers

The claim statements and the exhaustive lemmas below work with pure natural
arithmetic mirrors of the rational pipeline; the bridge lemmas proving the
mirrors faithful to the rational definitions come after the definitions. -/

/-- Largest component of an integer triple. -/
def max3I (t : ℤ × ℤ × ℤ) : ℤ := max t.1 (max t.2.1 t.2.2)

/-- Round half to even of the fraction `n / d` (for `d > 0`), in ℕ. -/
def rheNat (n d : ℕ) : ℕ :=
  if 2 * (n % d) < d then n / d
  else if d < 2 * (n % d) then n / d + 1
  else if n / d % 2 = 0 then n / d else n / d + 1

/-- `rheNat` rephrased with `Nat.blt`/`Nat.beq` folds, which the kernel
evaluates without unfolding `Decidable` instances; used only inside the
big enumerations. -/
def rheNatB (n d : ℕ) : ℕ :=
  cond (Nat.blt (2 * (n % d)) d) (n / d)
    (cond (Nat.blt d (2 * (n % d))) (n / d + 1)
      (cond (Nat.beq (n / d % 2) 0) (n / d) (n / d + 1)))

/-- Bounded boolean universal: `allBelow f n = true` iff `f` holds below `n`. -/
def allBelow (f : ℕ → Bool) : ℕ → Bool
  | 0 => true
  | n + 1 => f n && allBelow f n

/-- The cyan component `round(100 * (M - x) / M)` produced by `_rgb_to_cmyk`
for a channel `x` under maximum `M` (and likewise magenta and yellow). -/
def cmykC (M x : ℕ) : ℕ := rheNat (100 * (M - x)) M

/-- The key component `round(100 * (255 - M) / 255)` produced by `_rgb_to_cmyk`. -/
def cmykK (M : ℕ) : ℕ := rheNat (100 * (255 - M)) 255

/-- One channel of `Colour.cmyk`'s reverse formula,
`round(255 * (1 - c/100) * (1 - k/100))`, over ℕ. -/
def cmykBackN (c k : ℕ) : ℕ := rheNat (255 * (100 - c) * (100 - k)) 10000

/-- Boolean check that one CMYK round-trip channel lands within `±2`. -/
def cmykPairCheck (M x : ℕ) : Bool :=
  let c := rheNatB (100 * (M - x)) M
  let k := rheNatB (100 * (255 - M)) 255
  let back := rheNatB (255 * (100 - c) * (100 - k)) 10000
  Nat.ble back (x + 2) && Nat.ble x (back + 2)

/-- The value channel a maximum-`M` colour gets back after the HSV round trip:
`v = round(100·M/255)` out, `int(255·(v/100) + 0.5)` back. -/
def hsvBackMax (M : ℕ) : ℕ := (510 * rheNat (100 * M) 255 + 100) / 200

/-- The integer saturation `_rgb_to_hsl` assigns to a triple with maximum `M`
and minimum `mn`. -/
def hslS (M mn : ℕ) : ℕ :=
  if M = mn then 0
  else if M + mn ≤ 255 then rheNat (100 * (M - mn)) (M + mn)
  else rheNat (100 * (M - mn)) (510 - (M + mn))

/-- The integer lightness `_rgb_to_hsl` assigns: `round(100·(M + mn)/510)`. -/
def hslL (M mn : ℕ) : ℕ := rheNat (100 * (M + mn)) 510

/-- The maximal channel `hls_to_rgb` hands back for integer saturation `s`
and lightness `l`: `int(255·m2 + 0.5)` for colorsys' `m2` (or `l` itself
when `s = 0`). -/
def hslBackOfSL (s l : ℕ) : ℕ :=
  if s = 0 then (510 * l + 100) / 200
  else if l ≤ 50 then (510 * (l * (100 + s)) + 10000) / 20000
  else (510 * (100 * l + 100 * s - l * s) + 10000) / 20000

/-- The maximal channel after the full HSL round trip of a triple with
maximum `M` and minimum `mn`. -/
def hslBackMax (M mn : ℕ) : ℕ := hslBackOfSL (hslS M mn) (hslL M mn)

/-- `hslBackMax` with `cond`/`Nat.blt` folds, for the big enumeration. -/
def hslBackMaxB (M mn : ℕ) : ℕ :=
  let s := cond (Nat.beq M mn) 0
    (cond (Nat.ble (M + mn) 255) (rheNatB (100 * (M - mn)) (M + mn))
      (rheNatB (100 * (M - mn)) (510 - (M + mn))))
  let l := rheNatB (100 * (M + mn)) 510
  cond (Nat.beq s 0) ((510 * l + 100) / 200)
    (cond (Nat.ble l 50) ((510 * (l * (100 + s)) + 10000) / 20000)
      ((510 * (100 * l + 100 * s - l * s) + 10000) / 20000))

/-- Boolean check that the HSL round trip reproduces the maximum within `±3`. -/
def hslPairCheck (M mn : ℕ) : Bool :=
  Nat.ble (hslBackMaxB M mn) (M + 3) && Nat.ble M (hslBackMaxB M mn + 3)

/-- Specification-side formatter: a channel as exactly two uppercase
hexadecimal digits (most significant first). -/
def hex2U (n : ℕ) : List Char :=
  [(hexDigitChar (n / 16)).toUpper, (hexDigitChar (n % 16)).toUpper]

/-- The digit part of a hex-code string: the characters after an optional
leading `'#'`. -/
def stripHash : List Char → List Char
  | c :: t => if c = '#' then t else c :: t
  | [] => []

/-- The digit-level body of `hexCmd`: what the handler computes once the
leading `#` has been normalized away (`code = '#' :: ds`). -/
def hexBody (ds : List Char) : Except CmdErr (ℕ × ℕ × ℕ) :=
  if (ds.length + 1 = 4 ∨ ds.length + 1 = 5 ∨ ds.length + 1 = 7 ∨ ds.length + 1 = 9) ∧
      ∀ d ∈ ds, d ∈ hexdigits then
    match ds with
    | [d1, d2, d3] => .ok (17 * hexVal d1, 17 * hexVal d2, 17 * hexVal d3)
    | [d1, d2, d3, _] => .ok (17 * hexVal d1, 17 * hexVal d2, 17 * hexVal d3)
    | [d1, d2, d3, d4, d5, d6] =>
        .ok (16 * hexVal d1 + hexVal d2, 16 * hexVal d3 + hexVal d4, 16 * hexVal d5 + hexVal d6)
    | [d1, d2, d3, d4, d5, d6, _, _] =>
        .ok (16 * hexVal d1 + hexVal d2, 16 * hexVal d3 + hexVal d4, 16 * hexVal d5 + hexVal d6)
    | _ => .error .badArgument
  else .error .badArgument

/-- Specification-side well-formedness of a hex digit string: length 3, 4, 6
or 8 and every character a hexadecimal digit. -/
def hexShape (ds : List Char) : Prop :=
  (ds.length = 3 ∨ ds.length = 4 ∨ ds.length = 6 ∨ ds.length = 8) ∧ ∀ c ∈ ds, c ∈ hexdigits

/-- Specification-side reading of six hex digits as three channels. -/
def parse6 : List Char → ℕ × ℕ × ℕ
  | [a1, a2, b1, b2, c1, c2] =>
      (16 * hexVal a1 + hexVal a2, 16 * hexVal b1 + hexVal b2, 16 * hexVal c1 + hexVal c2)
  | _ => (0, 0, 0)

/-- Specification-side semantics of the accepted hex forms, written from the
claim's words: 3-digit shorthand expands each digit by duplication, the
4- and 8-digit forms drop their trailing alpha component. -/
def parseHexDigits : List Char → ℕ × ℕ × ℕ
  | [a, b, c] => parse6 [a, a, b, b, c, c]
  | [a, b, c, _] => parse6 [a, a, b, b, c, c]
  | [a1, a2, b1, b2, c1, c2] => parse6 [a1, a2, b1, b2, c1, c2]
  | [a1, a2, b1, b2, c1, c2, _, _] => parse6 [a1, a2, b1, b2, c1, c2]
  | _ => (0, 0, 0)

/-- Lower-case image of a string, character by character. -/
def lowerStr (s : String) : String := ⟨s.data.map pyLower⟩

/-- The first entry of `w :: cs` attaining the maximal `fuzzScore` against
`query` (specification-side description of the scan in `extractOne`). -/
def firstMax (query : List Char) : List Char → List (List Char) → List Char
  | w, [] => w
  | w, c :: cs =>
    if fuzzScore query w < fuzzScore query c then firstMax query c cs
    else firstMax query w cs

/-- The `m2` interpolation bound of `colorsys.hls_to_rgb` (`l` when `s = 0`). -/
def hlsM2 (l2 s2 : ℚ) : ℚ :=
  if s2 = 0 then l2 else if l2 ≤ 1/2 then l2 * (1 + s2) else l2 + s2 - l2 * s2

/-- The `m1` interpolation bound of `colorsys.hls_to_rgb`: `2*l - m2`. -/
def hlsM1 (l2 s2 : ℚ) : ℚ := 2 * l2 - hlsM2 l2 s2

/-- The integer saturation `_rgb_to_hsv` assigns (0 for gray). -/
def hsvS (M mn : ℕ) : ℕ := if M = mn then 0 else rheNat (100 * (M - mn)) M

/-- The minimal channel `hsv_to_rgb` hands back, `int(255·v·(1-s) + 0.5)` for
integer `v`, `s` percentages. -/
def hsvBackMinN (v s : ℕ) : ℕ := (510 * (v * (100 - s)) + 10000) / 20000

/-- Numerator (scale 1/10000) of colorsys' `m1` at integer `s`, `l`. -/
def hslM1N (s l : ℕ) : ℕ :=
  if s = 0 then 100 * l else if l ≤ 50 then l * (100 - s) else 100 * l - s * (100 - l)

/-- Numerator (scale 1/10000) of colorsys' `m2` at integer `s`, `l`. -/
def hslM2N (s l : ℕ) : ℕ :=
  if s = 0 then 100 * l else if l ≤ 50 then l * (100 + s) else 100 * l + s * (100 - l)

/-- The minimal channel `hls_to_rgb` hands back: `int(255·m1 + 0.5)`. -/
def hslBackMinN (s l : ℕ) : ℕ := (510 * hslM1N s l + 10000) / 20000

/-- `|a - b|` over ℕ, in `cond`/`Nat.ble` form for fast kernel evaluation. -/
def absSub (a b : ℕ) : ℕ := cond (Nat.ble a b) (b - a) (a - b)

/-- `max a b` over ℕ, in `cond`/`Nat.ble` form for fast kernel evaluation. -/
def natMaxB (a b : ℕ) : ℕ := cond (Nat.ble a b) b a

/-- `|a - b| ≤ k` over ℕ, in `Nat.ble` form for fast kernel evaluation. -/
def distLeB (a b k : ℕ) : Bool := Nat.ble a (b + k) && Nat.ble b (a + k)

/-- Per-pair boolean check for the HSV round trip: the minimal channel comes
back within 3, and the endpoint inequality that bounds the middle channel
within 3 (see `pilScale_affine_bound`) holds. -/
def hsvPairCheckB (M mn : ℕ) : Bool :=
  cond (Nat.ble M mn) true
    (let v := rheNatB (100 * M) 255
     let s := rheNatB (100 * (M - mn)) M
     let T0 := 255 * (v * (100 - s))
     distLeB ((510 * (v * (100 - s)) + 10000) / 20000) mn 3 &&
       Nat.blt (12 * natMaxB (absSub T0 (10000 * mn)) (absSub (25500 * v) (10000 * M))
         + 60000 + 1000 * (M - mn)) 480000)

/-- Per-pair boolean check for the HSL round trip: the minimal channel comes
back within 5, and the endpoint inequality that bounds the middle channel
within 5 holds. -/
def hslPairCheck2B (M mn : ℕ) : Bool :=
  cond (Nat.ble M mn) true
    (let l := rheNatB (100 * (M + mn)) 510
     let s := cond (Nat.ble (M + mn) 255) (rheNatB (100 * (M - mn)) (M + mn))
       (rheNatB (100 * (M - mn)) (510 - (M + mn)))
     let m1 := cond (Nat.beq s 0) (100 * l)
       (cond (Nat.ble l 50) (l * (100 - s)) (100 * l - s * (100 - l)))
     let m2 := cond (Nat.beq s 0) (100 * l)
       (cond (Nat.ble l 50) (l * (100 + s)) (100 * l + s * (100 - l)))
     distLeB ((510 * m1 + 10000) / 20000) mn 5 &&
       Nat.blt (12 * natMaxB (absSub (255 * m1) (10000 * mn)) (absSub (255 * m2) (10000 * M))
         + 60000 + 1000 * (M - mn)) 720000)

/-! ### Bridge lemmas -/

theorem ratFloor_eq (q : ℚ) : q.floor = ⌊q⌋ := by
  rw [Rat.floor_def', Rat.floor_def]

theorem pyRound_eq (q : ℚ) :
    pyRound q = if Int.fract q < 1/2 then ⌊q⌋
      else if 1/2 < Int.fract q then ⌊q⌋ + 1
      else if ⌊q⌋ % 2 = 0 then ⌊q⌋ else ⌊q⌋ + 1 := by
  rw [pyRound, ratFloor_eq, Int.fract]

theorem pyMod1_eq (q : ℚ) : pyMod1 q = Int.fract q := by
  rw [pyMod1, ratFloor_eq, Int.fract]

theorem pyRound_intCast (n : ℤ) : pyRound ((n : ℚ)) = n := by
  rw [pyRound_eq, Int.fract_intCast, Int.floor_intCast]
  norm_num

theorem pyRound_le (q : ℚ) (b : ℤ) (h : q ≤ (b : ℚ)) : pyRound q ≤ b := by
  have hfl : ⌊q⌋ ≤ b := by
    calc ⌊q⌋ ≤ ⌊(b : ℚ)⌋ := Int.floor_le_floor h
    _ = b := Int.floor_intCast b
  have hcase : ∀ hq : ⌊q⌋ = b, Int.fract q < 1/2 := by
    intro hq
    have : q = (b : ℚ) := le_antisymm h (by rw [← hq]; exact Int.floor_le q)
    rw [this, Int.fract_intCast]
    norm_num
  rw [pyRound_eq]
  split_ifs with h1 h2 h3
  · exact hfl
  · rcases lt_or_eq_of_le hfl with h' | h'
    · omega
    · exact absurd (hcase h') h1
  · exact hfl
  · rcases lt_or_eq_of_le hfl with h' | h'
    · omega
    · exact absurd (hcase h') h1

theorem le_pyRound (q : ℚ) (a : ℤ) (h : (a : ℚ) ≤ q) : a ≤ pyRound q := by
  have hfl : a ≤ ⌊q⌋ := Int.le_floor.mpr h
  rw [pyRound_eq]
  split_ifs <;> omega

theorem pilScale_mono {a b : ℚ} (h : a ≤ b) : pilScale a ≤ pilScale b := by
  rw [pilScale, pilScale, ratFloor_eq, ratFloor_eq]
  exact Int.floor_le_floor (by linarith)

theorem rheNat_eq_pyRound (n d : ℕ) (hd : 0 < d) :
    (rheNat n d : ℤ) = pyRound ((n : ℚ) / d) := by
  have hdq : (0:ℚ) < (d:ℚ) := by exact_mod_cast hd
  have key : ((n:ℚ)) = d * ((n / d : ℕ) : ℚ) + ((n % d : ℕ) : ℚ) := by
    exact_mod_cast congrArg (Nat.cast : ℕ → ℚ) (Nat.div_add_mod n d).symm
  have hfl : ⌊(n : ℚ) / d⌋ = ((n / d : ℕ) : ℤ) := by
    rw [Rat.floor_natCast_div_natCast]
    exact (Int.natCast_ediv n d).symm
  have hfr : Int.fract ((n : ℚ) / d) = ((n % d : ℕ) : ℚ) / d := by
    rw [Int.fract, hfl]
    have hcc : (((n / d : ℕ) : ℤ) : ℚ) = ((n / d : ℕ) : ℚ) := by norm_cast
    rw [hcc, eq_div_iff hdq.ne', sub_mul, div_mul_cancel₀ _ hdq.ne']
    linarith [key]
  have hlt : (((n % d : ℕ) : ℚ) / d < 1/2) ↔ (2 * (n % d) < d) := by
    rw [div_lt_iff₀ hdq]
    constructor <;> intro hx
    · exact_mod_cast (show ((2 * (n % d) : ℕ) : ℚ) < ((d : ℕ) : ℚ) by push_cast; linarith)
    · have : ((2 * (n % d) : ℕ) : ℚ) < ((d : ℕ) : ℚ) := by exact_mod_cast hx
      push_cast at this
      linarith
  have hgt : ((1:ℚ)/2 < ((n % d : ℕ) : ℚ) / d) ↔ (d < 2 * (n % d)) := by
    rw [lt_div_iff₀ hdq]
    constructor <;> intro hx
    · exact_mod_cast (show ((d : ℕ) : ℚ) < ((2 * (n % d) : ℕ) : ℚ) by push_cast; linarith)
    · have : ((d : ℕ) : ℚ) < ((2 * (n % d) : ℕ) : ℚ) := by exact_mod_cast hx
      push_cast at this
      linarith
  have hpar : ((((n / d : ℕ)) : ℤ) % 2 = 0) ↔ ((n / d) % 2 = 0) := by omega
  rw [pyRound_eq, hfr, hfl, rheNat]
  simp only [hlt, hgt, hpar]
  split_ifs <;> push_cast <;> ring

theorem pyRound_zero : pyRound 0 = 0 := by
  simpa using pyRound_intCast 0

theorem cond_blt (a b x y : ℕ) : cond (Nat.blt a b) x y = if a < b then x else y := by
  simp [Nat.blt_eq]

theorem cond_ble (a b x y : ℕ) : cond (Nat.ble a b) x y = if a ≤ b then x else y := by
  simp [Nat.ble_eq]

theorem cond_beq (a b x y : ℕ) : cond (Nat.beq a b) x y = if a = b then x else y := by
  simp [Nat.beq_eq]

theorem rheNatB_eq (n d : ℕ) : rheNatB n d = rheNat n d := by
  rw [rheNatB, rheNat, cond_blt, cond_blt, cond_beq]

theorem hslBackMaxB_eq (M mn : ℕ) : hslBackMaxB M mn = hslBackMax M mn := by
  rw [hslBackMaxB, hslBackMax, hslS, hslL, hslBackOfSL,
    rheNatB_eq, rheNatB_eq, rheNatB_eq, cond_beq, cond_ble, cond_beq, cond_ble]

theorem allBelow_eq_true {f : ℕ → Bool} :
    ∀ {n : ℕ}, allBelow f n = true → ∀ i, i < n → f i = true
  | n + 1, h, i, hi => by
    rw [allBelow, Bool.and_eq_true] at h
    rcases Nat.lt_succ_iff_lt_or_eq.mp hi with h' | rfl
    · exact allBelow_eq_true h.2 i h'
    · exact h.1

/-- `int((a/b)·255 + 0.5)` as a natural division, for natural `a`, `b`. -/
theorem pilScale_natCast_div (a b : ℕ) (hb : 0 < b) :
    pilScale ((a : ℚ) / b) = (((510 * a + b) / (2 * b) : ℕ) : ℤ) := by
  have hbq : (0:ℚ) < (b:ℚ) := by exact_mod_cast hb
  have harg : (a : ℚ) / b * 255 + 1/2 = ((510 * a + b : ℕ) : ℚ) / ((2 * b : ℕ) : ℚ) := by
    push_cast
    field_simp
    ring
  rw [pilScale, ratFloor_eq, harg, Rat.floor_natCast_div_natCast]
  exact (Int.natCast_ediv _ _).symm

/-- Cast of a natural triple maximum into the rational channel fractions. -/
theorem cast_max_div (r g b : ℕ) :
    ((max r (max g b) : ℕ) : ℚ) / 255 = max ((r:ℚ)/255) (max ((g:ℚ)/255) ((b:ℚ)/255)) := by
  push_cast [Nat.cast_max]
  rw [max_div_div_right (by norm_num : (0:ℚ) ≤ 255), max_div_div_right (by norm_num : (0:ℚ) ≤ 255)]

/-- Cast of a natural triple minimum into the rational channel fractions. -/
theorem cast_min_div (r g b : ℕ) :
    ((min r (min g b) : ℕ) : ℚ) / 255 = min ((r:ℚ)/255) (min ((g:ℚ)/255) ((b:ℚ)/255)) := by
  push_cast [Nat.cast_min]
  rw [min_div_div_right (by norm_num : (0:ℚ) ≤ 255), min_div_div_right (by norm_num : (0:ℚ) ≤ 255)]

/-- When three rationals are bounded by `V` and one attains it, scaling all
three and taking the maximum is scaling `V`. -/
theorem max3I_pilScale {a b c V : ℚ} (ha : a ≤ V) (hb : b ≤ V) (hc : c ≤ V)
    (hone : a = V ∨ b = V ∨ c = V) :
    max3I (pilScale a, pilScale b, pilScale c) = pilScale V := by
  rw [max3I]
  apply le_antisymm
  · exact max_le (pilScale_mono ha) (max_le (pilScale_mono hb) (pilScale_mono hc))
  · rcases hone with rfl | rfl | rfl
    · exact le_max_left _ _
    · exact le_trans (le_max_left _ _) (le_max_right _ _)
    · exact le_trans (le_max_right _ _) (le_max_right _ _)

/-! ### Exhaustive facts, checked by kernel evaluation -/

set_option maxRecDepth 100000 in
set_option maxHeartbeats 4000000 in
theorem cmykPair_all :
    allBelow (fun M => allBelow (fun x => cmykPairCheck M x) (M + 1)) 256 = true := by
  decide

set_option maxRecDepth 100000 in
set_option maxHeartbeats 4000000 in
theorem hslPair_all :
    allBelow (fun M => allBelow (fun mn => hslPairCheck M mn) (M + 1)) 256 = true := by
  decide

set_option maxRecDepth 100000 in
set_option maxHeartbeats 8000000 in
theorem hsvPair2_all :
    allBelow (fun M => allBelow (fun mn => hsvPairCheckB M mn) (M + 1)) 256 = true := by
  decide

set_option maxRecDepth 100000 in
set_option maxHeartbeats 8000000 in
theorem hslPair2_all :
    allBelow (fun M => allBelow (fun mn => hslPairCheck2B M mn) (M + 1)) 256 = true := by
  decide

set_option maxRecDepth 100000 in
set_option maxHeartbeats 1000000 in
theorem hsvMax_all :
    allBelow (fun M => Nat.ble (hsvBackMax M) (M + 1) && Nat.ble M (hsvBackMax M + 1)) 256
      = true := by
  decide

set_option maxRecDepth 10000 in
set_option maxHeartbeats 1000000 in
theorem hexDigits_all :
    allBelow (fun n => zfill 2 (pyHexDigits n) == [hexDigitChar (n / 16), hexDigitChar (n % 16)])
      256 = true := by
  decide

/-- Prop form of `cmykPair_all`: every CMYK round-trip channel is within 2. -/
theorem cmykPair_bound (M x : ℕ) (hM : M < 256) (hx : x ≤ M) :
    cmykBackN (cmykC M x) (cmykK M) ≤ x + 2 ∧ x ≤ cmykBackN (cmykC M x) (cmykK M) + 2 := by
  have h := allBelow_eq_true (allBelow_eq_true cmykPair_all M hM) x (by omega)
  rw [cmykPairCheck, Bool.and_eq_true, Nat.ble_eq, Nat.ble_eq] at h
  simpa only [cmykBackN, cmykC, cmykK, rheNatB_eq] using h

/-- Prop form of `hslPair_all`. -/
theorem hslPair_bound (M mn : ℕ) (hM : M < 256) (hmn : mn ≤ M) :
    hslBackMax M mn ≤ M + 3 ∧ M ≤ hslBackMax M mn + 3 := by
  have h := allBelow_eq_true (allBelow_eq_true hslPair_all M hM) mn (by omega)
  rw [hslPairCheck, Bool.and_eq_true, Nat.ble_eq, Nat.ble_eq, hslBackMaxB_eq] at h
  exact h

/-- Prop form of `hsvMax_all`. -/
theorem hsvMax_bound (M : ℕ) (hM : M < 256) :
    hsvBackMax M ≤ M + 1 ∧ M ≤ hsvBackMax M + 1 := by
  have h := allBelow_eq_true hsvMax_all M hM
  rw [Bool.and_eq_true, Nat.ble_eq, Nat.ble_eq] at h
  exact h

/-- Prop form of `hexDigits_all`. -/
theorem hexDigits_eq (n : ℕ) (hn : n < 256) :
    zfill 2 (pyHexDigits n) = [hexDigitChar (n / 16), hexDigitChar (n % 16)] := by
  have h := allBelow_eq_true hexDigits_all n hn
  exact eq_of_beq h

/-! CMYK chain -/

theorem cmyk_channel (x M : ℕ) (hx : x ≤ M) (hM : 0 < M) :
    pyRound ((1 - (x:ℚ)/255 - (1 - (M:ℚ)/255)) * 100 / (1 - (1 - (M:ℚ)/255)))
      = (cmykC M x : ℤ) := by
  have hMq : (0:ℚ) < (M:ℚ) := by exact_mod_cast hM
  have harg : (1 - (x:ℚ)/255 - (1 - (M:ℚ)/255)) * 100 / (1 - (1 - (M:ℚ)/255))
      = ((100 * (M - x) : ℕ) : ℚ) / (M : ℚ) := by
    push_cast [Nat.cast_sub hx]
    field_simp
    ring
  rw [harg, cmykC, rheNat_eq_pyRound _ _ hM]

theorem cmyk_kchannel (M : ℕ) (hM : M ≤ 255) :
    pyRound ((1 - (M:ℚ)/255) * 100) = (cmykK M : ℤ) := by
  have harg : (1 - (M:ℚ)/255) * 100 = ((100 * (255 - M) : ℕ) : ℚ) / (255 : ℚ) := by
    push_cast [Nat.cast_sub hM]
    field_simp
    ring
  rw [harg, show ((255:ℚ)) = ((255:ℕ):ℚ) by norm_num, cmykK,
    rheNat_eq_pyRound _ _ (by norm_num)]

theorem cmyk_comps (r g b : ℕ) (h0 : ¬(r = 0 ∧ g = 0 ∧ b = 0)) (hM255 : max r (max g b) ≤ 255) :
    _rgb_to_cmyk r g b =
      ((cmykC (max r (max g b)) r : ℤ), (cmykC (max r (max g b)) g : ℤ),
       (cmykC (max r (max g b)) b : ℤ), (cmykK (max r (max g b)) : ℤ)) := by
  have hrM : r ≤ max r (max g b) := le_max_left _ _
  have hgM : g ≤ max r (max g b) := le_trans (le_max_left _ _) (le_max_right _ _)
  have hbM : b ≤ max r (max g b) := le_trans (le_max_right _ _) (le_max_right _ _)
  have hMpos : 0 < max r (max g b) := by omega
  have hz : ¬((r:ℚ)/255 = 0 ∧ (g:ℚ)/255 = 0 ∧ (b:ℚ)/255 = 0) := by
    simp only [div_eq_zero_iff, Nat.cast_eq_zero, OfNat.ofNat_ne_zero, or_false]
    exact h0
  rw [_rgb_to_cmyk]
  rw [if_neg hz]
  have hmx : max ((r:ℚ)/255) (max ((g:ℚ)/255) ((b:ℚ)/255)) = ((max r (max g b) : ℕ) : ℚ) / 255 :=
    (cast_max_div r g b).symm
  rw [hmx]
  exact Prod.ext (cmyk_channel r _ hrM hMpos) (Prod.ext (cmyk_channel g _ hgM hMpos)
    (Prod.ext (cmyk_channel b _ hbM hMpos) (cmyk_kchannel _ hM255)))

theorem cmykC_le (M x : ℕ) (hx : x ≤ M) (hM : 0 < M) : cmykC M x ≤ 100 := by
  have h : (cmykC M x : ℤ) ≤ (100 : ℤ) := by
    rw [cmykC, rheNat_eq_pyRound _ _ hM]
    apply pyRound_le
    have hMq : (0:ℚ) < (M:ℚ) := by exact_mod_cast hM
    rw [div_le_iff₀ hMq]
    push_cast
    nlinarith [Nat.sub_le M x, (show ((M - x : ℕ) : ℚ) ≤ (M : ℚ) by exact_mod_cast Nat.cast_le.mpr (Nat.sub_le M x))]
  exact_mod_cast h

theorem cmykK_le (M : ℕ) (hM : M ≤ 255) : cmykK M ≤ 100 := by
  have h : (cmykK M : ℤ) ≤ (100 : ℤ) := by
    rw [cmykK, rheNat_eq_pyRound _ _ (by norm_num)]
    apply pyRound_le
    rw [div_le_iff₀ (by norm_num : (0:ℚ) < ((255:ℕ):ℚ))]
    push_cast [Nat.cast_sub hM]
    have : (0:ℚ) ≤ (M:ℚ) := by positivity
    linarith
  exact_mod_cast h

theorem cmyk_back_channel (c k : ℕ) (hc : c ≤ 100) (hk : k ≤ 100) :
    pyRound (255 * (1 - (((c : ℕ) : ℤ) : ℚ)/100) * (1 - (((k : ℕ) : ℤ) : ℚ)/100))
      = (cmykBackN c k : ℤ) := by
  have harg : 255 * (1 - (((c : ℕ) : ℤ) : ℚ)/100) * (1 - (((k : ℕ) : ℤ) : ℚ)/100)
      = ((255 * (100 - c) * (100 - k) : ℕ) : ℚ) / ((10000 : ℕ) : ℚ) := by
    rw [eq_div_iff (by norm_num : ((10000:ℕ):ℚ) ≠ 0)]
    push_cast [Nat.cast_sub hc, Nat.cast_sub hk]
    ring
  rw [harg, cmykBackN, rheNat_eq_pyRound _ _ (by norm_num)]

/-- C2 (amended): for every RGB triple with each channel in `[0, 255]`, the
round trip through `_rgb_to_cmyk` and the `cmyk` command reproduces every
channel within 2 (the claimed bound of 1 fails, see the counterexample
below), and `_rgb_to_cmyk 0 0 0` is exactly `(0, 0, 0, 100)`. -/
theorem c2_cmyk_roundtrip (r g b : ℕ) (hr : r ≤ 255) (hg : g ≤ 255) (hb : b ≤ 255) :
    (∃ t : ℤ × ℤ × ℤ,
        (cmykCmd (_rgb_to_cmyk r g b).1 (_rgb_to_cmyk r g b).2.1
          (_rgb_to_cmyk r g b).2.2.1 (_rgb_to_cmyk r g b).2.2.2) = .ok t ∧
        (t.1 - r).natAbs ≤ 2 ∧ (t.2.1 - g).natAbs ≤ 2 ∧ (t.2.2 - b).natAbs ≤ 2) ∧
      _rgb_to_cmyk 0 0 0 = (0, 0, 0, 100) := by
  constructor
  · by_cases h0 : r = 0 ∧ g = 0 ∧ b = 0
    · rcases h0 with ⟨rfl, rfl, rfl⟩
      exact ⟨(0, 0, 0), by decide, by decide, by decide, by decide⟩
    · have hrM : r ≤ max r (max g b) := le_max_left _ _
      have hgM : g ≤ max r (max g b) := le_trans (le_max_left _ _) (le_max_right _ _)
      have hbM : b ≤ max r (max g b) := le_trans (le_max_right _ _) (le_max_right _ _)
      have hM255 : max r (max g b) ≤ 255 := max_le hr (max_le hg hb)
      have hMpos : 0 < max r (max g b) := by omega
      rw [cmyk_comps r g b h0 hM255]
      set M := max r (max g b) with hMdef
      have hcr := cmykC_le M r hrM hMpos
      have hcg := cmykC_le M g hgM hMpos
      have hcb := cmykC_le M b hbM hMpos
      have hk := cmykK_le M hM255
      have hcmd : cmykCmd ((cmykC M r : ℕ) : ℤ) ((cmykC M g : ℕ) : ℤ)
          ((cmykC M b : ℕ) : ℤ) ((cmykK M : ℕ) : ℤ)
          = .ok (((cmykBackN (cmykC M r) (cmykK M) : ℕ) : ℤ),
              ((cmykBackN (cmykC M g) (cmykK M) : ℕ) : ℤ),
              ((cmykBackN (cmykC M b) (cmykK M) : ℕ) : ℤ)) := by
        rw [cmykCmd, if_neg]
        · rw [cmyk_back_channel _ _ hcr hk, cmyk_back_channel _ _ hcg hk,
            cmyk_back_channel _ _ hcb hk]
        · push_neg
          refine ⟨⟨Int.ofNat_nonneg _, ?_⟩, ⟨Int.ofNat_nonneg _, ?_⟩,
            ⟨Int.ofNat_nonneg _, ?_⟩, ⟨Int.ofNat_nonneg _, ?_⟩⟩ <;> exact_mod_cast (by assumption)
      refine ⟨_, hcmd, ?_, ?_, ?_⟩ <;> dsimp only
      · have h1 := cmykPair_bound M r (by omega) hrM
        omega
      · have h1 := cmykPair_bound M g (by omega) hgM
        omega
      · have h1 := cmykPair_bound M b (by omega) hbM
        omega
  · decide

/-! HSV chain -/

theorem pyRound_mod1_bounds (x : ℚ) :
    0 ≤ pyRound (pyMod1 x * 360) ∧ pyRound (pyMod1 x * 360) ≤ 360 := by
  have h0 := Int.fract_nonneg x
  have h1 := Int.fract_lt_one x
  rw [pyMod1_eq]
  constructor
  · exact le_pyRound _ 0 (by push_cast; nlinarith)
  · exact pyRound_le _ 360 (by push_cast; nlinarith)

theorem rgbToHsv_proj (r g b : ℕ) :
    _rgb_to_hsv r g b =
      (pyRound ((rgb_to_hsv ((r:ℚ)/255) ((g:ℚ)/255) ((b:ℚ)/255)).1 * 360),
       pyRound ((rgb_to_hsv ((r:ℚ)/255) ((g:ℚ)/255) ((b:ℚ)/255)).2.1 * 100),
       pyRound ((rgb_to_hsv ((r:ℚ)/255) ((g:ℚ)/255) ((b:ℚ)/255)).2.2 * 100)) := rfl

theorem rgb_to_hsv_fst (a b c : ℚ) : ∃ x, (rgb_to_hsv a b c).1 = pyMod1 x := by
  rw [rgb_to_hsv]
  by_cases h : min a (min b c) = max a (max b c)
  · rw [if_pos h]
    exact ⟨0, by rw [pyMod1_eq, Int.fract_zero]⟩
  · rw [if_neg h]
    exact ⟨_, rfl⟩

theorem rgb_to_hsv_snd (a b c : ℚ) :
    (rgb_to_hsv a b c).2.1 =
      if min a (min b c) = max a (max b c) then 0
      else (max a (max b c) - min a (min b c)) / max a (max b c) := by
  rw [rgb_to_hsv]
  split_ifs <;> rfl

theorem rgb_to_hsv_thd (a b c : ℚ) : (rgb_to_hsv a b c).2.2 = max a (max b c) := by
  rw [rgb_to_hsv]
  split_ifs <;> rfl

theorem hsv_v_eq (r g b : ℕ) :
    (_rgb_to_hsv r g b).2.2 = ((rheNat (100 * max r (max g b)) 255 : ℕ) : ℤ) := by
  have harg : max ((r:ℚ)/255) (max ((g:ℚ)/255) ((b:ℚ)/255)) * 100
      = ((100 * max r (max g b) : ℕ) : ℚ) / ((255 : ℕ) : ℚ) := by
    rw [← cast_max_div]
    push_cast
    ring
  rw [rgbToHsv_proj]
  dsimp only
  rw [rgb_to_hsv_thd, harg, rheNat_eq_pyRound _ _ (by norm_num)]

theorem hsv_bounds (r g b : ℕ) (hr : r ≤ 255) (hg : g ≤ 255) (hb : b ≤ 255) :
    0 ≤ (_rgb_to_hsv r g b).1 ∧ (_rgb_to_hsv r g b).1 ≤ 360 ∧
    0 ≤ (_rgb_to_hsv r g b).2.1 ∧ (_rgb_to_hsv r g b).2.1 ≤ 100 ∧
    0 ≤ (_rgb_to_hsv r g b).2.2 ∧ (_rgb_to_hsv r g b).2.2 ≤ 100 := by
  have h0r : (0:ℚ) ≤ (r:ℚ)/255 := by positivity
  have h0g : (0:ℚ) ≤ (g:ℚ)/255 := by positivity
  have h0b : (0:ℚ) ≤ (b:ℚ)/255 := by positivity
  have h1r : (r:ℚ)/255 ≤ 1 := by
    rw [div_le_one (by norm_num : (0:ℚ) < 255)]; exact_mod_cast hr
  have h1g : (g:ℚ)/255 ≤ 1 := by
    rw [div_le_one (by norm_num : (0:ℚ) < 255)]; exact_mod_cast hg
  have h1b : (b:ℚ)/255 ≤ 1 := by
    rw [div_le_one (by norm_num : (0:ℚ) < 255)]; exact_mod_cast hb
  have hmax0 : (0:ℚ) ≤ max ((r:ℚ)/255) (max ((g:ℚ)/255) ((b:ℚ)/255)) :=
    le_trans h0r (le_max_left _ _)
  have hmax1 : max ((r:ℚ)/255) (max ((g:ℚ)/255) ((b:ℚ)/255)) ≤ 1 :=
    max_le h1r (max_le h1g h1b)
  have hmin0 : (0:ℚ) ≤ min ((r:ℚ)/255) (min ((g:ℚ)/255) ((b:ℚ)/255)) :=
    le_min h0r (le_min h0g h0b)
  have hminmax : min ((r:ℚ)/255) (min ((g:ℚ)/255) ((b:ℚ)/255))
      ≤ max ((r:ℚ)/255) (max ((g:ℚ)/255) ((b:ℚ)/255)) :=
    le_trans (min_le_left _ _) (le_max_left _ _)
  rw [rgbToHsv_proj]
  dsimp only
  obtain ⟨x, hx⟩ := rgb_to_hsv_fst ((r:ℚ)/255) ((g:ℚ)/255) ((b:ℚ)/255)
  rw [hx, rgb_to_hsv_snd, rgb_to_hsv_thd]
  refine ⟨(pyRound_mod1_bounds x).1, (pyRound_mod1_bounds x).2, ?_, ?_, ?_, ?_⟩
  · split_ifs with heq
    · exact le_pyRound _ 0 (by norm_num)
    · have hmaxpos : (0:ℚ) < max ((r:ℚ)/255) (max ((g:ℚ)/255) ((b:ℚ)/255)) := by
        rcases lt_or_eq_of_le hminmax with h | h
        · exact lt_of_le_of_lt hmin0 h
        · exact absurd h heq
      have hs0 : (0:ℚ) ≤ (max ((r:ℚ)/255) (max ((g:ℚ)/255) ((b:ℚ)/255))
          - min ((r:ℚ)/255) (min ((g:ℚ)/255) ((b:ℚ)/255)))
          / max ((r:ℚ)/255) (max ((g:ℚ)/255) ((b:ℚ)/255)) :=
        div_nonneg (by linarith) (le_of_lt hmaxpos)
      exact le_pyRound _ 0 (by push_cast; nlinarith)
  · split_ifs with heq
    · exact pyRound_le _ 100 (by norm_num)
    · have hmaxpos : (0:ℚ) < max ((r:ℚ)/255) (max ((g:ℚ)/255) ((b:ℚ)/255)) := by
        rcases lt_or_eq_of_le hminmax with h | h
        · exact lt_of_le_of_lt hmin0 h
        · exact absurd h heq
      have hs1 : (max ((r:ℚ)/255) (max ((g:ℚ)/255) ((b:ℚ)/255))
          - min ((r:ℚ)/255) (min ((g:ℚ)/255) ((b:ℚ)/255)))
          / max ((r:ℚ)/255) (max ((g:ℚ)/255) ((b:ℚ)/255)) ≤ 1 := by
        rw [div_le_one hmaxpos]
        linarith
      exact pyRound_le _ 100 (by push_cast; nlinarith)
  · exact le_pyRound _ 0 (by push_cast; nlinarith)
  · exact pyRound_le _ 100 (by push_cast; nlinarith)

theorem hsv_to_rgb_max (h' s' v' : ℚ) (hh : 0 ≤ h') (hs0 : 0 ≤ s') (hs1 : s' ≤ 1)
    (hv : 0 ≤ v') :
    (hsv_to_rgb h' s' v').1 ≤ v' ∧ (hsv_to_rgb h' s' v').2.1 ≤ v' ∧
    (hsv_to_rgb h' s' v').2.2 ≤ v' ∧
    ((hsv_to_rgb h' s' v').1 = v' ∨ (hsv_to_rgb h' s' v').2.1 = v' ∨
      (hsv_to_rgb h' s' v').2.2 = v') := by
  rw [hsv_to_rgb]
  by_cases hs : s' = 0
  · rw [if_pos hs]
    exact ⟨le_refl _, le_refl _, le_refl _, Or.inl rfl⟩
  · rw [if_neg hs]
    have hpi : pyInt (h' * 6) = ⌊h' * 6⌋ := by
      rw [pyInt, if_pos (by positivity), ratFloor_eq]
    have hf0 : 0 ≤ h' * 6 - ((pyInt (h' * 6) : ℤ) : ℚ) := by
      rw [hpi]
      have := Int.fract_nonneg (h' * 6)
      rw [Int.fract] at this
      linarith
    have hf1 : h' * 6 - ((pyInt (h' * 6) : ℤ) : ℚ) ≤ 1 := by
      rw [hpi]
      have := Int.fract_lt_one (h' * 6)
      rw [Int.fract] at this
      linarith
    have hp : v' * (1 - s') ≤ v' := by nlinarith
    have hq : v' * (1 - s' * (h' * 6 - ((pyInt (h' * 6) : ℤ) : ℚ))) ≤ v' := by nlinarith
    have ht : v' * (1 - s' * (1 - (h' * 6 - ((pyInt (h' * 6) : ℤ) : ℚ)))) ≤ v' := by nlinarith
    dsimp only
    split_ifs
    · exact ⟨le_refl _, ht, hp, Or.inl rfl⟩
    · exact ⟨hq, le_refl _, hp, Or.inr (Or.inl rfl)⟩
    · exact ⟨hp, le_refl _, ht, Or.inr (Or.inl rfl)⟩
    · exact ⟨hp, hq, le_refl _, Or.inr (Or.inr rfl)⟩
    · exact ⟨ht, hp, le_refl _, Or.inr (Or.inr rfl)⟩
    · exact ⟨le_refl _, hp, hq, Or.inl rfl⟩

theorem pilHsv_max (h s v : ℤ) (hh : 0 ≤ h) (hs0 : 0 ≤ s) (hs1 : s ≤ 100) (hv : 0 ≤ v) :
    max3I (pilHsv h s v) = pilScale ((v : ℚ) / 100) := by
  have hsq : ((s:ℚ))/100 ≤ 1 := by
    rw [div_le_one (by norm_num : (0:ℚ) < 100)]; exact_mod_cast hs1
  obtain ⟨h1, h2, h3, h4⟩ := hsv_to_rgb_max ((h:ℚ)/360) ((s:ℚ)/100) ((v:ℚ)/100)
    (by positivity) (by positivity) hsq (by positivity)
  exact max3I_pilScale h1 h2 h3 h4

theorem hsvBackMax_eq (M : ℕ) :
    pilScale ((((rheNat (100 * M) 255 : ℕ) : ℤ) : ℚ) / 100) = ((hsvBackMax M : ℕ) : ℤ) := by
  have harg : (((rheNat (100 * M) 255 : ℕ) : ℤ) : ℚ) / 100
      = ((rheNat (100 * M) 255 : ℕ) : ℚ) / ((100 : ℕ) : ℚ) := by
    push_cast
    ring
  rw [harg, pilScale_natCast_div _ _ (by norm_num), hsvBackMax,
    show (2 * 100 : ℕ) = 200 from by norm_num]

/-! HSL chain -/

theorem rgbToHsl_proj (r g b : ℕ) :
    _rgb_to_hsl r g b =
      (pyRound ((rgb_to_hls ((r:ℚ)/255) ((g:ℚ)/255) ((b:ℚ)/255)).1 * 360),
       pyRound ((rgb_to_hls ((r:ℚ)/255) ((g:ℚ)/255) ((b:ℚ)/255)).2.2 * 100),
       pyRound ((rgb_to_hls ((r:ℚ)/255) ((g:ℚ)/255) ((b:ℚ)/255)).2.1 * 100)) := rfl

theorem rgb_to_hls_fst (a b c : ℚ) : ∃ x, (rgb_to_hls a b c).1 = pyMod1 x := by
  rw [rgb_to_hls]
  by_cases h : min a (min b c) = max a (max b c)
  · rw [if_pos h]
    exact ⟨0, by rw [pyMod1_eq, Int.fract_zero]⟩
  · rw [if_neg h]
    exact ⟨_, rfl⟩

theorem rgb_to_hls_snd (a b c : ℚ) :
    (rgb_to_hls a b c).2.1 = (min a (min b c) + max a (max b c)) / 2 := by
  rw [rgb_to_hls]
  split_ifs <;> rfl

theorem rgb_to_hls_thd (a b c : ℚ) :
    (rgb_to_hls a b c).2.2 =
      if min a (min b c) = max a (max b c) then 0
      else if (min a (min b c) + max a (max b c)) / 2 ≤ 1/2 then
        (max a (max b c) - min a (min b c)) / (max a (max b c) + min a (min b c))
      else (max a (max b c) - min a (min b c)) / (2 - max a (max b c) - min a (min b c)) := by
  rw [rgb_to_hls]
  split_ifs <;> rfl

theorem hsl_l_eq (r g b : ℕ) :
    (_rgb_to_hsl r g b).2.2 =
      ((hslL (max r (max g b)) (min r (min g b)) : ℕ) : ℤ) := by
  have harg : (min ((r:ℚ)/255) (min ((g:ℚ)/255) ((b:ℚ)/255))
        + max ((r:ℚ)/255) (max ((g:ℚ)/255) ((b:ℚ)/255))) / 2 * 100
      = ((100 * (max r (max g b) + min r (min g b)) : ℕ) : ℚ) / ((510 : ℕ) : ℚ) := by
    rw [← cast_max_div, ← cast_min_div]
    push_cast
    ring
  rw [rgbToHsl_proj]
  dsimp only
  rw [rgb_to_hls_snd, harg, hslL, rheNat_eq_pyRound _ _ (by norm_num)]

theorem hsl_s_eq (r g b : ℕ) (hr : r ≤ 255) (hg : g ≤ 255) (hb : b ≤ 255) :
    (_rgb_to_hsl r g b).2.1 =
      ((hslS (max r (max g b)) (min r (min g b)) : ℕ) : ℤ) := by
  have hmn3 : min r (min g b) ≤ max r (max g b) :=
    le_trans (min_le_left _ _) (le_max_left _ _)
  have hM255 : max r (max g b) ≤ 255 := max_le hr (max_le hg hb)
  rw [rgbToHsl_proj]
  dsimp only
  rw [rgb_to_hls_thd, ← cast_max_div, ← cast_min_div]
  by_cases hqeq : ((min r (min g b) : ℕ) : ℚ)/255 = ((max r (max g b) : ℕ) : ℚ)/255
  · have heq : min r (min g b) = max r (max g b) := by
      field_simp at hqeq
      exact_mod_cast hqeq
    rw [if_pos hqeq, hslS, if_pos heq.symm, zero_mul, pyRound_zero]
    norm_num
  · have hne : ¬ max r (max g b) = min r (min g b) := fun h => hqeq (by rw [h])
    have hlt : min r (min g b) < max r (max g b) :=
      lt_of_le_of_ne hmn3 (fun h => hne h.symm)
    rw [if_neg hqeq, hslS, if_neg hne]
    by_cases hqle : (((min r (min g b) : ℕ) : ℚ)/255 + ((max r (max g b) : ℕ) : ℚ)/255)/2 ≤ 1/2
    · have hsum : max r (max g b) + min r (min g b) ≤ 255 := by
        have h1 : ((max r (max g b) + min r (min g b) : ℕ) : ℚ) ≤ ((255 : ℕ) : ℚ) := by
          push_cast [-Nat.cast_min, -Nat.cast_max]
          linarith
        exact_mod_cast h1
      rw [if_pos hqle, if_pos hsum]
      have hsq : (0:ℚ) < ((max r (max g b) + min r (min g b) : ℕ) : ℚ) := by
        have h2 : 0 < max r (max g b) + min r (min g b) := by omega
        exact_mod_cast h2
      have hpos1 : (0:ℚ) < ((max r (max g b) : ℕ) : ℚ)/255 + ((min r (min g b) : ℕ) : ℚ)/255 := by
        push_cast [-Nat.cast_min, -Nat.cast_max] at hsq
        linarith
      have harg : (((max r (max g b) : ℕ) : ℚ)/255 - ((min r (min g b) : ℕ) : ℚ)/255)
            / (((max r (max g b) : ℕ) : ℚ)/255 + ((min r (min g b) : ℕ) : ℚ)/255) * 100
          = ((100 * (max r (max g b) - min r (min g b)) : ℕ) : ℚ)
            / ((max r (max g b) + min r (min g b) : ℕ) : ℚ) := by
        rw [div_mul_eq_mul_div, div_eq_div_iff hpos1.ne' hsq.ne']
        push_cast [Nat.cast_sub hmn3]
        ring
      rw [harg, rheNat_eq_pyRound _ _ (by omega)]
    · have hsum : ¬ (max r (max g b) + min r (min g b) ≤ 255) := by
        intro hs
        apply hqle
        have h1 : ((max r (max g b) + min r (min g b) : ℕ) : ℚ) ≤ ((255 : ℕ) : ℚ) := by
          exact_mod_cast hs
        push_cast [-Nat.cast_min, -Nat.cast_max] at h1
        linarith
      rw [if_neg hqle, if_neg hsum]
      have hden : 0 < 510 - (max r (max g b) + min r (min g b)) := by omega
      have hsum510 : max r (max g b) + min r (min g b) ≤ 510 := by omega
      have hsq : (0:ℚ) < ((510 - (max r (max g b) + min r (min g b)) : ℕ) : ℚ) := by
        exact_mod_cast hden
      have hpos2 : (0:ℚ)
          < 2 - ((max r (max g b) : ℕ) : ℚ)/255 - ((min r (min g b) : ℕ) : ℚ)/255 := by
        push_cast [Nat.cast_sub hsum510, -Nat.cast_min, -Nat.cast_max] at hsq
        linarith
      have harg : (((max r (max g b) : ℕ) : ℚ)/255 - ((min r (min g b) : ℕ) : ℚ)/255)
            / (2 - ((max r (max g b) : ℕ) : ℚ)/255 - ((min r (min g b) : ℕ) : ℚ)/255) * 100
          = ((100 * (max r (max g b) - min r (min g b)) : ℕ) : ℚ)
            / ((510 - (max r (max g b) + min r (min g b)) : ℕ) : ℚ) := by
        rw [div_mul_eq_mul_div, div_eq_div_iff hpos2.ne' hsq.ne']
        push_cast [Nat.cast_sub hmn3, Nat.cast_sub hsum510]
        ring
      rw [harg, rheNat_eq_pyRound _ _ hden]


/-! the _v interpolation and the hue window -/


theorem hlsV_le (m1 m2 hue : ℚ) (h12 : m1 ≤ m2) : _v m1 m2 hue ≤ m2 := by
  have h0 : 0 ≤ pyMod1 hue := by rw [pyMod1_eq]; exact Int.fract_nonneg hue
  have h1 : pyMod1 hue < 1 := by rw [pyMod1_eq]; exact Int.fract_lt_one hue
  rw [_v]
  split_ifs with a1 a2 a3
  · nlinarith [mul_nonneg (sub_nonneg.mpr h12) (by linarith : (0:ℚ) ≤ 1 - 6 * pyMod1 hue)]
  · exact le_refl m2
  · nlinarith [mul_nonneg (sub_nonneg.mpr h12) (by linarith : (0:ℚ) ≤ 6 * pyMod1 hue - 3)]
  · exact h12

theorem hlsV_eq_m2 (m1 m2 hue : ℚ) (ha : 1/6 ≤ pyMod1 hue) (hb : pyMod1 hue < 1/2) :
    _v m1 m2 hue = m2 := by
  rw [_v]
  rw [if_neg (not_lt.mpr ha), if_pos hb]

theorem pyMod1_shift (x c : ℚ) : pyMod1 (x + c) = Int.fract (Int.fract x + c) := by
  rw [pyMod1_eq]
  have h : x + c = ((⌊x⌋ : ℤ) : ℚ) + (Int.fract x + c) := by rw [Int.fract]; ring
  rw [h, Int.fract_int_add]

theorem fract_shift_up (x : ℚ) (hx0 : 0 ≤ x) (hx1 : x < 1) :
    Int.fract (x + 1/3) = if x + 1/3 < 1 then x + 1/3 else x + 1/3 - 1 := by
  split_ifs with h
  · exact Int.fract_eq_self.mpr ⟨by linarith, h⟩
  · rw [not_lt] at h
    have h3 : Int.fract (x + 1/3) = Int.fract (x + 1/3 - ((1:ℤ):ℚ)) :=
      (Int.fract_sub_int _ _).symm
    have h4 : x + 1/3 - ((1:ℤ):ℚ) = x + 1/3 - 1 := by push_cast; ring
    rw [h3, h4]
    exact Int.fract_eq_self.mpr ⟨by linarith, by linarith⟩

theorem fract_shift_down (x : ℚ) (hx0 : 0 ≤ x) (hx1 : x < 1) :
    Int.fract (x - 1/3) = if x < 1/3 then x + 2/3 else x - 1/3 := by
  split_ifs with h
  · have h2 : x - 1/3 = ((-1:ℤ):ℚ) + (x + 2/3) := by push_cast; ring
    rw [h2, Int.fract_int_add]
    exact Int.fract_eq_self.mpr ⟨by linarith, by linarith⟩
  · rw [not_lt] at h
    exact Int.fract_eq_self.mpr ⟨by linarith, by linarith⟩

theorem hue_window (x : ℚ) :
    (1/6 ≤ pyMod1 (x + 1/3) ∧ pyMod1 (x + 1/3) < 1/2) ∨
    (1/6 ≤ pyMod1 x ∧ pyMod1 x < 1/2) ∨
    (1/6 ≤ pyMod1 (x - 1/3) ∧ pyMod1 (x - 1/3) < 1/2) := by
  have hx0 := Int.fract_nonneg x
  have hx1 := Int.fract_lt_one x
  have hplus : pyMod1 (x + 1/3)
      = if Int.fract x + 1/3 < 1 then Int.fract x + 1/3 else Int.fract x + 1/3 - 1 := by
    rw [pyMod1_shift]
    exact fract_shift_up _ hx0 hx1
  have hminus : pyMod1 (x - 1/3)
      = if Int.fract x < 1/3 then Int.fract x + 2/3 else Int.fract x - 1/3 := by
    rw [show x - 1/3 = x + (-(1/3)) from by ring, pyMod1_shift,
      show Int.fract x + (-(1/3)) = Int.fract x - 1/3 from by ring]
    exact fract_shift_down _ hx0 hx1
  by_cases c1 : Int.fract x < 1/6
  · left
    rw [hplus, if_pos (by linarith)]
    exact ⟨by linarith, by linarith⟩
  · by_cases c2 : Int.fract x < 1/2
    · right; left
      rw [pyMod1_eq]
      exact ⟨by linarith, c2⟩
    · by_cases c3 : Int.fract x < 5/6
      · right; right
        rw [hminus, if_neg (by push_neg; linarith)]
        exact ⟨by linarith, by linarith⟩
      · left
        rw [hplus, if_neg (by push_neg; linarith)]
        exact ⟨by linarith, by linarith⟩

theorem hls_to_rgb_max (h2 l2 s2 : ℚ) (hl0 : 0 ≤ l2) (hl1 : l2 ≤ 1) (hs0 : 0 ≤ s2) :
    (hls_to_rgb h2 l2 s2).1 ≤ hlsM2 l2 s2 ∧ (hls_to_rgb h2 l2 s2).2.1 ≤ hlsM2 l2 s2 ∧
    (hls_to_rgb h2 l2 s2).2.2 ≤ hlsM2 l2 s2 ∧
    ((hls_to_rgb h2 l2 s2).1 = hlsM2 l2 s2 ∨ (hls_to_rgb h2 l2 s2).2.1 = hlsM2 l2 s2 ∨
      (hls_to_rgb h2 l2 s2).2.2 = hlsM2 l2 s2) := by
  rw [hls_to_rgb, hlsM2]
  by_cases hs : s2 = 0
  · rw [if_pos hs, if_pos hs]
    exact ⟨le_refl _, le_refl _, le_refl _, Or.inl rfl⟩
  · rw [if_neg hs, if_neg hs]
    dsimp only
    have h12 : 2 * l2 - (if l2 ≤ 1/2 then l2 * (1 + s2) else l2 + s2 - l2 * s2)
        ≤ (if l2 ≤ 1/2 then l2 * (1 + s2) else l2 + s2 - l2 * s2) := by
      split_ifs with h <;> nlinarith
    refine ⟨hlsV_le _ _ _ h12, hlsV_le _ _ _ h12, hlsV_le _ _ _ h12, ?_⟩
    rcases hue_window h2 with hw | hw | hw
    · exact Or.inl (hlsV_eq_m2 _ _ _ hw.1 hw.2)
    · exact Or.inr (Or.inl (hlsV_eq_m2 _ _ _ hw.1 hw.2))
    · exact Or.inr (Or.inr (hlsV_eq_m2 _ _ _ hw.1 hw.2))

theorem pilHsl_max (h s l : ℤ) (hs0 : 0 ≤ s) (hl0 : 0 ≤ l) (hl1 : l ≤ 100) :
    max3I (pilHsl h s l) = pilScale (hlsM2 ((l:ℚ)/100) ((s:ℚ)/100)) := by
  have hlq1 : ((l:ℚ))/100 ≤ 1 := by
    rw [div_le_one (by norm_num : (0:ℚ) < 100)]
    exact_mod_cast hl1
  obtain ⟨h1, h2, h3, h4⟩ := hls_to_rgb_max ((h:ℚ)/360) ((l:ℚ)/100) ((s:ℚ)/100)
    (by positivity) hlq1 (by positivity)
  exact max3I_pilScale h1 h2 h3 h4

theorem hslBackOfSL_eq (s l : ℕ) (hs : s ≤ 100) (hl : l ≤ 100) :
    pilScale (hlsM2 ((((l : ℕ) : ℤ) : ℚ)/100) ((((s : ℕ) : ℤ) : ℚ)/100))
      = ((hslBackOfSL s l : ℕ) : ℤ) := by
  rw [hlsM2, hslBackOfSL]
  by_cases hs0 : s = 0
  · rw [if_pos (by rw [hs0]; norm_num), if_pos hs0]
    have harg : (((l : ℕ) : ℤ) : ℚ)/100 = ((l : ℕ) : ℚ) / ((100 : ℕ) : ℚ) := by
      push_cast
      ring
    rw [harg, pilScale_natCast_div _ _ (by norm_num),
      show (2 * 100 : ℕ) = 200 from by norm_num]
  · have hsq : ¬ ((((s : ℕ) : ℤ) : ℚ)/100 = 0) := by
      simp only [div_eq_zero_iff, OfNat.ofNat_ne_zero, or_false]
      intro h
      exact hs0 (by exact_mod_cast h)
    rw [if_neg hsq, if_neg hs0]
    by_cases hl50 : l ≤ 50
    · have hcond : (((l : ℕ) : ℤ) : ℚ)/100 ≤ 1/2 := by
        have h1 : ((l : ℕ) : ℚ) ≤ 50 := by exact_mod_cast hl50
        push_cast
        linarith
      rw [if_pos hcond, if_pos hl50]
      have harg : (((l : ℕ) : ℤ) : ℚ)/100 * (1 + (((s : ℕ) : ℤ) : ℚ)/100)
          = ((l * (100 + s) : ℕ) : ℚ) / ((10000 : ℕ) : ℚ) := by
        rw [eq_div_iff (by norm_num : ((10000:ℕ):ℚ) ≠ 0)]
        push_cast
        ring
      rw [harg, pilScale_natCast_div _ _ (by norm_num),
        show (2 * 10000 : ℕ) = 20000 from by norm_num]
    · have hcond : ¬ ((((l : ℕ) : ℤ) : ℚ)/100 ≤ 1/2) := by
        push_neg
        have h1 : (51:ℚ) ≤ ((l : ℕ) : ℚ) := by exact_mod_cast (by omega : 51 ≤ l)
        push_cast
        linarith
      rw [if_neg hcond, if_neg hl50]
      have hls : l * s ≤ 100 * l + 100 * s := by nlinarith [Nat.mul_le_mul_left l hs]
      have harg : (((l : ℕ) : ℤ) : ℚ)/100 + (((s : ℕ) : ℤ) : ℚ)/100
            - (((l : ℕ) : ℤ) : ℚ)/100 * ((((s : ℕ) : ℤ) : ℚ)/100)
          = ((100 * l + 100 * s - l * s : ℕ) : ℚ) / ((10000 : ℕ) : ℚ) := by
        rw [eq_div_iff (by norm_num : ((10000:ℕ):ℚ) ≠ 0)]
        push_cast [Nat.cast_sub hls]
        ring
      rw [harg, pilScale_natCast_div _ _ (by norm_num),
        show (2 * 10000 : ℕ) = 20000 from by norm_num]

theorem hslL_le (M mn : ℕ) (hmn : mn ≤ M) (hM : M ≤ 255) : hslL M mn ≤ 100 := by
  have h : (hslL M mn : ℤ) ≤ (100 : ℤ) := by
    rw [hslL, rheNat_eq_pyRound _ _ (by norm_num)]
    apply pyRound_le
    rw [div_le_iff₀ (by norm_num : (0:ℚ) < ((510:ℕ):ℚ))]
    have h1 : ((100 * (M + mn) : ℕ) : ℚ) ≤ ((100 * 510 : ℕ) : ℚ) := by
      exact_mod_cast (by omega : 100 * (M + mn) ≤ 100 * 510)
    push_cast at h1 ⊢
    linarith
  exact_mod_cast h

theorem hslS_le (M mn : ℕ) (hmn : mn ≤ M) (hM : M ≤ 255) : hslS M mn ≤ 100 := by
  rw [hslS]
  by_cases heq : M = mn
  · rw [if_pos heq]
    norm_num
  · rw [if_neg heq]
    have hlt : mn < M := lt_of_le_of_ne hmn (fun h => heq h.symm)
    by_cases hsum : M + mn ≤ 255
    · rw [if_pos hsum]
      have h : ((rheNat (100 * (M - mn)) (M + mn) : ℕ) : ℤ) ≤ (100 : ℤ) := by
        rw [rheNat_eq_pyRound _ _ (by omega)]
        apply pyRound_le
        rw [div_le_iff₀ (by exact_mod_cast (by omega : 0 < M + mn) : (0:ℚ) < ((M + mn : ℕ) : ℚ))]
        have h1 : ((100 * (M - mn) : ℕ) : ℚ) ≤ ((100 * (M + mn) : ℕ) : ℚ) := by
          exact_mod_cast (by omega : 100 * (M - mn) ≤ 100 * (M + mn))
        push_cast at h1 ⊢
        linarith
      exact_mod_cast h
    · rw [if_neg hsum]
      have h : ((rheNat (100 * (M - mn)) (510 - (M + mn)) : ℕ) : ℤ) ≤ (100 : ℤ) := by
        rw [rheNat_eq_pyRound _ _ (by omega)]
        apply pyRound_le
        rw [div_le_iff₀ (by exact_mod_cast (by omega : 0 < 510 - (M + mn))
          : (0:ℚ) < ((510 - (M + mn) : ℕ) : ℚ))]
        have h1 : ((100 * (M - mn) : ℕ) : ℚ) ≤ ((100 * (510 - (M + mn)) : ℕ) : ℚ) := by
          exact_mod_cast (by omega : 100 * (M - mn) ≤ 100 * (510 - (M + mn)))
        push_cast at h1 ⊢
        linarith
      exact_mod_cast h

theorem hsl_bounds (r g b : ℕ) (hr : r ≤ 255) (hg : g ≤ 255) (hb : b ≤ 255) :
    0 ≤ (_rgb_to_hsl r g b).1 ∧ (_rgb_to_hsl r g b).1 ≤ 360 ∧
    0 ≤ (_rgb_to_hsl r g b).2.1 ∧ (_rgb_to_hsl r g b).2.1 ≤ 100 ∧
    0 ≤ (_rgb_to_hsl r g b).2.2 ∧ (_rgb_to_hsl r g b).2.2 ≤ 100 := by
  have hmn3 : min r (min g b) ≤ max r (max g b) :=
    le_trans (min_le_left _ _) (le_max_left _ _)
  have hM255 : max r (max g b) ≤ 255 := max_le hr (max_le hg hb)
  refine ⟨?_, ?_, ?_, ?_, ?_, ?_⟩
  · rw [rgbToHsl_proj]
    obtain ⟨x, hx⟩ := rgb_to_hls_fst ((r:ℚ)/255) ((g:ℚ)/255) ((b:ℚ)/255)
    dsimp only
    rw [hx]
    exact (pyRound_mod1_bounds x).1
  · rw [rgbToHsl_proj]
    obtain ⟨x, hx⟩ := rgb_to_hls_fst ((r:ℚ)/255) ((g:ℚ)/255) ((b:ℚ)/255)
    dsimp only
    rw [hx]
    exact (pyRound_mod1_bounds x).2
  · rw [hsl_s_eq r g b hr hg hb]
    exact Int.ofNat_nonneg _
  · rw [hsl_s_eq r g b hr hg hb]
    exact_mod_cast hslS_le _ _ hmn3 hM255
  · rw [hsl_l_eq r g b]
    exact Int.ofNat_nonneg _
  · rw [hsl_l_eq r g b]
    exact_mod_cast hslL_le _ _ hmn3 hM255


/-! ### Round-half-even symmetry -/

theorem pyRound_dist (q : ℚ) : (pyRound q : ℚ) - q ≤ 1/2 ∧ q - (pyRound q : ℚ) ≤ 1/2 := by
  have hf0 : (0:ℚ) ≤ q - ⌊q⌋ := by have := Int.fract_nonneg q; rwa [Int.fract] at this
  have hf1 : q - ⌊q⌋ < 1 := by have := Int.fract_lt_one q; rwa [Int.fract] at this
  rw [pyRound_eq]
  split_ifs with h1 h2 h3
  · rw [Int.fract] at h1
    constructor <;> linarith
  · rw [Int.fract] at h2
    constructor <;> push_cast <;> linarith
  · rw [not_lt, Int.fract] at h1 h2
    constructor <;> linarith
  · rw [not_lt, Int.fract] at h1 h2
    constructor <;> push_cast <;> linarith

theorem pyRound_neg (q : ℚ) : pyRound (-q) = -pyRound q := by
  rw [pyRound_eq, pyRound_eq]
  by_cases hz : Int.fract q = 0
  · have hq : (⌊q⌋ : ℚ) = q := by rw [Int.fract] at hz; linarith
    have hfneg : Int.fract (-q) = 0 := by
      rw [← hq, ← Int.cast_neg, Int.fract_intCast]
    have hfl : ⌊-q⌋ = -⌊q⌋ := by
      conv_lhs => rw [← hq]
      rw [← Int.cast_neg, Int.floor_intCast]
    rw [hz, hfneg, hfl]
    norm_num
  · have hf0 := Int.fract_nonneg q
    have hf1 := Int.fract_lt_one q
    have hfneg : Int.fract (-q) = 1 - Int.fract q := Int.fract_neg hz
    have hlow : (⌊q⌋ : ℚ) < q := by
      rcases lt_or_eq_of_le (Int.floor_le q) with h | h
      · exact h
      · exact absurd (show Int.fract q = 0 by rw [Int.fract, ← h]; simp) hz
    have hfl : ⌊-q⌋ = -⌊q⌋ - 1 := by
      rw [Int.floor_eq_iff]
      constructor
      · push_cast
        have := Int.lt_floor_add_one q
        linarith
      · push_cast
        linarith
    rw [hfneg, hfl]
    rcases lt_trichotomy (Int.fract q) (1/2) with h | h | h
    · rw [if_neg (by linarith : ¬(1 - Int.fract q < 1/2)),
        if_pos (by linarith : (1:ℚ)/2 < 1 - Int.fract q), if_pos h]
      ring
    · rw [if_neg (by rw [h]; norm_num : ¬(1 - Int.fract q < 1/2)),
        if_neg (by rw [h]; norm_num : ¬((1:ℚ)/2 < 1 - Int.fract q)),
        if_neg (by rw [h]; norm_num : ¬(Int.fract q < 1/2)),
        if_neg (by rw [h]; norm_num : ¬((1:ℚ)/2 < Int.fract q))]
      by_cases hp : ⌊q⌋ % 2 = 0
      · rw [if_pos hp, if_neg (by omega : ¬(-⌊q⌋ - 1) % 2 = 0)]
        ring
      · rw [if_neg hp, if_pos (by omega : (-⌊q⌋ - 1) % 2 = 0)]
        ring
    · rw [if_pos (by linarith : 1 - Int.fract q < 1/2),
        if_neg (by linarith : ¬(Int.fract q < 1/2)),
        if_pos h]
      ring

theorem pyRound_intCast_add (n : ℤ) (hn : n % 2 = 0) (q : ℚ) :
    pyRound ((n:ℚ) + q) = n + pyRound q := by
  rw [pyRound_eq, pyRound_eq]
  have hfr : Int.fract ((n:ℚ) + q) = Int.fract q := Int.fract_int_add n q
  have hfl : ⌊(n:ℚ) + q⌋ = n + ⌊q⌋ := Int.floor_int_add n q
  have hpar : ((n + ⌊q⌋) % 2 = 0) = (⌊q⌋ % 2 = 0) := by
    apply propext
    omega
  rw [hfr, hfl]
  simp only [hpar]
  split_ifs <;> ring

theorem pyRound_intCast_sub (n : ℤ) (hn : n % 2 = 0) (q : ℚ) :
    pyRound ((n:ℚ) - q) = n - pyRound q := by
  rw [show (n:ℚ) - q = (n:ℚ) + -q from by ring, pyRound_intCast_add n hn, pyRound_neg]
  ring

theorem pyInt_int_add (k : ℤ) (x : ℚ) (hk : 0 ≤ k) (h0 : 0 ≤ x) (h1 : x < 1) :
    pyInt ((k:ℚ) + x) = k := by
  have hk' : (0:ℚ) ≤ (k:ℚ) := by exact_mod_cast hk
  rw [pyInt, if_pos (by linarith), ratFloor_eq, Int.floor_int_add,
    Int.floor_eq_zero_iff.mpr ⟨h0, h1⟩]
  ring

/-! ### `colorsys.hsv_to_rgb` evaluated on each hue sector -/

theorem hsv_to_rgb_at0 (φ s v : ℚ) (h0 : 0 ≤ φ) (h1 : φ ≤ 1) :
    hsv_to_rgb (φ/6) s v = (v, v * (1 - s * (1 - φ)), v * (1 - s)) := by
  rw [hsv_to_rgb]
  by_cases hs : s = 0
  · rw [if_pos hs, hs]
    refine Prod.ext ?_ (Prod.ext ?_ ?_) <;> dsimp only <;> push_cast <;> ring
  · rw [if_neg hs]
    dsimp only
    rw [show φ/6 * 6 = φ from by ring]
    by_cases hφ1 : φ = 1
    · subst hφ1
      rw [show pyInt (1:ℚ) = 1 from by
        rw [show (1:ℚ) = ((1:ℤ):ℚ) + 0 from by norm_num]
        exact pyInt_int_add 1 0 (by norm_num) (le_refl 0) (by norm_num)]
      rw [show (1:ℤ) % 6 = 1 from by decide]
      rw [if_neg (by decide : ¬(1:ℤ) = 0), if_pos (rfl : (1:ℤ) = 1)]
      refine Prod.ext ?_ (Prod.ext ?_ ?_) <;> dsimp only <;> push_cast <;> ring
    · have hφlt : φ < 1 := lt_of_le_of_ne h1 hφ1
      rw [show pyInt φ = 0 from by
        rw [show φ = ((0:ℤ):ℚ) + φ from by norm_num]
        exact pyInt_int_add 0 φ (le_refl 0) h0 hφlt]
      rw [show (0:ℤ) % 6 = 0 from by decide]
      rw [if_pos (rfl : (0:ℤ) = 0)]
      refine Prod.ext ?_ (Prod.ext ?_ ?_) <;> dsimp only <;> push_cast <;> ring

theorem hsv_to_rgb_at1 (φ s v : ℚ) (h0 : 0 ≤ φ) (h1 : φ ≤ 1) :
    hsv_to_rgb ((1 + φ)/6) s v = (v * (1 - s * φ), v, v * (1 - s)) := by
  rw [hsv_to_rgb]
  by_cases hs : s = 0
  · rw [if_pos hs, hs]
    refine Prod.ext ?_ (Prod.ext ?_ ?_) <;> dsimp only <;> push_cast <;> ring
  · rw [if_neg hs]
    dsimp only
    rw [show (1 + φ)/6 * 6 = ((1:ℤ):ℚ) + φ from by push_cast; ring]
    by_cases hφ1 : φ = 1
    · subst hφ1
      rw [show pyInt (((1:ℤ):ℚ) + 1) = 2 from by
        rw [show ((1:ℤ):ℚ) + 1 = ((2:ℤ):ℚ) + 0 from by push_cast; ring]
        exact pyInt_int_add 2 0 (by norm_num) (le_refl 0) (by norm_num)]
      rw [show (2:ℤ) % 6 = 2 from by decide]
      rw [if_neg (by decide : ¬(2:ℤ) = 0), if_neg (by decide : ¬(2:ℤ) = 1),
        if_pos (rfl : (2:ℤ) = 2)]
      refine Prod.ext ?_ (Prod.ext ?_ ?_) <;> dsimp only <;> push_cast <;> ring
    · have hφlt : φ < 1 := lt_of_le_of_ne h1 hφ1
      rw [pyInt_int_add 1 φ (by norm_num) h0 hφlt]
      rw [show (1:ℤ) % 6 = 1 from by decide]
      rw [if_neg (by decide : ¬(1:ℤ) = 0), if_pos (rfl : (1:ℤ) = 1)]
      refine Prod.ext ?_ (Prod.ext ?_ ?_) <;> dsimp only <;> push_cast <;> ring

theorem hsv_to_rgb_at2 (φ s v : ℚ) (h0 : 0 ≤ φ) (h1 : φ ≤ 1) :
    hsv_to_rgb ((2 + φ)/6) s v = (v * (1 - s), v, v * (1 - s * (1 - φ))) := by
  rw [hsv_to_rgb]
  by_cases hs : s = 0
  · rw [if_pos hs, hs]
    refine Prod.ext ?_ (Prod.ext ?_ ?_) <;> dsimp only <;> push_cast <;> ring
  · rw [if_neg hs]
    dsimp only
    rw [show (2 + φ)/6 * 6 = ((2:ℤ):ℚ) + φ from by push_cast; ring]
    by_cases hφ1 : φ = 1
    · subst hφ1
      rw [show pyInt (((2:ℤ):ℚ) + 1) = 3 from by
        rw [show ((2:ℤ):ℚ) + 1 = ((3:ℤ):ℚ) + 0 from by push_cast; ring]
        exact pyInt_int_add 3 0 (by norm_num) (le_refl 0) (by norm_num)]
      rw [show (3:ℤ) % 6 = 3 from by decide]
      rw [if_neg (by decide : ¬(3:ℤ) = 0), if_neg (by decide : ¬(3:ℤ) = 1),
        if_neg (by decide : ¬(3:ℤ) = 2), if_pos (rfl : (3:ℤ) = 3)]
      refine Prod.ext ?_ (Prod.ext ?_ ?_) <;> dsimp only <;> push_cast <;> ring
    · have hφlt : φ < 1 := lt_of_le_of_ne h1 hφ1
      rw [pyInt_int_add 2 φ (by norm_num) h0 hφlt]
      rw [show (2:ℤ) % 6 = 2 from by decide]
      rw [if_neg (by decide : ¬(2:ℤ) = 0), if_neg (by decide : ¬(2:ℤ) = 1),
        if_pos (rfl : (2:ℤ) = 2)]
      refine Prod.ext ?_ (Prod.ext ?_ ?_) <;> dsimp only <;> push_cast <;> ring

theorem hsv_to_rgb_at3 (φ s v : ℚ) (h0 : 0 ≤ φ) (h1 : φ ≤ 1) :
    hsv_to_rgb ((3 + φ)/6) s v = (v * (1 - s), v * (1 - s * φ), v) := by
  rw [hsv_to_rgb]
  by_cases hs : s = 0
  · rw [if_pos hs, hs]
    refine Prod.ext ?_ (Prod.ext ?_ ?_) <;> dsimp only <;> push_cast <;> ring
  · rw [if_neg hs]
    dsimp only
    rw [show (3 + φ)/6 * 6 = ((3:ℤ):ℚ) + φ from by push_cast; ring]
    by_cases hφ1 : φ = 1
    · subst hφ1
      rw [show pyInt (((3:ℤ):ℚ) + 1) = 4 from by
        rw [show ((3:ℤ):ℚ) + 1 = ((4:ℤ):ℚ) + 0 from by push_cast; ring]
        exact pyInt_int_add 4 0 (by norm_num) (le_refl 0) (by norm_num)]
      rw [show (4:ℤ) % 6 = 4 from by decide]
      rw [if_neg (by decide : ¬(4:ℤ) = 0), if_neg (by decide : ¬(4:ℤ) = 1),
        if_neg (by decide : ¬(4:ℤ) = 2), if_neg (by decide : ¬(4:ℤ) = 3),
        if_pos (rfl : (4:ℤ) = 4)]
      refine Prod.ext ?_ (Prod.ext ?_ ?_) <;> dsimp only <;> push_cast <;> ring
    · have hφlt : φ < 1 := lt_of_le_of_ne h1 hφ1
      rw [pyInt_int_add 3 φ (by norm_num) h0 hφlt]
      rw [show (3:ℤ) % 6 = 3 from by decide]
      rw [if_neg (by decide : ¬(3:ℤ) = 0), if_neg (by decide : ¬(3:ℤ) = 1),
        if_neg (by decide : ¬(3:ℤ) = 2), if_pos (rfl : (3:ℤ) = 3)]
      refine Prod.ext ?_ (Prod.ext ?_ ?_) <;> dsimp only <;> push_cast <;> ring

theorem hsv_to_rgb_at4 (φ s v : ℚ) (h0 : 0 ≤ φ) (h1 : φ ≤ 1) :
    hsv_to_rgb ((4 + φ)/6) s v = (v * (1 - s * (1 - φ)), v * (1 - s), v) := by
  rw [hsv_to_rgb]
  by_cases hs : s = 0
  · rw [if_pos hs, hs]
    refine Prod.ext ?_ (Prod.ext ?_ ?_) <;> dsimp only <;> push_cast <;> ring
  · rw [if_neg hs]
    dsimp only
    rw [show (4 + φ)/6 * 6 = ((4:ℤ):ℚ) + φ from by push_cast; ring]
    by_cases hφ1 : φ = 1
    · subst hφ1
      rw [show pyInt (((4:ℤ):ℚ) + 1) = 5 from by
        rw [show ((4:ℤ):ℚ) + 1 = ((5:ℤ):ℚ) + 0 from by push_cast; ring]
        exact pyInt_int_add 5 0 (by norm_num) (le_refl 0) (by norm_num)]
      rw [show (5:ℤ) % 6 = 5 from by decide]
      rw [if_neg (by decide : ¬(5:ℤ) = 0), if_neg (by decide : ¬(5:ℤ) = 1),
        if_neg (by decide : ¬(5:ℤ) = 2), if_neg (by decide : ¬(5:ℤ) = 3),
        if_neg (by decide : ¬(5:ℤ) = 4)]
      refine Prod.ext ?_ (Prod.ext ?_ ?_) <;> dsimp only <;> push_cast <;> ring
    · have hφlt : φ < 1 := lt_of_le_of_ne h1 hφ1
      rw [pyInt_int_add 4 φ (by norm_num) h0 hφlt]
      rw [show (4:ℤ) % 6 = 4 from by decide]
      rw [if_neg (by decide : ¬(4:ℤ) = 0), if_neg (by decide : ¬(4:ℤ) = 1),
        if_neg (by decide : ¬(4:ℤ) = 2), if_neg (by decide : ¬(4:ℤ) = 3),
        if_pos (rfl : (4:ℤ) = 4)]
      refine Prod.ext ?_ (Prod.ext ?_ ?_) <;> dsimp only <;> push_cast <;> ring

theorem hsv_to_rgb_at5 (φ s v : ℚ) (h0 : 0 ≤ φ) (h1 : φ ≤ 1) :
    hsv_to_rgb ((5 + φ)/6) s v = (v, v * (1 - s), v * (1 - s * φ)) := by
  rw [hsv_to_rgb]
  by_cases hs : s = 0
  · rw [if_pos hs, hs]
    refine Prod.ext ?_ (Prod.ext ?_ ?_) <;> dsimp only <;> push_cast <;> ring
  · rw [if_neg hs]
    dsimp only
    rw [show (5 + φ)/6 * 6 = ((5:ℤ):ℚ) + φ from by push_cast; ring]
    by_cases hφ1 : φ = 1
    · subst hφ1
      rw [show pyInt (((5:ℤ):ℚ) + 1) = 6 from by
        rw [show ((5:ℤ):ℚ) + 1 = ((6:ℤ):ℚ) + 0 from by push_cast; ring]
        exact pyInt_int_add 6 0 (by norm_num) (le_refl 0) (by norm_num)]
      rw [show (6:ℤ) % 6 = 0 from by decide]
      rw [if_pos (rfl : (0:ℤ) = 0)]
      refine Prod.ext ?_ (Prod.ext ?_ ?_) <;> dsimp only <;> push_cast <;> ring
    · have hφlt : φ < 1 := lt_of_le_of_ne h1 hφ1
      rw [pyInt_int_add 5 φ (by norm_num) h0 hφlt]
      rw [show (5:ℤ) % 6 = 5 from by decide]
      rw [if_neg (by decide : ¬(5:ℤ) = 0), if_neg (by decide : ¬(5:ℤ) = 1),
        if_neg (by decide : ¬(5:ℤ) = 2), if_neg (by decide : ¬(5:ℤ) = 3),
        if_neg (by decide : ¬(5:ℤ) = 4)]
      refine Prod.ext ?_ (Prod.ext ?_ ?_) <;> dsimp only <;> push_cast <;> ring

/-! ### `pilHsv` on each of the six integer-hue patterns -/

theorem pilHsv_case1 (u s v : ℤ) (hu0 : 0 ≤ u) (hu1 : u ≤ 60) :
    pilHsv u s v =
      (pilScale ((v:ℚ)/100),
       pilScale ((v:ℚ)/100 * (1 - (s:ℚ)/100 * (1 - (u:ℚ)/60))),
       pilScale ((v:ℚ)/100 * (1 - (s:ℚ)/100))) := by
  have hq0 : (0:ℚ) ≤ (u:ℚ)/60 := by positivity
  have hq1 : (u:ℚ)/60 ≤ 1 := by
    rw [div_le_one (by norm_num : (0:ℚ) < 60)]
    exact_mod_cast hu1
  rw [pilHsv]
  rw [show ((u:ℚ))/360 = ((u:ℚ)/60)/6 from by ring,
    hsv_to_rgb_at0 ((u:ℚ)/60) _ _ hq0 hq1]

theorem pilHsv_case2 (u s v : ℤ) (hu0 : 0 ≤ u) (hu1 : u ≤ 60) :
    pilHsv (360 - u) s v =
      (pilScale ((v:ℚ)/100),
       pilScale ((v:ℚ)/100 * (1 - (s:ℚ)/100)),
       pilScale ((v:ℚ)/100 * (1 - (s:ℚ)/100 * (1 - (u:ℚ)/60)))) := by
  have hq0 : (0:ℚ) ≤ 1 - (u:ℚ)/60 := by
    rw [sub_nonneg, div_le_one (by norm_num : (0:ℚ) < 60)]
    exact_mod_cast hu1
  have hq1 : 1 - (u:ℚ)/60 ≤ 1 := by
    have : (0:ℚ) ≤ (u:ℚ)/60 := by positivity
    linarith
  rw [pilHsv]
  rw [show (((360 - u : ℤ)):ℚ)/360 = (5 + (1 - (u:ℚ)/60))/6 from by push_cast; ring,
    hsv_to_rgb_at5 (1 - (u:ℚ)/60) _ _ hq0 hq1]

theorem pilHsv_case3 (u s v : ℤ) (hu0 : 0 ≤ u) (hu1 : u ≤ 60) :
    pilHsv (120 - u) s v =
      (pilScale ((v:ℚ)/100 * (1 - (s:ℚ)/100 * (1 - (u:ℚ)/60))),
       pilScale ((v:ℚ)/100),
       pilScale ((v:ℚ)/100 * (1 - (s:ℚ)/100))) := by
  have hq0 : (0:ℚ) ≤ 1 - (u:ℚ)/60 := by
    rw [sub_nonneg, div_le_one (by norm_num : (0:ℚ) < 60)]
    exact_mod_cast hu1
  have hq1 : 1 - (u:ℚ)/60 ≤ 1 := by
    have : (0:ℚ) ≤ (u:ℚ)/60 := by positivity
    linarith
  rw [pilHsv]
  rw [show (((120 - u : ℤ)):ℚ)/360 = (1 + (1 - (u:ℚ)/60))/6 from by push_cast; ring,
    hsv_to_rgb_at1 (1 - (u:ℚ)/60) _ _ hq0 hq1]

theorem pilHsv_case4 (u s v : ℤ) (hu0 : 0 ≤ u) (hu1 : u ≤ 60) :
    pilHsv (120 + u) s v =
      (pilScale ((v:ℚ)/100 * (1 - (s:ℚ)/100)),
       pilScale ((v:ℚ)/100),
       pilScale ((v:ℚ)/100 * (1 - (s:ℚ)/100 * (1 - (u:ℚ)/60)))) := by
  have hq0 : (0:ℚ) ≤ (u:ℚ)/60 := by positivity
  have hq1 : (u:ℚ)/60 ≤ 1 := by
    rw [div_le_one (by norm_num : (0:ℚ) < 60)]
    exact_mod_cast hu1
  rw [pilHsv]
  rw [show (((120 + u : ℤ)):ℚ)/360 = (2 + (u:ℚ)/60)/6 from by push_cast; ring,
    hsv_to_rgb_at2 ((u:ℚ)/60) _ _ hq0 hq1]

theorem pilHsv_case5 (u s v : ℤ) (hu0 : 0 ≤ u) (hu1 : u ≤ 60) :
    pilHsv (240 - u) s v =
      (pilScale ((v:ℚ)/100 * (1 - (s:ℚ)/100)),
       pilScale ((v:ℚ)/100 * (1 - (s:ℚ)/100 * (1 - (u:ℚ)/60))),
       pilScale ((v:ℚ)/100)) := by
  have hq0 : (0:ℚ) ≤ 1 - (u:ℚ)/60 := by
    rw [sub_nonneg, div_le_one (by norm_num : (0:ℚ) < 60)]
    exact_mod_cast hu1
  have hq1 : 1 - (u:ℚ)/60 ≤ 1 := by
    have : (0:ℚ) ≤ (u:ℚ)/60 := by positivity
    linarith
  rw [pilHsv]
  rw [show (((240 - u : ℤ)):ℚ)/360 = (3 + (1 - (u:ℚ)/60))/6 from by push_cast; ring,
    hsv_to_rgb_at3 (1 - (u:ℚ)/60) _ _ hq0 hq1]

theorem pilHsv_case6 (u s v : ℤ) (hu0 : 0 ≤ u) (hu1 : u ≤ 60) :
    pilHsv (240 + u) s v =
      (pilScale ((v:ℚ)/100 * (1 - (s:ℚ)/100 * (1 - (u:ℚ)/60))),
       pilScale ((v:ℚ)/100 * (1 - (s:ℚ)/100)),
       pilScale ((v:ℚ)/100)) := by
  have hq0 : (0:ℚ) ≤ (u:ℚ)/60 := by positivity
  have hq1 : (u:ℚ)/60 ≤ 1 := by
    rw [div_le_one (by norm_num : (0:ℚ) < 60)]
    exact_mod_cast hu1
  rw [pilHsv]
  rw [show (((240 + u : ℤ)):ℚ)/360 = (4 + (u:ℚ)/60)/6 from by push_cast; ring,
    hsv_to_rgb_at4 ((u:ℚ)/60) _ _ hq0 hq1]

/-! ### `colorsys._v` on each window of the hue circle -/

theorem pyMod1_self (x : ℚ) (h0 : 0 ≤ x) (h1 : x < 1) : pyMod1 x = x := by
  rw [pyMod1_eq]
  exact Int.fract_eq_self.mpr ⟨h0, h1⟩

theorem pyMod1_shift_int (x : ℚ) (n : ℤ) : pyMod1 (x + n) = pyMod1 x := by
  rw [pyMod1_eq, pyMod1_eq, Int.fract_add_int]

theorem hlsV_ramp_up (m1 m2 X : ℚ) (hb : pyMod1 X < 1/6) :
    _v m1 m2 X = m1 + (m2 - m1) * pyMod1 X * 6 := by
  rw [_v, if_pos hb]

theorem hlsV_ramp_down (m1 m2 X : ℚ) (ha : 1/2 ≤ pyMod1 X) (hb : pyMod1 X < 2/3) :
    _v m1 m2 X = m1 + (m2 - m1) * (2/3 - pyMod1 X) * 6 := by
  rw [_v, if_neg (not_lt.mpr (le_trans (by norm_num) ha)), if_neg (not_lt.mpr ha),
    if_pos hb]

theorem hlsV_m1_high (m1 m2 X : ℚ) (ha : 2/3 ≤ pyMod1 X) : _v m1 m2 X = m1 := by
  rw [_v, if_neg (not_lt.mpr (le_trans (by norm_num) ha)),
    if_neg (not_lt.mpr (le_trans (by norm_num) ha)), if_neg (not_lt.mpr ha)]

theorem hlsV_window_m2 (m1 m2 X : ℚ) (ha : 1/6 ≤ pyMod1 X) (hb : pyMod1 X ≤ 1/2) :
    _v m1 m2 X = m2 := by
  rcases lt_or_eq_of_le hb with h | h
  · exact hlsV_eq_m2 _ _ _ ha h
  · rw [hlsV_ramp_down _ _ _ (le_of_eq h.symm) (by rw [h]; norm_num), h]
    ring

theorem hlsV_window_m1 (m1 m2 X : ℚ) (ha : pyMod1 X = 0 ∨ 2/3 ≤ pyMod1 X) :
    _v m1 m2 X = m1 := by
  rcases ha with h | h
  · rw [hlsV_ramp_up _ _ _ (by rw [h]; norm_num), h]
    ring
  · exact hlsV_m1_high _ _ _ h

theorem hlsV_window_mid_up (m1 m2 X φ : ℚ) (hX : pyMod1 X = φ/6) (h0 : 0 ≤ φ)
    (h1 : φ ≤ 1) :
    _v m1 m2 X = m1 + (m2 - m1) * φ := by
  by_cases hφ : φ = 1
  · rw [hlsV_window_m2 _ _ _ (by rw [hX, hφ]) (by rw [hX, hφ]; norm_num), hφ]
    ring
  · have hφlt : φ < 1 := lt_of_le_of_ne h1 hφ
    rw [hlsV_ramp_up _ _ _ (by rw [hX]; linarith), hX]
    ring

theorem hlsV_window_mid_down (m1 m2 X φ : ℚ) (hX : pyMod1 X = 2/3 - φ/6) (h0 : 0 ≤ φ)
    (h1 : φ ≤ 1) :
    _v m1 m2 X = m1 + (m2 - m1) * φ := by
  by_cases hφ : φ = 0
  · rw [hlsV_window_m1 _ _ _ (Or.inr (by rw [hX, hφ]; norm_num)), hφ]
    ring
  · have hφpos : 0 < φ := lt_of_le_of_ne h0 (Ne.symm hφ)
    rw [hlsV_ramp_down _ _ _ (by rw [hX]; linarith) (by rw [hX]; linarith), hX]
    ring

/-! ### `colorsys.hls_to_rgb` evaluated on each hue window -/

theorem hls_to_rgb_w1 (φ l s : ℚ) (h0 : 0 ≤ φ) (h1 : φ ≤ 1) :
    hls_to_rgb (φ/6) l s =
      (hlsM2 l s, hlsM1 l s + (hlsM2 l s - hlsM1 l s) * φ, hlsM1 l s) := by
  by_cases hs : s = 0
  · rw [hls_to_rgb, if_pos hs, hlsM1, hlsM2, if_pos hs]
    refine Prod.ext ?_ (Prod.ext ?_ ?_) <;> dsimp only <;> ring
  · rw [hls_to_rgb, if_neg hs]
    have hm2 : (if l ≤ 1/2 then l * (1 + s) else l + s - l * s) = hlsM2 l s := by
      rw [hlsM2, if_neg hs]
    rw [hm2]
    dsimp only
    rw [show 2 * l - hlsM2 l s = hlsM1 l s from by rw [hlsM1]]
    have hr : pyMod1 (φ/6 + 1/3) = (φ + 2)/6 := by
      rw [show φ/6 + 1/3 = (φ + 2)/6 from by ring]
      exact pyMod1_self _ (by linarith) (by linarith)
    have hg : pyMod1 (φ/6) = φ/6 := pyMod1_self _ (by linarith) (by linarith)
    have hb : pyMod1 (φ/6 - 1/3) = (φ + 4)/6 := by
      rw [show φ/6 - 1/3 = (φ + 4)/6 + ((-1 : ℤ) : ℚ) from by push_cast; ring,
        pyMod1_shift_int]
      exact pyMod1_self _ (by linarith) (by linarith)
    refine Prod.ext ?_ (Prod.ext ?_ ?_) <;> dsimp only
    · exact hlsV_window_m2 _ _ _ (by rw [hr]; linarith) (by rw [hr]; linarith)
    · exact hlsV_window_mid_up _ _ _ _ (by rw [hg]) h0 h1
    · exact hlsV_window_m1 _ _ _ (Or.inr (by rw [hb]; linarith))

theorem hls_to_rgb_w2 (φ l s : ℚ) (h0 : 0 ≤ φ) (h1 : φ ≤ 1) :
    hls_to_rgb ((6 - φ)/6) l s =
      (hlsM2 l s, hlsM1 l s, hlsM1 l s + (hlsM2 l s - hlsM1 l s) * φ) := by
  by_cases hs : s = 0
  · rw [hls_to_rgb, if_pos hs, hlsM1, hlsM2, if_pos hs]
    refine Prod.ext ?_ (Prod.ext ?_ ?_) <;> dsimp only <;> ring
  · rw [hls_to_rgb, if_neg hs]
    have hm2 : (if l ≤ 1/2 then l * (1 + s) else l + s - l * s) = hlsM2 l s := by
      rw [hlsM2, if_neg hs]
    rw [hm2]
    dsimp only
    rw [show 2 * l - hlsM2 l s = hlsM1 l s from by rw [hlsM1]]
    have hr : pyMod1 ((6 - φ)/6 + 1/3) = (2 - φ)/6 := by
      rw [show (6 - φ)/6 + 1/3 = (2 - φ)/6 + ((1 : ℤ) : ℚ) from by push_cast; ring,
        pyMod1_shift_int]
      exact pyMod1_self _ (by linarith) (by linarith)
    have hb : pyMod1 ((6 - φ)/6 - 1/3) = 2/3 - φ/6 := by
      rw [show (6 - φ)/6 - 1/3 = 2/3 - φ/6 from by ring]
      exact pyMod1_self _ (by linarith) (by linarith)
    refine Prod.ext ?_ (Prod.ext ?_ ?_) <;> dsimp only
    · exact hlsV_window_m2 _ _ _ (by rw [hr]; linarith) (by rw [hr]; linarith)
    · by_cases hφ0 : φ = 0
      · refine hlsV_window_m1 _ _ _ (Or.inl ?_)
        rw [show (6 - φ)/6 = (0:ℚ) + ((1:ℤ):ℚ) from by rw [hφ0]; push_cast; ring,
          pyMod1_shift_int]
        rw [pyMod1_eq, Int.fract_zero]
      · have hφpos : 0 < φ := lt_of_le_of_ne h0 (Ne.symm hφ0)
        refine hlsV_window_m1 _ _ _ (Or.inr ?_)
        rw [pyMod1_self _ (by linarith) (by linarith)]
        linarith
    · exact hlsV_window_mid_down _ _ _ _ (by rw [hb]) h0 h1

theorem hls_to_rgb_w3 (φ l s : ℚ) (h0 : 0 ≤ φ) (h1 : φ ≤ 1) :
    hls_to_rgb ((2 - φ)/6) l s =
      (hlsM1 l s + (hlsM2 l s - hlsM1 l s) * φ, hlsM2 l s, hlsM1 l s) := by
  by_cases hs : s = 0
  · rw [hls_to_rgb, if_pos hs, hlsM1, hlsM2, if_pos hs]
    refine Prod.ext ?_ (Prod.ext ?_ ?_) <;> dsimp only <;> ring
  · rw [hls_to_rgb, if_neg hs]
    have hm2 : (if l ≤ 1/2 then l * (1 + s) else l + s - l * s) = hlsM2 l s := by
      rw [hlsM2, if_neg hs]
    rw [hm2]
    dsimp only
    rw [show 2 * l - hlsM2 l s = hlsM1 l s from by rw [hlsM1]]
    have hr : pyMod1 ((2 - φ)/6 + 1/3) = 2/3 - φ/6 := by
      rw [show (2 - φ)/6 + 1/3 = 2/3 - φ/6 from by ring]
      exact pyMod1_self _ (by linarith) (by linarith)
    have hg : pyMod1 ((2 - φ)/6) = (2 - φ)/6 := pyMod1_self _ (by linarith) (by linarith)
    refine Prod.ext ?_ (Prod.ext ?_ ?_) <;> dsimp only
    · exact hlsV_window_mid_down _ _ _ _ (by rw [hr]) h0 h1
    · exact hlsV_window_m2 _ _ _ (by rw [hg]; linarith) (by rw [hg]; linarith)
    · by_cases hφ0 : φ = 0
      · refine hlsV_window_m1 _ _ _ (Or.inl ?_)
        rw [show (2 - φ)/6 - 1/3 = (0:ℚ) from by rw [hφ0]; ring, pyMod1_eq,
          Int.fract_zero]
      · have hφpos : 0 < φ := lt_of_le_of_ne h0 (Ne.symm hφ0)
        refine hlsV_window_m1 _ _ _ (Or.inr ?_)
        rw [show (2 - φ)/6 - 1/3 = (6 - φ)/6 + ((-1 : ℤ) : ℚ) from by push_cast; ring,
          pyMod1_shift_int, pyMod1_self _ (by linarith) (by linarith)]
        linarith

theorem hls_to_rgb_w4 (φ l s : ℚ) (h0 : 0 ≤ φ) (h1 : φ ≤ 1) :
    hls_to_rgb ((2 + φ)/6) l s =
      (hlsM1 l s, hlsM2 l s, hlsM1 l s + (hlsM2 l s - hlsM1 l s) * φ) := by
  by_cases hs : s = 0
  · rw [hls_to_rgb, if_pos hs, hlsM1, hlsM2, if_pos hs]
    refine Prod.ext ?_ (Prod.ext ?_ ?_) <;> dsimp only <;> ring
  · rw [hls_to_rgb, if_neg hs]
    have hm2 : (if l ≤ 1/2 then l * (1 + s) else l + s - l * s) = hlsM2 l s := by
      rw [hlsM2, if_neg hs]
    rw [hm2]
    dsimp only
    rw [show 2 * l - hlsM2 l s = hlsM1 l s from by rw [hlsM1]]
    have hr : pyMod1 ((2 + φ)/6 + 1/3) = (4 + φ)/6 := by
      rw [show (2 + φ)/6 + 1/3 = (4 + φ)/6 from by ring]
      exact pyMod1_self _ (by linarith) (by linarith)
    have hg : pyMod1 ((2 + φ)/6) = (2 + φ)/6 := pyMod1_self _ (by linarith) (by linarith)
    have hb : pyMod1 ((2 + φ)/6 - 1/3) = φ/6 := by
      rw [show (2 + φ)/6 - 1/3 = φ/6 from by ring]
      exact pyMod1_self _ (by linarith) (by linarith)
    refine Prod.ext ?_ (Prod.ext ?_ ?_) <;> dsimp only
    · exact hlsV_window_m1 _ _ _ (Or.inr (by rw [hr]; linarith))
    · exact hlsV_window_m2 _ _ _ (by rw [hg]; linarith) (by rw [hg]; linarith)
    · exact hlsV_window_mid_up _ _ _ _ (by rw [hb]) h0 h1

theorem hls_to_rgb_w5 (φ l s : ℚ) (h0 : 0 ≤ φ) (h1 : φ ≤ 1) :
    hls_to_rgb ((4 - φ)/6) l s =
      (hlsM1 l s, hlsM1 l s + (hlsM2 l s - hlsM1 l s) * φ, hlsM2 l s) := by
  by_cases hs : s = 0
  · rw [hls_to_rgb, if_pos hs, hlsM1, hlsM2, if_pos hs]
    refine Prod.ext ?_ (Prod.ext ?_ ?_) <;> dsimp only <;> ring
  · rw [hls_to_rgb, if_neg hs]
    have hm2 : (if l ≤ 1/2 then l * (1 + s) else l + s - l * s) = hlsM2 l s := by
      rw [hlsM2, if_neg hs]
    rw [hm2]
    dsimp only
    rw [show 2 * l - hlsM2 l s = hlsM1 l s from by rw [hlsM1]]
    have hg : pyMod1 ((4 - φ)/6) = 2/3 - φ/6 := by
      rw [show ((4:ℚ) - φ)/6 = 2/3 - φ/6 from by ring]
      exact pyMod1_self _ (by linarith) (by linarith)
    have hb : pyMod1 ((4 - φ)/6 - 1/3) = (2 - φ)/6 := by
      rw [show (4 - φ)/6 - 1/3 = (2 - φ)/6 from by ring]
      exact pyMod1_self _ (by linarith) (by linarith)
    refine Prod.ext ?_ (Prod.ext ?_ ?_) <;> dsimp only
    · by_cases hφ0 : φ = 0
      · refine hlsV_window_m1 _ _ _ (Or.inl ?_)
        rw [show (4 - φ)/6 + 1/3 = (0:ℚ) + ((1:ℤ):ℚ) from by rw [hφ0]; push_cast; ring,
          pyMod1_shift_int, pyMod1_eq, Int.fract_zero]
      · have hφpos : 0 < φ := lt_of_le_of_ne h0 (Ne.symm hφ0)
        refine hlsV_window_m1 _ _ _ (Or.inr ?_)
        rw [show (4 - φ)/6 + 1/3 = (6 - φ)/6 from by ring,
          pyMod1_self _ (by linarith) (by linarith)]
        linarith
    · exact hlsV_window_mid_down _ _ _ _ (by rw [hg]) h0 h1
    · exact hlsV_window_m2 _ _ _ (by rw [hb]; linarith) (by rw [hb]; linarith)

theorem hls_to_rgb_w6 (φ l s : ℚ) (h0 : 0 ≤ φ) (h1 : φ ≤ 1) :
    hls_to_rgb ((4 + φ)/6) l s =
      (hlsM1 l s + (hlsM2 l s - hlsM1 l s) * φ, hlsM1 l s, hlsM2 l s) := by
  by_cases hs : s = 0
  · rw [hls_to_rgb, if_pos hs, hlsM1, hlsM2, if_pos hs]
    refine Prod.ext ?_ (Prod.ext ?_ ?_) <;> dsimp only <;> ring
  · rw [hls_to_rgb, if_neg hs]
    have hm2 : (if l ≤ 1/2 then l * (1 + s) else l + s - l * s) = hlsM2 l s := by
      rw [hlsM2, if_neg hs]
    rw [hm2]
    dsimp only
    rw [show 2 * l - hlsM2 l s = hlsM1 l s from by rw [hlsM1]]
    have hr : pyMod1 ((4 + φ)/6 + 1/3) = φ/6 := by
      rw [show (4 + φ)/6 + 1/3 = φ/6 + ((1 : ℤ) : ℚ) from by push_cast; ring,
        pyMod1_shift_int]
      exact pyMod1_self _ (by linarith) (by linarith)
    have hg : pyMod1 ((4 + φ)/6) = (4 + φ)/6 := pyMod1_self _ (by linarith) (by linarith)
    have hb : pyMod1 ((4 + φ)/6 - 1/3) = (2 + φ)/6 := by
      rw [show (4 + φ)/6 - 1/3 = (2 + φ)/6 from by ring]
      exact pyMod1_self _ (by linarith) (by linarith)
    refine Prod.ext ?_ (Prod.ext ?_ ?_) <;> dsimp only
    · exact hlsV_window_mid_up _ _ _ _ (by rw [hr]) h0 h1
    · exact hlsV_window_m1 _ _ _ (Or.inr (by rw [hg]; linarith))
    · exact hlsV_window_m2 _ _ _ (by rw [hb]; linarith) (by rw [hb]; linarith)

/-! ### `pilHsl` on each of the six integer-hue patterns -/

theorem pilHsl_case1 (u s l : ℤ) (hu0 : 0 ≤ u) (hu1 : u ≤ 60) :
    pilHsl u s l =
      (pilScale (hlsM2 ((l:ℚ)/100) ((s:ℚ)/100)),
       pilScale (hlsM1 ((l:ℚ)/100) ((s:ℚ)/100) +
         (hlsM2 ((l:ℚ)/100) ((s:ℚ)/100) - hlsM1 ((l:ℚ)/100) ((s:ℚ)/100)) * ((u:ℚ)/60)),
       pilScale (hlsM1 ((l:ℚ)/100) ((s:ℚ)/100))) := by
  have hq0 : (0:ℚ) ≤ (u:ℚ)/60 := by positivity
  have hq1 : (u:ℚ)/60 ≤ 1 := by
    rw [div_le_one (by norm_num : (0:ℚ) < 60)]
    exact_mod_cast hu1
  rw [pilHsl]
  rw [show ((u:ℚ))/360 = ((u:ℚ)/60)/6 from by ring,
    hls_to_rgb_w1 ((u:ℚ)/60) _ _ hq0 hq1]

theorem pilHsl_case2 (u s l : ℤ) (hu0 : 0 ≤ u) (hu1 : u ≤ 60) :
    pilHsl (360 - u) s l =
      (pilScale (hlsM2 ((l:ℚ)/100) ((s:ℚ)/100)),
       pilScale (hlsM1 ((l:ℚ)/100) ((s:ℚ)/100)),
       pilScale (hlsM1 ((l:ℚ)/100) ((s:ℚ)/100) +
         (hlsM2 ((l:ℚ)/100) ((s:ℚ)/100) - hlsM1 ((l:ℚ)/100) ((s:ℚ)/100)) * ((u:ℚ)/60))) := by
  have hq0 : (0:ℚ) ≤ (u:ℚ)/60 := by positivity
  have hq1 : (u:ℚ)/60 ≤ 1 := by
    rw [div_le_one (by norm_num : (0:ℚ) < 60)]
    exact_mod_cast hu1
  rw [pilHsl]
  rw [show (((360 - u : ℤ)):ℚ)/360 = (6 - (u:ℚ)/60)/6 from by push_cast; ring,
    hls_to_rgb_w2 ((u:ℚ)/60) _ _ hq0 hq1]

theorem pilHsl_case3 (u s l : ℤ) (hu0 : 0 ≤ u) (hu1 : u ≤ 60) :
    pilHsl (120 - u) s l =
      (pilScale (hlsM1 ((l:ℚ)/100) ((s:ℚ)/100) +
         (hlsM2 ((l:ℚ)/100) ((s:ℚ)/100) - hlsM1 ((l:ℚ)/100) ((s:ℚ)/100)) * ((u:ℚ)/60)),
       pilScale (hlsM2 ((l:ℚ)/100) ((s:ℚ)/100)),
       pilScale (hlsM1 ((l:ℚ)/100) ((s:ℚ)/100))) := by
  have hq0 : (0:ℚ) ≤ (u:ℚ)/60 := by positivity
  have hq1 : (u:ℚ)/60 ≤ 1 := by
    rw [div_le_one (by norm_num : (0:ℚ) < 60)]
    exact_mod_cast hu1
  rw [pilHsl]
  rw [show (((120 - u : ℤ)):ℚ)/360 = (2 - (u:ℚ)/60)/6 from by push_cast; ring,
    hls_to_rgb_w3 ((u:ℚ)/60) _ _ hq0 hq1]

theorem pilHsl_case4 (u s l : ℤ) (hu0 : 0 ≤ u) (hu1 : u ≤ 60) :
    pilHsl (120 + u) s l =
      (pilScale (hlsM1 ((l:ℚ)/100) ((s:ℚ)/100)),
       pilScale (hlsM2 ((l:ℚ)/100) ((s:ℚ)/100)),
       pilScale (hlsM1 ((l:ℚ)/100) ((s:ℚ)/100) +
         (hlsM2 ((l:ℚ)/100) ((s:ℚ)/100) - hlsM1 ((l:ℚ)/100) ((s:ℚ)/100)) * ((u:ℚ)/60))) := by
  have hq0 : (0:ℚ) ≤ (u:ℚ)/60 := by positivity
  have hq1 : (u:ℚ)/60 ≤ 1 := by
    rw [div_le_one (by norm_num : (0:ℚ) < 60)]
    exact_mod_cast hu1
  rw [pilHsl]
  rw [show (((120 + u : ℤ)):ℚ)/360 = (2 + (u:ℚ)/60)/6 from by push_cast; ring,
    hls_to_rgb_w4 ((u:ℚ)/60) _ _ hq0 hq1]

theorem pilHsl_case5 (u s l : ℤ) (hu0 : 0 ≤ u) (hu1 : u ≤ 60) :
    pilHsl (240 - u) s l =
      (pilScale (hlsM1 ((l:ℚ)/100) ((s:ℚ)/100)),
       pilScale (hlsM1 ((l:ℚ)/100) ((s:ℚ)/100) +
         (hlsM2 ((l:ℚ)/100) ((s:ℚ)/100) - hlsM1 ((l:ℚ)/100) ((s:ℚ)/100)) * ((u:ℚ)/60)),
       pilScale (hlsM2 ((l:ℚ)/100) ((s:ℚ)/100))) := by
  have hq0 : (0:ℚ) ≤ (u:ℚ)/60 := by positivity
  have hq1 : (u:ℚ)/60 ≤ 1 := by
    rw [div_le_one (by norm_num : (0:ℚ) < 60)]
    exact_mod_cast hu1
  rw [pilHsl]
  rw [show (((240 - u : ℤ)):ℚ)/360 = (4 - (u:ℚ)/60)/6 from by push_cast; ring,
    hls_to_rgb_w5 ((u:ℚ)/60) _ _ hq0 hq1]

theorem pilHsl_case6 (u s l : ℤ) (hu0 : 0 ≤ u) (hu1 : u ≤ 60) :
    pilHsl (240 + u) s l =
      (pilScale (hlsM1 ((l:ℚ)/100) ((s:ℚ)/100) +
         (hlsM2 ((l:ℚ)/100) ((s:ℚ)/100) - hlsM1 ((l:ℚ)/100) ((s:ℚ)/100)) * ((u:ℚ)/60)),
       pilScale (hlsM1 ((l:ℚ)/100) ((s:ℚ)/100)),
       pilScale (hlsM2 ((l:ℚ)/100) ((s:ℚ)/100))) := by
  have hq0 : (0:ℚ) ≤ (u:ℚ)/60 := by positivity
  have hq1 : (u:ℚ)/60 ≤ 1 := by
    rw [div_le_one (by norm_num : (0:ℚ) < 60)]
    exact_mod_cast hu1
  rw [pilHsl]
  rw [show (((240 + u : ℤ)):ℚ)/360 = (4 + (u:ℚ)/60)/6 from by push_cast; ring,
    hls_to_rgb_w6 ((u:ℚ)/60) _ _ hq0 hq1]

/-! ### Small arithmetic helpers -/

theorem natMaxB_eq (a b : ℕ) : natMaxB a b = max a b := by
  rw [natMaxB, cond_ble, Nat.max_def]

theorem cond_bleT {α : Type} (a b : ℕ) (x y : α) :
    cond (Nat.ble a b) x y = if a ≤ b then x else y := by
  simp [Nat.ble_eq]

theorem absSub_bounds (a b : ℕ) :
    (a:ℚ) - b ≤ ((absSub a b : ℕ):ℚ) ∧ (b:ℚ) - a ≤ ((absSub a b : ℕ):ℚ) := by
  rw [absSub, cond_ble]
  split_ifs with h
  · have hq : (a:ℚ) ≤ b := by exact_mod_cast h
    rw [Nat.cast_sub h]
    constructor <;> linarith
  · push_neg at h
    have hba : b ≤ a := le_of_lt h
    have hq : (b:ℚ) ≤ a := by exact_mod_cast hba
    rw [Nat.cast_sub hba]
    constructor <;> linarith

theorem abs_div_sub_le (a t : ℕ) :
    |(a:ℚ)/10000 - t| ≤ ((absSub a (10000 * t) : ℕ):ℚ)/10000 := by
  obtain ⟨h1, h2⟩ := absSub_bounds a (10000 * t)
  rw [abs_le]
  push_cast at h1 h2
  constructor <;> linarith

theorem rheNat_mul_le (a n d : ℕ) (hd : 0 < d) (h : n ≤ d) : rheNat (a * n) d ≤ a := by
  have hz : ((rheNat (a * n) d : ℕ) : ℤ) ≤ (a : ℤ) := by
    rw [rheNat_eq_pyRound _ _ hd]
    apply pyRound_le
    rw [div_le_iff₀ (by exact_mod_cast hd : (0:ℚ) < (d:ℚ))]
    have h1 : ((a * n : ℕ) : ℚ) ≤ ((a * d : ℕ) : ℚ) := by
      exact_mod_cast Nat.mul_le_mul_left a h
    push_cast at h1 ⊢
    linarith
  exact_mod_cast hz

theorem rheNat_dist60 (w d : ℕ) (hd : 0 < d) :
    |(((rheNat (60 * w) d : ℕ):ℤ):ℚ) - 60 * (w:ℚ) / (d:ℚ)| ≤ 1/2 := by
  have hz : ((rheNat (60 * w) d : ℕ) : ℤ) = pyRound (((60 * w : ℕ) : ℚ) / d) :=
    rheNat_eq_pyRound _ _ hd
  obtain ⟨h1, h2⟩ := pyRound_dist (((60 * w : ℕ) : ℚ) / d)
  rw [hz]
  have harg : ((60 * w : ℕ) : ℚ) = 60 * (w:ℚ) := by push_cast; ring
  rw [harg] at h1 h2 ⊢
  rw [abs_le]
  constructor <;> linarith

/-! ### The central interpolation bound -/

theorem pilScale_affine_bound (Y0 Y1 uq : ℚ) (mn w d M B c0 c1 : ℕ)
    (hu0 : 0 ≤ uq) (hu1 : uq ≤ 60) (hd : 0 < d) (hMd : mn + d = M)
    (hud : |uq - 60 * (w:ℚ) / (d:ℚ)| ≤ 1/2)
    (hc0 : |255 * Y0 - (mn:ℚ)| ≤ (c0:ℚ)/10000)
    (hc1 : |255 * Y1 - (M:ℚ)| ≤ (c1:ℚ)/10000)
    (hcheck : 12 * max c0 c1 + 60000 + 1000 * d < 120000 * (B + 1)) :
    (pilScale (Y0 + (Y1 - Y0) * uq / 60) - ((mn:ℤ) + (w:ℤ))).natAbs ≤ B := by
  have hdq : (0:ℚ) < (d:ℚ) := by exact_mod_cast hd
  have hl0 : (0:ℚ) ≤ uq/60 := by linarith
  have hl1 : uq/60 ≤ 1 := by linarith
  have hw2 : |(d:ℚ) * (uq/60) - (w:ℚ)| ≤ (d:ℚ)/120 := by
    have h1 : (d:ℚ) * (uq/60) - (w:ℚ) = ((d:ℚ)/60) * (uq - 60 * (w:ℚ)/(d:ℚ)) := by
      rw [mul_sub, show ((d:ℚ)/60) * (60 * (w:ℚ)/(d:ℚ)) = ((d:ℚ)/(d:ℚ)) * (w:ℚ) from by ring,
        div_self hdq.ne', one_mul]
      ring
    rw [h1, abs_mul, abs_of_nonneg (by positivity : (0:ℚ) ≤ (d:ℚ)/60)]
    have h2 : (d:ℚ)/60 * |uq - 60 * (w:ℚ)/(d:ℚ)| ≤ (d:ℚ)/60 * (1/2) :=
      mul_le_mul_of_nonneg_left hud (by positivity)
    linarith
  have hcm : ((max c0 c1 : ℕ):ℚ)/10000 + (d:ℚ)/120 + 1/2 < (B:ℚ) + 1 := by
    have h1 : ((12 * max c0 c1 + 60000 + 1000 * d : ℕ):ℚ) < ((120000 * (B + 1) : ℕ):ℚ) := by
      exact_mod_cast hcheck
    push_cast at h1 ⊢
    linarith
  have hb0 := abs_le.mp hc0
  have hb1 := abs_le.mp hc1
  have hbw := abs_le.mp hw2
  have hcm0 : (c0:ℚ)/10000 ≤ ((max c0 c1 : ℕ):ℚ)/10000 := by
    have h1 : (c0:ℚ) ≤ ((max c0 c1 : ℕ):ℚ) := by exact_mod_cast le_max_left c0 c1
    linarith
  have hcm1 : (c1:ℚ)/10000 ≤ ((max c0 c1 : ℕ):ℚ)/10000 := by
    have h1 : (c1:ℚ) ≤ ((max c0 c1 : ℕ):ℚ) := by exact_mod_cast le_max_right c0 c1
    linarith
  have hid : 255 * (Y0 + (Y1 - Y0) * uq / 60) - ((mn:ℚ) + (w:ℚ))
      = (1 - uq/60) * (255 * Y0 - (mn:ℚ)) + (uq/60) * (255 * Y1 - (M:ℚ))
        + ((d:ℚ) * (uq/60) - (w:ℚ)) := by
    have hM : (M:ℚ) = (mn:ℚ) + (d:ℚ) := by exact_mod_cast hMd.symm
    rw [hM]
    ring
  have hkey : |255 * (Y0 + (Y1 - Y0) * uq / 60) - ((mn:ℚ) + (w:ℚ))|
      ≤ ((max c0 c1 : ℕ):ℚ)/10000 + (d:ℚ)/120 := by
    rw [hid, abs_le]
    have e1 := mul_le_mul_of_nonneg_left hb0.1 (by linarith : (0:ℚ) ≤ 1 - uq/60)
    have e2 := mul_le_mul_of_nonneg_left hb0.2 (by linarith : (0:ℚ) ≤ 1 - uq/60)
    have e3 := mul_le_mul_of_nonneg_left hb1.1 hl0
    have e4 := mul_le_mul_of_nonneg_left hb1.2 hl0
    have e5 := mul_le_mul_of_nonneg_left hcm0 (by linarith : (0:ℚ) ≤ 1 - uq/60)
    have e6 := mul_le_mul_of_nonneg_left hcm1 hl0
    constructor
    · linarith [e1, e3, e5, e6, hbw.1]
    · linarith [e2, e4, e5, e6, hbw.2]
  have hfl : pilScale (Y0 + (Y1 - Y0) * uq / 60)
      = ⌊(Y0 + (Y1 - Y0) * uq / 60) * 255 + 1/2⌋ := by
    rw [pilScale, ratFloor_eq]
  have hle : ((pilScale (Y0 + (Y1 - Y0) * uq / 60) : ℤ):ℚ)
      ≤ (Y0 + (Y1 - Y0) * uq / 60) * 255 + 1/2 := by
    rw [hfl]
    exact Int.floor_le _
  have hgt : (Y0 + (Y1 - Y0) * uq / 60) * 255 + 1/2
      < ((pilScale (Y0 + (Y1 - Y0) * uq / 60) : ℤ):ℚ) + 1 := by
    rw [hfl]
    exact Int.lt_floor_add_one _
  have habs := abs_le.mp hkey
  have hup : ((pilScale (Y0 + (Y1 - Y0) * uq / 60) : ℤ):ℚ)
      < ((mn:ℚ) + (w:ℚ)) + ((B:ℚ) + 1) := by
    linarith [habs.2, hcm, hle]
  have hdn : ((mn:ℚ) + (w:ℚ)) - ((B:ℚ) + 1)
      < ((pilScale (Y0 + (Y1 - Y0) * uq / 60) : ℤ):ℚ) := by
    linarith [habs.1, hcm, hgt]
  have hupZ : pilScale (Y0 + (Y1 - Y0) * uq / 60) < (mn:ℤ) + (w:ℤ) + ((B:ℤ) + 1) := by
    have h1 : ((pilScale (Y0 + (Y1 - Y0) * uq / 60) : ℤ):ℚ)
        < (((mn:ℤ) + (w:ℤ) + ((B:ℤ) + 1) : ℤ):ℚ) := by
      push_cast
      linarith [hup]
    exact_mod_cast h1
  have hdnZ : (mn:ℤ) + (w:ℤ) - ((B:ℤ) + 1) < pilScale (Y0 + (Y1 - Y0) * uq / 60) := by
    have h1 : (((mn:ℤ) + (w:ℤ) - ((B:ℤ) + 1) : ℤ):ℚ)
        < ((pilScale (Y0 + (Y1 - Y0) * uq / 60) : ℤ):ℚ) := by
      push_cast
      linarith [hdn]
    exact_mod_cast h1
  omega

/-! ### Prop forms of the two per-pair enumerations -/

theorem hsvPair2_bound (M mn : ℕ) (hM : M < 256) (hmn : mn < M) :
    (hsvBackMinN (rheNat (100 * M) 255) (hsvS M mn) ≤ mn + 3 ∧
      mn ≤ hsvBackMinN (rheNat (100 * M) 255) (hsvS M mn) + 3) ∧
    12 * max (absSub (255 * (rheNat (100 * M) 255 * (100 - hsvS M mn))) (10000 * mn))
        (absSub (25500 * rheNat (100 * M) 255) (10000 * M))
      + 60000 + 1000 * (M - mn) < 480000 := by
  have h := allBelow_eq_true (allBelow_eq_true hsvPair2_all M hM) mn (by omega)
  rw [hsvPairCheckB, cond_bleT] at h
  rw [if_neg (by omega : ¬ M ≤ mn)] at h
  simp only [rheNatB_eq, distLeB, natMaxB_eq, Bool.and_eq_true, Nat.ble_eq, Nat.blt_eq] at h
  rw [hsvBackMinN, hsvS, if_neg (by omega : ¬ M = mn)]
  exact h

theorem hslPair2_bound (M mn : ℕ) (hM : M < 256) (hmn : mn < M) :
    (hslBackMinN (hslS M mn) (hslL M mn) ≤ mn + 5 ∧
      mn ≤ hslBackMinN (hslS M mn) (hslL M mn) + 5) ∧
    12 * max (absSub (255 * hslM1N (hslS M mn) (hslL M mn)) (10000 * mn))
        (absSub (255 * hslM2N (hslS M mn) (hslL M mn)) (10000 * M))
      + 60000 + 1000 * (M - mn) < 720000 := by
  have h := allBelow_eq_true (allBelow_eq_true hslPair2_all M hM) mn (by omega)
  rw [hslPairCheck2B, cond_bleT] at h
  rw [if_neg (by omega : ¬ M ≤ mn)] at h
  simp only [rheNatB_eq, distLeB, natMaxB_eq, Bool.and_eq_true, Nat.ble_eq, Nat.blt_eq,
    cond_ble, cond_beq] at h
  have hs_eq : hslS M mn
      = if M + mn ≤ 255 then rheNat (100 * (M - mn)) (M + mn)
        else rheNat (100 * (M - mn)) (510 - (M + mn)) := by
    rw [hslS, if_neg (by omega : ¬ M = mn)]
  rw [hslBackMinN, hslM1N, hslM2N, hs_eq, hslL]
  exact h

/-! ### Bridges between the rational back-conversion forms and ℕ mirrors -/

theorem hsvBackMin_eq (v s : ℕ) (hs : s ≤ 100) :
    pilScale (((v:ℤ):ℚ)/100 * (1 - ((s:ℤ):ℚ)/100)) = ((hsvBackMinN v s : ℕ) : ℤ) := by
  have harg : ((v:ℤ):ℚ)/100 * (1 - ((s:ℤ):ℚ)/100)
      = ((v * (100 - s) : ℕ) : ℚ) / ((10000 : ℕ) : ℚ) := by
    rw [eq_div_iff (by norm_num : ((10000:ℕ):ℚ) ≠ 0)]
    push_cast [Nat.cast_sub hs]
    ring
  rw [harg, pilScale_natCast_div _ _ (by norm_num), hsvBackMinN,
    show (2 * 10000 : ℕ) = 20000 from by norm_num]

theorem hlsM2_cast (s l : ℕ) (hs : s ≤ 100) (hl : l ≤ 100) :
    hlsM2 (((l:ℤ):ℚ)/100) (((s:ℤ):ℚ)/100) = ((hslM2N s l : ℕ) : ℚ) / ((10000 : ℕ) : ℚ) := by
  rw [hlsM2, hslM2N]
  by_cases hs0 : s = 0
  · rw [if_pos (by rw [hs0]; norm_num), if_pos hs0]
    push_cast
    ring
  · have hsq : ¬ (((s:ℤ):ℚ)/100 = 0) := by
      simp only [div_eq_zero_iff, OfNat.ofNat_ne_zero, or_false]
      intro hq
      exact hs0 (by exact_mod_cast hq)
    rw [if_neg hsq, if_neg hs0]
    by_cases hl50 : l ≤ 50
    · rw [if_pos (show ((l:ℤ):ℚ)/100 ≤ 1/2 from by
        have h1 : ((l:ℕ):ℚ) ≤ 50 := by exact_mod_cast hl50
        push_cast
        linarith), if_pos hl50]
      rw [eq_div_iff (by norm_num : ((10000:ℕ):ℚ) ≠ 0)]
      push_cast
      ring
    · rw [if_neg (show ¬ ((l:ℤ):ℚ)/100 ≤ 1/2 from by
        push_neg
        have h1 : (51:ℚ) ≤ ((l:ℕ):ℚ) := by exact_mod_cast (by omega : 51 ≤ l)
        push_cast
        linarith), if_neg hl50]
      rw [eq_div_iff (by norm_num : ((10000:ℕ):ℚ) ≠ 0)]
      push_cast [Nat.cast_sub hl]
      ring

theorem hlsM1_cast (s l : ℕ) (hs : s ≤ 100) (hl : l ≤ 100) :
    hlsM1 (((l:ℤ):ℚ)/100) (((s:ℤ):ℚ)/100) = ((hslM1N s l : ℕ) : ℚ) / ((10000 : ℕ) : ℚ) := by
  rw [hlsM1, hlsM2_cast s l hs hl, hslM1N, hslM2N]
  by_cases hs0 : s = 0
  · rw [if_pos hs0, if_pos hs0]
    rw [eq_div_iff (by norm_num : ((10000:ℕ):ℚ) ≠ 0)]
    push_cast
    ring
  · rw [if_neg hs0, if_neg hs0]
    by_cases hl50 : l ≤ 50
    · rw [if_pos hl50, if_pos hl50]
      rw [eq_div_iff (by norm_num : ((10000:ℕ):ℚ) ≠ 0)]
      push_cast [Nat.cast_sub hs]
      ring
    · rw [if_neg hl50, if_neg hl50]
      have hsl : s * (100 - l) ≤ 100 * l :=
        le_trans (Nat.mul_le_mul_right _ hs) (Nat.mul_le_mul_left 100 (by omega))
      rw [eq_div_iff (by norm_num : ((10000:ℕ):ℚ) ≠ 0)]
      push_cast [Nat.cast_sub hsl, Nat.cast_sub hl]
      ring

theorem hslBackMin_eq (s l : ℕ) (hs : s ≤ 100) (hl : l ≤ 100) :
    pilScale (hlsM1 (((l:ℤ):ℚ)/100) (((s:ℤ):ℚ)/100)) = ((hslBackMinN s l : ℕ) : ℤ) := by
  rw [hlsM1_cast s l hs hl, pilScale_natCast_div _ _ (by norm_num), hslBackMinN,
    show (2 * 10000 : ℕ) = 20000 from by norm_num]

/-! ### Per-case channel bounds after the round trip -/

theorem hsv_case_bound (M mn w : ℕ) (hM : M ≤ 255) (hlt : mn < M) (hw : w ≤ M - mn) :
    (pilScale ((((rheNat (100 * M) 255 : ℕ):ℤ):ℚ)/100) - (M:ℤ)).natAbs ≤ 3 ∧
    (pilScale ((((rheNat (100 * M) 255 : ℕ):ℤ):ℚ)/100 *
        (1 - (((hsvS M mn : ℕ):ℤ):ℚ)/100 *
          (1 - (((rheNat (60 * w) (M - mn) : ℕ):ℤ):ℚ)/60))) - ((mn:ℤ) + (w:ℤ))).natAbs ≤ 3 ∧
    (pilScale ((((rheNat (100 * M) 255 : ℕ):ℤ):ℚ)/100 *
        (1 - (((hsvS M mn : ℕ):ℤ):ℚ)/100)) - (mn:ℤ)).natAbs ≤ 3 := by
  have hd : 0 < M - mn := by omega
  have hs_le : hsvS M mn ≤ 100 := by
    rw [hsvS, if_neg (by omega : ¬ M = mn)]
    exact rheNat_mul_le 100 (M - mn) M (by omega) (by omega)
  obtain ⟨⟨hmin1, hmin2⟩, hcheck⟩ := hsvPair2_bound M mn (by omega) hlt
  refine ⟨?_, ?_, ?_⟩
  · rw [hsvBackMax_eq M]
    have hbd := hsvMax_bound M (by omega)
    omega
  · have harg : (((rheNat (100 * M) 255 : ℕ):ℤ):ℚ)/100 *
        (1 - (((hsvS M mn : ℕ):ℤ):ℚ)/100 *
          (1 - (((rheNat (60 * w) (M - mn) : ℕ):ℤ):ℚ)/60))
        = (((rheNat (100 * M) 255 : ℕ):ℤ):ℚ)/100 * (1 - (((hsvS M mn : ℕ):ℤ):ℚ)/100)
          + ((((rheNat (100 * M) 255 : ℕ):ℤ):ℚ)/100
            - (((rheNat (100 * M) 255 : ℕ):ℤ):ℚ)/100 * (1 - (((hsvS M mn : ℕ):ℤ):ℚ)/100))
            * (((rheNat (60 * w) (M - mn) : ℕ):ℤ):ℚ) / 60 := by
      ring
    rw [harg]
    apply pilScale_affine_bound _ _ _ mn w (M - mn) M 3
      (absSub (255 * (rheNat (100 * M) 255 * (100 - hsvS M mn))) (10000 * mn))
      (absSub (25500 * rheNat (100 * M) 255) (10000 * M))
      (by positivity) (by exact_mod_cast rheNat_mul_le 60 w (M - mn) hd hw) hd (by omega)
      (rheNat_dist60 w (M - mn) hd)
    · have hY0 : (255:ℚ) * ((((rheNat (100 * M) 255 : ℕ):ℤ):ℚ)/100
          * (1 - (((hsvS M mn : ℕ):ℤ):ℚ)/100))
          = ((255 * (rheNat (100 * M) 255 * (100 - hsvS M mn)) : ℕ):ℚ)/10000 := by
        rw [eq_div_iff (by norm_num : (10000:ℚ) ≠ 0)]
        push_cast [Nat.cast_sub hs_le]
        ring
      rw [hY0]
      exact abs_div_sub_le _ mn
    · have hY1 : (255:ℚ) * ((((rheNat (100 * M) 255 : ℕ):ℤ):ℚ)/100)
          = ((25500 * rheNat (100 * M) 255 : ℕ):ℚ)/10000 := by
        rw [eq_div_iff (by norm_num : (10000:ℚ) ≠ 0)]
        push_cast
        ring
      rw [hY1]
      exact abs_div_sub_le _ M
    · omega
  · rw [hsvBackMin_eq _ _ hs_le]
    omega

theorem hsl_case_bound (M mn w : ℕ) (hM : M ≤ 255) (hlt : mn < M) (hw : w ≤ M - mn) :
    (pilScale (hlsM2 ((((hslL M mn : ℕ):ℤ):ℚ)/100) ((((hslS M mn : ℕ):ℤ):ℚ)/100))
      - (M:ℤ)).natAbs ≤ 5 ∧
    (pilScale (hlsM1 ((((hslL M mn : ℕ):ℤ):ℚ)/100) ((((hslS M mn : ℕ):ℤ):ℚ)/100) +
        (hlsM2 ((((hslL M mn : ℕ):ℤ):ℚ)/100) ((((hslS M mn : ℕ):ℤ):ℚ)/100) -
          hlsM1 ((((hslL M mn : ℕ):ℤ):ℚ)/100) ((((hslS M mn : ℕ):ℤ):ℚ)/100)) *
          ((((rheNat (60 * w) (M - mn) : ℕ):ℤ):ℚ)/60)) - ((mn:ℤ) + (w:ℤ))).natAbs ≤ 5 ∧
    (pilScale (hlsM1 ((((hslL M mn : ℕ):ℤ):ℚ)/100) ((((hslS M mn : ℕ):ℤ):ℚ)/100))
      - (mn:ℤ)).natAbs ≤ 5 := by
  have hd : 0 < M - mn := by omega
  have hsle := hslS_le M mn (le_of_lt hlt) hM
  have hlle := hslL_le M mn (le_of_lt hlt) hM
  obtain ⟨⟨hmin1, hmin2⟩, hcheck⟩ := hslPair2_bound M mn (by omega) hlt
  refine ⟨?_, ?_, ?_⟩
  · rw [hslBackOfSL_eq _ _ hsle hlle]
    have heqb : hslBackOfSL (hslS M mn) (hslL M mn) = hslBackMax M mn := rfl
    rw [heqb]
    have hbd := hslPair_bound M mn (by omega) (le_of_lt hlt)
    omega
  · have harg : hlsM1 ((((hslL M mn : ℕ):ℤ):ℚ)/100) ((((hslS M mn : ℕ):ℤ):ℚ)/100) +
        (hlsM2 ((((hslL M mn : ℕ):ℤ):ℚ)/100) ((((hslS M mn : ℕ):ℤ):ℚ)/100) -
          hlsM1 ((((hslL M mn : ℕ):ℤ):ℚ)/100) ((((hslS M mn : ℕ):ℤ):ℚ)/100)) *
          ((((rheNat (60 * w) (M - mn) : ℕ):ℤ):ℚ)/60)
        = hlsM1 ((((hslL M mn : ℕ):ℤ):ℚ)/100) ((((hslS M mn : ℕ):ℤ):ℚ)/100) +
          (hlsM2 ((((hslL M mn : ℕ):ℤ):ℚ)/100) ((((hslS M mn : ℕ):ℤ):ℚ)/100) -
            hlsM1 ((((hslL M mn : ℕ):ℤ):ℚ)/100) ((((hslS M mn : ℕ):ℤ):ℚ)/100)) *
            (((rheNat (60 * w) (M - mn) : ℕ):ℤ):ℚ) / 60 := by
      ring
    rw [harg]
    apply pilScale_affine_bound _ _ _ mn w (M - mn) M 5
      (absSub (255 * hslM1N (hslS M mn) (hslL M mn)) (10000 * mn))
      (absSub (255 * hslM2N (hslS M mn) (hslL M mn)) (10000 * M))
      (by positivity) (by exact_mod_cast rheNat_mul_le 60 w (M - mn) hd hw) hd (by omega)
      (rheNat_dist60 w (M - mn) hd)
    · rw [hlsM1_cast _ _ hsle hlle]
      rw [show (255:ℚ) * (((hslM1N (hslS M mn) (hslL M mn) : ℕ):ℚ)/((10000:ℕ):ℚ))
          = ((255 * hslM1N (hslS M mn) (hslL M mn) : ℕ):ℚ)/10000 from by push_cast; ring]
      exact abs_div_sub_le _ mn
    · rw [hlsM2_cast _ _ hsle hlle]
      rw [show (255:ℚ) * (((hslM2N (hslS M mn) (hslL M mn) : ℕ):ℚ)/((10000:ℕ):ℚ))
          = ((255 * hslM2N (hslS M mn) (hslL M mn) : ℕ):ℚ)/10000 from by push_cast; ring]
      exact abs_div_sub_le _ M
    · omega
  · rw [hslBackMin_eq _ _ hsle hlle]
    omega

/-! ### The exact integer hue on each channel ordering -/

theorem chan_le (x y : ℕ) (h : x ≤ y) : (x:ℚ)/255 ≤ (y:ℚ)/255 := by
  have h1 : (x:ℚ) ≤ (y:ℚ) := by exact_mod_cast h
  linarith

theorem chan_lt (x y : ℕ) (h : x < y) : (x:ℚ)/255 < (y:ℚ)/255 := by
  have h1 : (x:ℚ) < (y:ℚ) := by exact_mod_cast h
  linarith

theorem hsv_hue_case1 (r g b : ℕ) (hbg : b ≤ g) (hgr : g ≤ r) (hlt : b < r) :
    (_rgb_to_hsv r g b).1 = ((rheNat (60 * (g - b)) (r - b) : ℕ) : ℤ) := by
  have hmax : max ((r:ℚ)/255) (max ((g:ℚ)/255) ((b:ℚ)/255)) = (r:ℚ)/255 :=
    max_eq_left (max_le (chan_le g r hgr) (chan_le b r (by omega)))
  have hmin : min ((r:ℚ)/255) (min ((g:ℚ)/255) ((b:ℚ)/255)) = (b:ℚ)/255 := by
    rw [min_eq_right (chan_le b g hbg), min_eq_right (chan_le b r (by omega))]
  have hne : ¬ min ((r:ℚ)/255) (min ((g:ℚ)/255) ((b:ℚ)/255))
      = max ((r:ℚ)/255) (max ((g:ℚ)/255) ((b:ℚ)/255)) := by
    rw [hmax, hmin]
    exact ne_of_lt (chan_lt b r hlt)
  rw [rgbToHsv_proj]
  dsimp only
  rw [rgb_to_hsv, if_neg hne]
  dsimp only
  rw [if_pos hmax.symm, hmax, hmin]
  have hdpos : (0:ℚ) < (r:ℚ)/255 - (b:ℚ)/255 := by
    have h1 := chan_lt b r hlt
    linarith
  have hrbq : (0:ℚ) < ((r - b : ℕ):ℚ) := by exact_mod_cast (by omega : 0 < r - b)
  have hform : ((r:ℚ)/255 - (b:ℚ)/255) / ((r:ℚ)/255 - (b:ℚ)/255)
      - ((r:ℚ)/255 - (g:ℚ)/255) / ((r:ℚ)/255 - (b:ℚ)/255)
      = ((g - b : ℕ):ℚ) / ((r - b : ℕ):ℚ) := by
    rw [div_sub_div_same, div_eq_div_iff hdpos.ne' hrbq.ne']
    push_cast [Nat.cast_sub hbg, Nat.cast_sub (by omega : b ≤ r)]
    ring
  rw [hform]
  have hx0 : (0:ℚ) ≤ ((g - b : ℕ):ℚ) / ((r - b : ℕ):ℚ) := by positivity
  have hx1 : ((g - b : ℕ):ℚ) / ((r - b : ℕ):ℚ) ≤ 1 := by
    rw [div_le_one hrbq]
    exact_mod_cast (by omega : g - b ≤ r - b)
  rw [pyMod1_self _ (by linarith) (by linarith)]
  have harg : ((g - b : ℕ):ℚ) / ((r - b : ℕ):ℚ) / 6 * 360
      = ((60 * (g - b) : ℕ):ℚ) / ((r - b : ℕ):ℚ) := by
    push_cast
    ring
  rw [harg, ← rheNat_eq_pyRound _ _ (by omega : 0 < r - b)]

theorem hsv_hue_case2 (r g b : ℕ) (hgb : g < b) (hbr : b ≤ r) :
    (_rgb_to_hsv r g b).1 = 360 - ((rheNat (60 * (b - g)) (r - g) : ℕ) : ℤ) := by
  have hmax : max ((r:ℚ)/255) (max ((g:ℚ)/255) ((b:ℚ)/255)) = (r:ℚ)/255 :=
    max_eq_left (max_le (chan_le g r (by omega)) (chan_le b r hbr))
  have hmin : min ((r:ℚ)/255) (min ((g:ℚ)/255) ((b:ℚ)/255)) = (g:ℚ)/255 := by
    rw [min_eq_left (chan_le g b (by omega)), min_eq_right (chan_le g r (by omega))]
  have hne : ¬ min ((r:ℚ)/255) (min ((g:ℚ)/255) ((b:ℚ)/255))
      = max ((r:ℚ)/255) (max ((g:ℚ)/255) ((b:ℚ)/255)) := by
    rw [hmax, hmin]
    exact ne_of_lt (chan_lt g r (by omega))
  rw [rgbToHsv_proj]
  dsimp only
  rw [rgb_to_hsv, if_neg hne]
  dsimp only
  rw [if_pos hmax.symm, hmax, hmin]
  have hdpos : (0:ℚ) < (r:ℚ)/255 - (g:ℚ)/255 := by
    have h1 := chan_lt g r (by omega : g < r)
    linarith
  have hrgq : (0:ℚ) < ((r - g : ℕ):ℚ) := by exact_mod_cast (by omega : 0 < r - g)
  have hform : ((r:ℚ)/255 - (b:ℚ)/255) / ((r:ℚ)/255 - (g:ℚ)/255)
      - ((r:ℚ)/255 - (g:ℚ)/255) / ((r:ℚ)/255 - (g:ℚ)/255)
      = -(((b - g : ℕ):ℚ) / ((r - g : ℕ):ℚ)) := by
    rw [div_sub_div_same,
      show ((r:ℚ)/255 - (b:ℚ)/255) - ((r:ℚ)/255 - (g:ℚ)/255)
        = -((b:ℚ)/255 - (g:ℚ)/255) from by ring,
      neg_div]
    congr 1
    rw [div_eq_div_iff hdpos.ne' hrgq.ne']
    push_cast [Nat.cast_sub (le_of_lt hgb), Nat.cast_sub (by omega : g ≤ r)]
    ring
  rw [hform]
  have hy0 : (0:ℚ) < ((b - g : ℕ):ℚ) / ((r - g : ℕ):ℚ) :=
    div_pos (by exact_mod_cast (by omega : 0 < b - g)) hrgq
  have hy1 : ((b - g : ℕ):ℚ) / ((r - g : ℕ):ℚ) ≤ 1 := by
    rw [div_le_one hrgq]
    exact_mod_cast (by omega : b - g ≤ r - g)
  rw [neg_div]
  have hfx : Int.fract (((b - g : ℕ):ℚ) / ((r - g : ℕ):ℚ) / 6) ≠ 0 := by
    rw [Int.fract_eq_self.mpr ⟨by linarith, by linarith⟩]
    exact ne_of_gt (by linarith)
  rw [show pyMod1 (-(((b - g : ℕ):ℚ) / ((r - g : ℕ):ℚ) / 6))
      = 1 - ((b - g : ℕ):ℚ) / ((r - g : ℕ):ℚ) / 6 from by
    rw [pyMod1_eq, Int.fract_neg hfx, Int.fract_eq_self.mpr ⟨by linarith, by linarith⟩]]
  have harg : (1 - ((b - g : ℕ):ℚ) / ((r - g : ℕ):ℚ) / 6) * 360
      = ((360:ℤ):ℚ) - ((60 * (b - g) : ℕ):ℚ) / ((r - g : ℕ):ℚ) := by
    push_cast
    ring
  rw [harg, pyRound_intCast_sub 360 (by norm_num) _,
    ← rheNat_eq_pyRound _ _ (by omega : 0 < r - g)]

theorem hsv_hue_case3 (r g b : ℕ) (hrb : r ≤ b) (hbg : b ≤ g) (hrg : r < g) :
    (_rgb_to_hsv r g b).1 = 120 + ((rheNat (60 * (b - r)) (g - r) : ℕ) : ℤ) := by
  have hmax : max ((r:ℚ)/255) (max ((g:ℚ)/255) ((b:ℚ)/255)) = (g:ℚ)/255 := by
    rw [max_eq_left (chan_le b g hbg), max_eq_right (chan_le r g (by omega))]
  have hmin : min ((r:ℚ)/255) (min ((g:ℚ)/255) ((b:ℚ)/255)) = (r:ℚ)/255 := by
    rw [min_eq_right (chan_le b g hbg), min_eq_left (chan_le r b hrb)]
  have hne : ¬ min ((r:ℚ)/255) (min ((g:ℚ)/255) ((b:ℚ)/255))
      = max ((r:ℚ)/255) (max ((g:ℚ)/255) ((b:ℚ)/255)) := by
    rw [hmax, hmin]
    exact ne_of_lt (chan_lt r g hrg)
  have hne1 : ¬ ((r:ℚ)/255 = max ((r:ℚ)/255) (max ((g:ℚ)/255) ((b:ℚ)/255))) := by
    rw [hmax]
    exact ne_of_lt (chan_lt r g hrg)
  rw [rgbToHsv_proj]
  dsimp only
  rw [rgb_to_hsv, if_neg hne]
  dsimp only
  rw [if_neg hne1, if_pos hmax.symm, hmax, hmin]
  have hdpos : (0:ℚ) < (g:ℚ)/255 - (r:ℚ)/255 := by
    have h1 := chan_lt r g hrg
    linarith
  have hgrq : (0:ℚ) < ((g - r : ℕ):ℚ) := by exact_mod_cast (by omega : 0 < g - r)
  have hgrne : ((g - r : ℕ):ℚ) ≠ 0 := hgrq.ne'
  have hsubne : ((g:ℚ)) - (r:ℚ) ≠ 0 := by
    have h1 : (r:ℚ) < (g:ℚ) := by exact_mod_cast hrg
    exact sub_ne_zero.mpr (ne_of_gt h1)
  have hform : (2:ℚ) + ((g:ℚ)/255 - (r:ℚ)/255) / ((g:ℚ)/255 - (r:ℚ)/255)
      - ((g:ℚ)/255 - (b:ℚ)/255) / ((g:ℚ)/255 - (r:ℚ)/255)
      = 2 + ((b - r : ℕ):ℚ) / ((g - r : ℕ):ℚ) := by
    field_simp
    push_cast [Nat.cast_sub hrb, Nat.cast_sub (le_of_lt hrg)]
    ring
  rw [hform]
  have hx0 : (0:ℚ) ≤ ((b - r : ℕ):ℚ) / ((g - r : ℕ):ℚ) := by positivity
  have hx1 : ((b - r : ℕ):ℚ) / ((g - r : ℕ):ℚ) ≤ 1 := by
    rw [div_le_one hgrq]
    exact_mod_cast (by omega : b - r ≤ g - r)
  rw [pyMod1_self _ (by linarith) (by linarith)]
  have harg : (2 + ((b - r : ℕ):ℚ) / ((g - r : ℕ):ℚ)) / 6 * 360
      = ((120:ℤ):ℚ) + ((60 * (b - r) : ℕ):ℚ) / ((g - r : ℕ):ℚ) := by
    push_cast
    field_simp
    ring
  rw [harg, pyRound_intCast_add 120 (by norm_num) _,
    ← rheNat_eq_pyRound _ _ (by omega : 0 < g - r)]

theorem hsv_hue_case4 (r g b : ℕ) (hbr : b < r) (hrg : r < g) :
    (_rgb_to_hsv r g b).1 = 120 - ((rheNat (60 * (r - b)) (g - b) : ℕ) : ℤ) := by
  have hmax : max ((r:ℚ)/255) (max ((g:ℚ)/255) ((b:ℚ)/255)) = (g:ℚ)/255 := by
    rw [max_eq_left (chan_le b g (by omega)), max_eq_right (chan_le r g (by omega))]
  have hmin : min ((r:ℚ)/255) (min ((g:ℚ)/255) ((b:ℚ)/255)) = (b:ℚ)/255 := by
    rw [min_eq_right (chan_le b g (by omega)), min_eq_right (chan_le b r (by omega))]
  have hne : ¬ min ((r:ℚ)/255) (min ((g:ℚ)/255) ((b:ℚ)/255))
      = max ((r:ℚ)/255) (max ((g:ℚ)/255) ((b:ℚ)/255)) := by
    rw [hmax, hmin]
    exact ne_of_lt (chan_lt b g (by omega))
  have hne1 : ¬ ((r:ℚ)/255 = max ((r:ℚ)/255) (max ((g:ℚ)/255) ((b:ℚ)/255))) := by
    rw [hmax]
    exact ne_of_lt (chan_lt r g hrg)
  rw [rgbToHsv_proj]
  dsimp only
  rw [rgb_to_hsv, if_neg hne]
  dsimp only
  rw [if_neg hne1, if_pos hmax.symm, hmax, hmin]
  have hdpos : (0:ℚ) < (g:ℚ)/255 - (b:ℚ)/255 := by
    have h1 := chan_lt b g (by omega : b < g)
    linarith
  have hgbq : (0:ℚ) < ((g - b : ℕ):ℚ) := by exact_mod_cast (by omega : 0 < g - b)
  have hgbne : ((g - b : ℕ):ℚ) ≠ 0 := hgbq.ne'
  have hsubne : ((g:ℚ)) - (b:ℚ) ≠ 0 := by
    have h1 : (b:ℚ) < (g:ℚ) := by exact_mod_cast (by omega : b < g)
    exact sub_ne_zero.mpr (ne_of_gt h1)
  have hform : (2:ℚ) + ((g:ℚ)/255 - (r:ℚ)/255) / ((g:ℚ)/255 - (b:ℚ)/255)
      - ((g:ℚ)/255 - (b:ℚ)/255) / ((g:ℚ)/255 - (b:ℚ)/255)
      = 2 - ((r - b : ℕ):ℚ) / ((g - b : ℕ):ℚ) := by
    field_simp
    push_cast [Nat.cast_sub (le_of_lt hbr), Nat.cast_sub (by omega : b ≤ g)]
    ring
  rw [hform]
  have hx0 : (0:ℚ) ≤ ((r - b : ℕ):ℚ) / ((g - b : ℕ):ℚ) := by positivity
  have hx1 : ((r - b : ℕ):ℚ) / ((g - b : ℕ):ℚ) ≤ 1 := by
    rw [div_le_one hgbq]
    exact_mod_cast (by omega : r - b ≤ g - b)
  rw [pyMod1_self _ (by linarith) (by linarith)]
  have harg : (2 - ((r - b : ℕ):ℚ) / ((g - b : ℕ):ℚ)) / 6 * 360
      = ((120:ℤ):ℚ) - ((60 * (r - b) : ℕ):ℚ) / ((g - b : ℕ):ℚ) := by
    push_cast
    field_simp
    ring
  rw [harg, pyRound_intCast_sub 120 (by norm_num) _,
    ← rheNat_eq_pyRound _ _ (by omega : 0 < g - b)]

theorem hsv_hue_case5 (r g b : ℕ) (hgr : g ≤ r) (hrb : r < b) :
    (_rgb_to_hsv r g b).1 = 240 + ((rheNat (60 * (r - g)) (b - g) : ℕ) : ℤ) := by
  have hmax : max ((r:ℚ)/255) (max ((g:ℚ)/255) ((b:ℚ)/255)) = (b:ℚ)/255 := by
    rw [max_eq_right (chan_le g b (by omega)), max_eq_right (chan_le r b (by omega))]
  have hmin : min ((r:ℚ)/255) (min ((g:ℚ)/255) ((b:ℚ)/255)) = (g:ℚ)/255 := by
    rw [min_eq_left (chan_le g b (by omega)), min_eq_right (chan_le g r hgr)]
  have hne : ¬ min ((r:ℚ)/255) (min ((g:ℚ)/255) ((b:ℚ)/255))
      = max ((r:ℚ)/255) (max ((g:ℚ)/255) ((b:ℚ)/255)) := by
    rw [hmax, hmin]
    exact ne_of_lt (chan_lt g b (by omega))
  have hne1 : ¬ ((r:ℚ)/255 = max ((r:ℚ)/255) (max ((g:ℚ)/255) ((b:ℚ)/255))) := by
    rw [hmax]
    exact ne_of_lt (chan_lt r b hrb)
  have hne2 : ¬ ((g:ℚ)/255 = max ((r:ℚ)/255) (max ((g:ℚ)/255) ((b:ℚ)/255))) := by
    rw [hmax]
    exact ne_of_lt (chan_lt g b (by omega))
  rw [rgbToHsv_proj]
  dsimp only
  rw [rgb_to_hsv, if_neg hne]
  dsimp only
  rw [if_neg hne1, if_neg hne2, hmax, hmin]
  have hdpos : (0:ℚ) < (b:ℚ)/255 - (g:ℚ)/255 := by
    have h1 := chan_lt g b (by omega : g < b)
    linarith
  have hbgq : (0:ℚ) < ((b - g : ℕ):ℚ) := by exact_mod_cast (by omega : 0 < b - g)
  have hbgne : ((b - g : ℕ):ℚ) ≠ 0 := hbgq.ne'
  have hsubne : ((b:ℚ)) - (g:ℚ) ≠ 0 := by
    have h1 : (g:ℚ) < (b:ℚ) := by exact_mod_cast (by omega : g < b)
    exact sub_ne_zero.mpr (ne_of_gt h1)
  have hform : (4:ℚ) + ((b:ℚ)/255 - (g:ℚ)/255) / ((b:ℚ)/255 - (g:ℚ)/255)
      - ((b:ℚ)/255 - (r:ℚ)/255) / ((b:ℚ)/255 - (g:ℚ)/255)
      = 4 + ((r - g : ℕ):ℚ) / ((b - g : ℕ):ℚ) := by
    field_simp
    push_cast [Nat.cast_sub hgr, Nat.cast_sub (by omega : g ≤ b)]
    ring
  rw [hform]
  have hx0 : (0:ℚ) ≤ ((r - g : ℕ):ℚ) / ((b - g : ℕ):ℚ) := by positivity
  have hx1 : ((r - g : ℕ):ℚ) / ((b - g : ℕ):ℚ) ≤ 1 := by
    rw [div_le_one hbgq]
    exact_mod_cast (by omega : r - g ≤ b - g)
  rw [pyMod1_self _ (by linarith) (by linarith)]
  have harg : (4 + ((r - g : ℕ):ℚ) / ((b - g : ℕ):ℚ)) / 6 * 360
      = ((240:ℤ):ℚ) + ((60 * (r - g) : ℕ):ℚ) / ((b - g : ℕ):ℚ) := by
    push_cast
    field_simp
    ring
  rw [harg, pyRound_intCast_add 240 (by norm_num) _,
    ← rheNat_eq_pyRound _ _ (by omega : 0 < b - g)]

theorem hsv_hue_case6 (r g b : ℕ) (hrg : r < g) (hgb : g < b) :
    (_rgb_to_hsv r g b).1 = 240 - ((rheNat (60 * (g - r)) (b - r) : ℕ) : ℤ) := by
  have hmax : max ((r:ℚ)/255) (max ((g:ℚ)/255) ((b:ℚ)/255)) = (b:ℚ)/255 := by
    rw [max_eq_right (chan_le g b (by omega)), max_eq_right (chan_le r b (by omega))]
  have hmin : min ((r:ℚ)/255) (min ((g:ℚ)/255) ((b:ℚ)/255)) = (r:ℚ)/255 := by
    rw [min_eq_left (chan_le g b (by omega)), min_eq_left (chan_le r g (by omega))]
  have hne : ¬ min ((r:ℚ)/255) (min ((g:ℚ)/255) ((b:ℚ)/255))
      = max ((r:ℚ)/255) (max ((g:ℚ)/255) ((b:ℚ)/255)) := by
    rw [hmax, hmin]
    exact ne_of_lt (chan_lt r b (by omega))
  have hne1 : ¬ ((r:ℚ)/255 = max ((r:ℚ)/255) (max ((g:ℚ)/255) ((b:ℚ)/255))) := by
    rw [hmax]
    exact ne_of_lt (chan_lt r b (by omega))
  have hne2 : ¬ ((g:ℚ)/255 = max ((r:ℚ)/255) (max ((g:ℚ)/255) ((b:ℚ)/255))) := by
    rw [hmax]
    exact ne_of_lt (chan_lt g b hgb)
  rw [rgbToHsv_proj]
  dsimp only
  rw [rgb_to_hsv, if_neg hne]
  dsimp only
  rw [if_neg hne1, if_neg hne2, hmax, hmin]
  have hdpos : (0:ℚ) < (b:ℚ)/255 - (r:ℚ)/255 := by
    have h1 := chan_lt r b (by omega : r < b)
    linarith
  have hbrq : (0:ℚ) < ((b - r : ℕ):ℚ) := by exact_mod_cast (by omega : 0 < b - r)
  have hbrne : ((b - r : ℕ):ℚ) ≠ 0 := hbrq.ne'
  have hsubne : ((b:ℚ)) - (r:ℚ) ≠ 0 := by
    have h1 : (r:ℚ) < (b:ℚ) := by exact_mod_cast (by omega : r < b)
    exact sub_ne_zero.mpr (ne_of_gt h1)
  have hform : (4:ℚ) + ((b:ℚ)/255 - (g:ℚ)/255) / ((b:ℚ)/255 - (r:ℚ)/255)
      - ((b:ℚ)/255 - (r:ℚ)/255) / ((b:ℚ)/255 - (r:ℚ)/255)
      = 4 - ((g - r : ℕ):ℚ) / ((b - r : ℕ):ℚ) := by
    field_simp
    push_cast [Nat.cast_sub (le_of_lt hrg), Nat.cast_sub (by omega : r ≤ b)]
    ring
  rw [hform]
  have hx0 : (0:ℚ) ≤ ((g - r : ℕ):ℚ) / ((b - r : ℕ):ℚ) := by positivity
  have hx1 : ((g - r : ℕ):ℚ) / ((b - r : ℕ):ℚ) ≤ 1 := by
    rw [div_le_one hbrq]
    exact_mod_cast (by omega : g - r ≤ b - r)
  rw [pyMod1_self _ (by linarith) (by linarith)]
  have harg : (4 - ((g - r : ℕ):ℚ) / ((b - r : ℕ):ℚ)) / 6 * 360
      = ((240:ℤ):ℚ) - ((60 * (g - r) : ℕ):ℚ) / ((b - r : ℕ):ℚ) := by
    push_cast
    field_simp
    ring
  rw [harg, pyRound_intCast_sub 240 (by norm_num) _,
    ← rheNat_eq_pyRound _ _ (by omega : 0 < b - r)]

/-! ### Shared pieces of the forward conversions -/

theorem hls_fst_eq_hsv_fst (a b c : ℚ) : (rgb_to_hls a b c).1 = (rgb_to_hsv a b c).1 := by
  rw [rgb_to_hls, rgb_to_hsv]
  by_cases h : min a (min b c) = max a (max b c)
  · rw [if_pos h, if_pos h]
  · rw [if_neg h, if_neg h]

theorem hslProj_fst_eq (r g b : ℕ) : (_rgb_to_hsl r g b).1 = (_rgb_to_hsv r g b).1 := by
  rw [rgbToHsl_proj, rgbToHsv_proj]
  dsimp only
  rw [hls_fst_eq_hsv_fst]

theorem hsv_s_eq (r g b : ℕ) :
    (_rgb_to_hsv r g b).2.1 = ((hsvS (max r (max g b)) (min r (min g b)) : ℕ) : ℤ) := by
  have hmn3 : min r (min g b) ≤ max r (max g b) :=
    le_trans (min_le_left _ _) (le_max_left _ _)
  rw [rgbToHsv_proj]
  dsimp only
  rw [rgb_to_hsv_snd, ← cast_max_div, ← cast_min_div]
  by_cases hqeq : ((min r (min g b) : ℕ) : ℚ)/255 = ((max r (max g b) : ℕ) : ℚ)/255
  · have heq : min r (min g b) = max r (max g b) := by
      field_simp at hqeq
      exact_mod_cast hqeq
    rw [if_pos hqeq, hsvS, if_pos heq.symm, zero_mul, pyRound_zero]
    norm_num
  · have hne : ¬ max r (max g b) = min r (min g b) := fun h => hqeq (by rw [h])
    have hlt : min r (min g b) < max r (max g b) :=
      lt_of_le_of_ne hmn3 (fun h => hne h.symm)
    rw [if_neg hqeq, hsvS, if_neg hne]
    have hMpos : 0 < max r (max g b) := by omega
    have hMq : (0:ℚ) < ((max r (max g b) : ℕ) : ℚ) := by exact_mod_cast hMpos
    have harg : (((max r (max g b) : ℕ) : ℚ)/255 - ((min r (min g b) : ℕ) : ℚ)/255)
          / (((max r (max g b) : ℕ) : ℚ)/255) * 100
        = ((100 * (max r (max g b) - min r (min g b)) : ℕ) : ℚ)
          / ((max r (max g b) : ℕ) : ℚ) := by
      rw [div_mul_eq_mul_div, div_eq_div_iff (div_pos hMq (by norm_num)).ne' hMq.ne']
      push_cast [Nat.cast_sub hmn3]
      ring
    rw [harg, rheNat_eq_pyRound _ _ hMpos]

theorem hsv_fst_gray (r : ℕ) : (_rgb_to_hsv r r r).1 = 0 := by
  rw [rgbToHsv_proj]
  dsimp only
  rw [rgb_to_hsv, if_pos (by rw [min_self, min_self, max_self, max_self]
    : min ((r:ℚ)/255) (min ((r:ℚ)/255) ((r:ℚ)/255))
      = max ((r:ℚ)/255) (max ((r:ℚ)/255) ((r:ℚ)/255)))]
  norm_num [pyRound_zero]

/-! ### The per-channel back conversion, HSV path -/

theorem hsv_back_channels (r g b : ℕ) (hr : r ≤ 255) (hg : g ≤ 255) (hb : b ≤ 255) :
    ((pilHsv (_rgb_to_hsv r g b).1 (_rgb_to_hsv r g b).2.1 (_rgb_to_hsv r g b).2.2).1
      - (r:ℤ)).natAbs ≤ 3 ∧
    ((pilHsv (_rgb_to_hsv r g b).1 (_rgb_to_hsv r g b).2.1 (_rgb_to_hsv r g b).2.2).2.1
      - (g:ℤ)).natAbs ≤ 3 ∧
    ((pilHsv (_rgb_to_hsv r g b).1 (_rgb_to_hsv r g b).2.1 (_rgb_to_hsv r g b).2.2).2.2
      - (b:ℤ)).natAbs ≤ 3 := by
  by_cases hgray : min r (min g b) = max r (max g b)
  · have e1 : min r (min g b) ≤ r := min_le_left _ _
    have e2 : r ≤ max r (max g b) := le_max_left _ _
    have e3 : min r (min g b) ≤ g := le_trans (min_le_right _ _) (min_le_left _ _)
    have e4 : g ≤ max r (max g b) := le_trans (le_max_left _ _) (le_max_right _ _)
    have e5 : min r (min g b) ≤ b := le_trans (min_le_right _ _) (min_le_right _ _)
    have e6 : b ≤ max r (max g b) := le_trans (le_max_right _ _) (le_max_right _ _)
    have hgg : g = r := by omega
    have hbb : b = r := by omega
    rw [hgg, hbb]
    have h1 : (_rgb_to_hsv r r r).1 = 0 := hsv_fst_gray r
    have h2 : (_rgb_to_hsv r r r).2.1 = ((hsvS r r : ℕ) : ℤ) := by
      rw [hsv_s_eq, max_self, max_self, min_self, min_self]
    have h3 : (_rgb_to_hsv r r r).2.2 = ((rheNat (100 * r) 255 : ℕ) : ℤ) := by
      rw [hsv_v_eq, max_self, max_self]
    rw [h1, h2, h3, pilHsv_case1 0 _ _ (le_refl 0) (by norm_num)]
    have hs0 : hsvS r r = 0 := by rw [hsvS, if_pos rfl]
    have hseq : (((hsvS r r : ℕ):ℤ):ℚ) = 0 := by rw [hs0]; norm_num
    rw [show (((rheNat (100 * r) 255 : ℕ):ℤ):ℚ)/100 *
        (1 - (((hsvS r r : ℕ):ℤ):ℚ)/100 * (1 - ((0:ℤ):ℚ)/60))
        = (((rheNat (100 * r) 255 : ℕ):ℤ):ℚ)/100 from by rw [hseq]; norm_num]
    rw [show (((rheNat (100 * r) 255 : ℕ):ℤ):ℚ)/100 * (1 - (((hsvS r r : ℕ):ℤ):ℚ)/100)
        = (((rheNat (100 * r) 255 : ℕ):ℤ):ℚ)/100 from by rw [hseq]; norm_num]
    rw [hsvBackMax_eq r]
    have hbd := hsvMax_bound r (by omega)
    refine ⟨?_, ?_, ?_⟩ <;> dsimp only <;> omega
  · have hlt : min r (min g b) < max r (max g b) :=
      lt_of_le_of_ne (le_trans (min_le_left _ _) (le_max_left _ _)) hgray
    rcases le_or_lt g r with hgr | hrg
    · rcases le_or_lt b r with hbr | hrb
      · rcases le_or_lt b g with hbg | hgb
        · -- b ≤ g ≤ r : r max, g mid, b min
          have hmaxn : max r (max g b) = r := max_eq_left (max_le hgr hbr)
          have hminn : min r (min g b) = b := by
            rw [min_eq_right hbg, min_eq_right hbr]
          have hblt : b < r := by omega
          have hhue := hsv_hue_case1 r g b hbg hgr hblt
          have hs := hsv_s_eq r g b
          rw [hmaxn, hminn] at hs
          have hv := hsv_v_eq r g b
          rw [hmaxn] at hv
          rw [hhue, hs, hv, pilHsv_case1 _ _ _ (Int.ofNat_nonneg _)
            (by exact_mod_cast rheNat_mul_le 60 (g - b) (r - b) (by omega) (by omega))]
          obtain ⟨h1, h2, h3⟩ := hsv_case_bound r b (g - b) hr hblt (by omega)
          refine ⟨?_, ?_, ?_⟩ <;> dsimp only <;> omega
        · -- g < b ≤ r : r max, b mid, g min
          have hmaxn : max r (max g b) = r := max_eq_left (max_le hgr hbr)
          have hminn : min r (min g b) = g := by
            rw [min_eq_left (le_of_lt hgb), min_eq_right hgr]
          have hglt : g < r := by omega
          have hhue := hsv_hue_case2 r g b hgb hbr
          have hs := hsv_s_eq r g b
          rw [hmaxn, hminn] at hs
          have hv := hsv_v_eq r g b
          rw [hmaxn] at hv
          rw [hhue, hs, hv, pilHsv_case2 _ _ _ (Int.ofNat_nonneg _)
            (by exact_mod_cast rheNat_mul_le 60 (b - g) (r - g) (by omega) (by omega))]
          obtain ⟨h1, h2, h3⟩ := hsv_case_bound r g (b - g) hr hglt (by omega)
          refine ⟨?_, ?_, ?_⟩ <;> dsimp only <;> omega
      · -- g ≤ r < b : b max, r mid, g min
        have hmaxn : max r (max g b) = b := by
          rw [max_eq_right (by omega : g ≤ b), max_eq_right (by omega : r ≤ b)]
        have hminn : min r (min g b) = g := by
          rw [min_eq_left (by omega : g ≤ b), min_eq_right hgr]
        have hglt : g < b := by omega
        have hhue := hsv_hue_case5 r g b hgr hrb
        have hs := hsv_s_eq r g b
        rw [hmaxn, hminn] at hs
        have hv := hsv_v_eq r g b
        rw [hmaxn] at hv
        rw [hhue, hs, hv, pilHsv_case6 _ _ _ (Int.ofNat_nonneg _)
          (by exact_mod_cast rheNat_mul_le 60 (r - g) (b - g) (by omega) (by omega))]
        obtain ⟨h1, h2, h3⟩ := hsv_case_bound b g (r - g) hb hglt (by omega)
        refine ⟨?_, ?_, ?_⟩ <;> dsimp only <;> omega
    · rcases le_or_lt b g with hbg2 | hgb2
      · rcases le_or_lt r b with hrb2 | hbr2
        · -- r ≤ b ≤ g, r < g : g max, b mid, r min
          have hmaxn : max r (max g b) = g := by
            rw [max_eq_left hbg2, max_eq_right (by omega : r ≤ g)]
          have hminn : min r (min g b) = r := by
            rw [min_eq_right hbg2, min_eq_left hrb2]
          have hhue := hsv_hue_case3 r g b hrb2 hbg2 hrg
          have hs := hsv_s_eq r g b
          rw [hmaxn, hminn] at hs
          have hv := hsv_v_eq r g b
          rw [hmaxn] at hv
          rw [hhue, hs, hv, pilHsv_case4 _ _ _ (Int.ofNat_nonneg _)
            (by exact_mod_cast rheNat_mul_le 60 (b - r) (g - r) (by omega) (by omega))]
          obtain ⟨h1, h2, h3⟩ := hsv_case_bound g r (b - r) hg hrg (by omega)
          refine ⟨?_, ?_, ?_⟩ <;> dsimp only <;> omega
        · -- b < r < g : g max, r mid, b min
          have hmaxn : max r (max g b) = g := by
            rw [max_eq_left (by omega : b ≤ g), max_eq_right (by omega : r ≤ g)]
          have hminn : min r (min g b) = b := by
            rw [min_eq_right (by omega : b ≤ g), min_eq_right (by omega : b ≤ r)]
          have hblt : b < g := by omega
          have hhue := hsv_hue_case4 r g b hbr2 hrg
          have hs := hsv_s_eq r g b
          rw [hmaxn, hminn] at hs
          have hv := hsv_v_eq r g b
          rw [hmaxn] at hv
          rw [hhue, hs, hv, pilHsv_case3 _ _ _ (Int.ofNat_nonneg _)
            (by exact_mod_cast rheNat_mul_le 60 (r - b) (g - b) (by omega) (by omega))]
          obtain ⟨h1, h2, h3⟩ := hsv_case_bound g b (r - b) hg hblt (by omega)
          refine ⟨?_, ?_, ?_⟩ <;> dsimp only <;> omega
      · -- r < g < b : b max, g mid, r min
        have hmaxn : max r (max g b) = b := by
          rw [max_eq_right (by omega : g ≤ b), max_eq_right (by omega : r ≤ b)]
        have hminn : min r (min g b) = r := by
          rw [min_eq_left (by omega : g ≤ b), min_eq_left (by omega : r ≤ g)]
        have hrlt : r < b := by omega
        have hhue := hsv_hue_case6 r g b hrg hgb2
        have hs := hsv_s_eq r g b
        rw [hmaxn, hminn] at hs
        have hv := hsv_v_eq r g b
        rw [hmaxn] at hv
        rw [hhue, hs, hv, pilHsv_case5 _ _ _ (Int.ofNat_nonneg _)
          (by exact_mod_cast rheNat_mul_le 60 (g - r) (b - r) (by omega) (by omega))]
        obtain ⟨h1, h2, h3⟩ := hsv_case_bound b r (g - r) hb hrlt (by omega)
        refine ⟨?_, ?_, ?_⟩ <;> dsimp only <;> omega

/-! ### The per-channel back conversion, HSL path -/

theorem hsl_back_channels (r g b : ℕ) (hr : r ≤ 255) (hg : g ≤ 255) (hb : b ≤ 255) :
    ((pilHsl (_rgb_to_hsl r g b).1 (_rgb_to_hsl r g b).2.1 (_rgb_to_hsl r g b).2.2).1
      - (r:ℤ)).natAbs ≤ 5 ∧
    ((pilHsl (_rgb_to_hsl r g b).1 (_rgb_to_hsl r g b).2.1 (_rgb_to_hsl r g b).2.2).2.1
      - (g:ℤ)).natAbs ≤ 5 ∧
    ((pilHsl (_rgb_to_hsl r g b).1 (_rgb_to_hsl r g b).2.1 (_rgb_to_hsl r g b).2.2).2.2
      - (b:ℤ)).natAbs ≤ 5 := by
  by_cases hgray : min r (min g b) = max r (max g b)
  · have e1 : min r (min g b) ≤ r := min_le_left _ _
    have e2 : r ≤ max r (max g b) := le_max_left _ _
    have e3 : min r (min g b) ≤ g := le_trans (min_le_right _ _) (min_le_left _ _)
    have e4 : g ≤ max r (max g b) := le_trans (le_max_left _ _) (le_max_right _ _)
    have e5 : min r (min g b) ≤ b := le_trans (min_le_right _ _) (min_le_right _ _)
    have e6 : b ≤ max r (max g b) := le_trans (le_max_right _ _) (le_max_right _ _)
    have hgg : g = r := by omega
    have hbb : b = r := by omega
    rw [hgg, hbb]
    have h1 : (_rgb_to_hsl r r r).1 = 0 := by
      rw [hslProj_fst_eq]
      exact hsv_fst_gray r
    have h2 : (_rgb_to_hsl r r r).2.1 = ((hslS r r : ℕ) : ℤ) := by
      rw [hsl_s_eq r r r hr hr hr, max_self, max_self, min_self, min_self]
    have h3 : (_rgb_to_hsl r r r).2.2 = ((hslL r r : ℕ) : ℤ) := by
      rw [hsl_l_eq, max_self, max_self, min_self, min_self]
    rw [h1, h2, h3, pilHsl_case1 0 _ _ (le_refl 0) (by norm_num)]
    have hs0 : hslS r r = 0 := by rw [hslS, if_pos rfl]
    have hseq : (((hslS r r : ℕ):ℤ):ℚ)/100 = 0 := by rw [hs0]; norm_num
    have hm1m2 : hlsM1 ((((hslL r r : ℕ):ℤ):ℚ)/100) ((((hslS r r : ℕ):ℤ):ℚ)/100)
        = hlsM2 ((((hslL r r : ℕ):ℤ):ℚ)/100) ((((hslS r r : ℕ):ℤ):ℚ)/100) := by
      rw [hlsM1, hlsM2, if_pos hseq]
      ring
    rw [show hlsM1 ((((hslL r r : ℕ):ℤ):ℚ)/100) ((((hslS r r : ℕ):ℤ):ℚ)/100) +
        (hlsM2 ((((hslL r r : ℕ):ℤ):ℚ)/100) ((((hslS r r : ℕ):ℤ):ℚ)/100) -
          hlsM1 ((((hslL r r : ℕ):ℤ):ℚ)/100) ((((hslS r r : ℕ):ℤ):ℚ)/100)) * (((0:ℤ):ℚ)/60)
        = hlsM2 ((((hslL r r : ℕ):ℤ):ℚ)/100) ((((hslS r r : ℕ):ℤ):ℚ)/100) from by
      rw [hm1m2]
      push_cast
      ring]
    rw [hm1m2]
    rw [hslBackOfSL_eq _ _ (hslS_le r r (le_refl r) hr) (hslL_le r r (le_refl r) hr)]
    have heqb : hslBackOfSL (hslS r r) (hslL r r) = hslBackMax r r := rfl
    rw [heqb]
    have hbd := hslPair_bound r r (by omega) (le_refl r)
    refine ⟨?_, ?_, ?_⟩ <;> dsimp only <;> omega
  · have hlt : min r (min g b) < max r (max g b) :=
      lt_of_le_of_ne (le_trans (min_le_left _ _) (le_max_left _ _)) hgray
    rcases le_or_lt g r with hgr | hrg
    · rcases le_or_lt b r with hbr | hrb
      · rcases le_or_lt b g with hbg | hgb
        · -- b ≤ g ≤ r : r max, g mid, b min
          have hmaxn : max r (max g b) = r := max_eq_left (max_le hgr hbr)
          have hminn : min r (min g b) = b := by
            rw [min_eq_right hbg, min_eq_right hbr]
          have hblt : b < r := by omega
          have hhue := hsv_hue_case1 r g b hbg hgr hblt
          have hs := hsl_s_eq r g b hr hg hb
          rw [hmaxn, hminn] at hs
          have hl := hsl_l_eq r g b
          rw [hmaxn, hminn] at hl
          rw [hslProj_fst_eq, hhue, hs, hl, pilHsl_case1 _ _ _ (Int.ofNat_nonneg _)
            (by exact_mod_cast rheNat_mul_le 60 (g - b) (r - b) (by omega) (by omega))]
          obtain ⟨h1, h2, h3⟩ := hsl_case_bound r b (g - b) hr hblt (by omega)
          refine ⟨?_, ?_, ?_⟩ <;> dsimp only <;> omega
        · -- g < b ≤ r : r max, b mid, g min
          have hmaxn : max r (max g b) = r := max_eq_left (max_le hgr hbr)
          have hminn : min r (min g b) = g := by
            rw [min_eq_left (le_of_lt hgb), min_eq_right hgr]
          have hglt : g < r := by omega
          have hhue := hsv_hue_case2 r g b hgb hbr
          have hs := hsl_s_eq r g b hr hg hb
          rw [hmaxn, hminn] at hs
          have hl := hsl_l_eq r g b
          rw [hmaxn, hminn] at hl
          rw [hslProj_fst_eq, hhue, hs, hl, pilHsl_case2 _ _ _ (Int.ofNat_nonneg _)
            (by exact_mod_cast rheNat_mul_le 60 (b - g) (r - g) (by omega) (by omega))]
          obtain ⟨h1, h2, h3⟩ := hsl_case_bound r g (b - g) hr hglt (by omega)
          refine ⟨?_, ?_, ?_⟩ <;> dsimp only <;> omega
      · -- g ≤ r < b : b max, r mid, g min
        have hmaxn : max r (max g b) = b := by
          rw [max_eq_right (by omega : g ≤ b), max_eq_right (by omega : r ≤ b)]
        have hminn : min r (min g b) = g := by
          rw [min_eq_left (by omega : g ≤ b), min_eq_right hgr]
        have hglt : g < b := by omega
        have hhue := hsv_hue_case5 r g b hgr hrb
        have hs := hsl_s_eq r g b hr hg hb
        rw [hmaxn, hminn] at hs
        have hl := hsl_l_eq r g b
        rw [hmaxn, hminn] at hl
        rw [hslProj_fst_eq, hhue, hs, hl, pilHsl_case6 _ _ _ (Int.ofNat_nonneg _)
          (by exact_mod_cast rheNat_mul_le 60 (r - g) (b - g) (by omega) (by omega))]
        obtain ⟨h1, h2, h3⟩ := hsl_case_bound b g (r - g) hb hglt (by omega)
        refine ⟨?_, ?_, ?_⟩ <;> dsimp only <;> omega
    · rcases le_or_lt b g with hbg2 | hgb2
      · rcases le_or_lt r b with hrb2 | hbr2
        · -- r ≤ b ≤ g, r < g : g max, b mid, r min
          have hmaxn : max r (max g b) = g := by
            rw [max_eq_left hbg2, max_eq_right (by omega : r ≤ g)]
          have hminn : min r (min g b) = r := by
            rw [min_eq_right hbg2, min_eq_left hrb2]
          have hhue := hsv_hue_case3 r g b hrb2 hbg2 hrg
          have hs := hsl_s_eq r g b hr hg hb
          rw [hmaxn, hminn] at hs
          have hl := hsl_l_eq r g b
          rw [hmaxn, hminn] at hl
          rw [hslProj_fst_eq, hhue, hs, hl, pilHsl_case4 _ _ _ (Int.ofNat_nonneg _)
            (by exact_mod_cast rheNat_mul_le 60 (b - r) (g - r) (by omega) (by omega))]
          obtain ⟨h1, h2, h3⟩ := hsl_case_bound g r (b - r) hg hrg (by omega)
          refine ⟨?_, ?_, ?_⟩ <;> dsimp only <;> omega
        · -- b < r < g : g max, r mid, b min
          have hmaxn : max r (max g b) = g := by
            rw [max_eq_left (by omega : b ≤ g), max_eq_right (by omega : r ≤ g)]
          have hminn : min r (min g b) = b := by
            rw [min_eq_right (by omega : b ≤ g), min_eq_right (by omega : b ≤ r)]
          have hblt : b < g := by omega
          have hhue := hsv_hue_case4 r g b hbr2 hrg
          have hs := hsl_s_eq r g b hr hg hb
          rw [hmaxn, hminn] at hs
          have hl := hsl_l_eq r g b
          rw [hmaxn, hminn] at hl
          rw [hslProj_fst_eq, hhue, hs, hl, pilHsl_case3 _ _ _ (Int.ofNat_nonneg _)
            (by exact_mod_cast rheNat_mul_le 60 (r - b) (g - b) (by omega) (by omega))]
          obtain ⟨h1, h2, h3⟩ := hsl_case_bound g b (r - b) hg hblt (by omega)
          refine ⟨?_, ?_, ?_⟩ <;> dsimp only <;> omega
      · -- r < g < b : b max, g mid, r min
        have hmaxn : max r (max g b) = b := by
          rw [max_eq_right (by omega : g ≤ b), max_eq_right (by omega : r ≤ b)]
        have hminn : min r (min g b) = r := by
          rw [min_eq_left (by omega : g ≤ b), min_eq_left (by omega : r ≤ g)]
        have hrlt : r < b := by omega
        have hhue := hsv_hue_case6 r g b hrg hgb2
        have hs := hsl_s_eq r g b hr hg hb
        rw [hmaxn, hminn] at hs
        have hl := hsl_l_eq r g b
        rw [hmaxn, hminn] at hl
        rw [hslProj_fst_eq, hhue, hs, hl, pilHsl_case5 _ _ _ (Int.ofNat_nonneg _)
          (by exact_mod_cast rheNat_mul_le 60 (g - r) (b - r) (by omega) (by omega))]
        obtain ⟨h1, h2, h3⟩ := hsl_case_bound b r (g - r) hb hrlt (by omega)
        refine ⟨?_, ?_, ?_⟩ <;> dsimp only <;> omega

/-! C1 / C8 assembly -/

/-- C1 (amended): for every RGB triple with each channel in `[0, 255]`, the
round trip through `_rgb_to_hsv` and the `hsv` command reproduces every
channel within 3, and the round trip through `_rgb_to_hsl` and the `hsl`
command reproduces every channel within 5.  The claimed per-channel bound
of 1 fails (see the counterexample below). -/
theorem c1_hsv_hsl_roundtrip (r g b : ℕ) (hr : r ≤ 255) (hg : g ≤ 255) (hb : b ≤ 255) :
    (∃ t : ℤ × ℤ × ℤ,
        hsvCmd (_rgb_to_hsv r g b).1 (_rgb_to_hsv r g b).2.1 (_rgb_to_hsv r g b).2.2 = .ok t ∧
        (t.1 - (r:ℤ)).natAbs ≤ 3 ∧ (t.2.1 - (g:ℤ)).natAbs ≤ 3 ∧ (t.2.2 - (b:ℤ)).natAbs ≤ 3) ∧
    (∃ t : ℤ × ℤ × ℤ,
        hslCmd (_rgb_to_hsl r g b).1 (_rgb_to_hsl r g b).2.1 (_rgb_to_hsl r g b).2.2 = .ok t ∧
        (t.1 - (r:ℤ)).natAbs ≤ 5 ∧ (t.2.1 - (g:ℤ)).natAbs ≤ 5 ∧ (t.2.2 - (b:ℤ)).natAbs ≤ 5) := by
  constructor
  · have hok : hsvCmd (_rgb_to_hsv r g b).1 (_rgb_to_hsv r g b).2.1 (_rgb_to_hsv r g b).2.2
        = .ok (pilHsv (_rgb_to_hsv r g b).1 (_rgb_to_hsv r g b).2.1 (_rgb_to_hsv r g b).2.2) := by
      obtain ⟨b1, b2, b3, b4, b5, b6⟩ := hsv_bounds r g b hr hg hb
      rw [hsvCmd, if_neg]
      push_neg
      exact ⟨⟨b1, b2⟩, ⟨b3, b4⟩, ⟨b5, b6⟩⟩
    obtain ⟨h1, h2, h3⟩ := hsv_back_channels r g b hr hg hb
    exact ⟨_, hok, h1, h2, h3⟩
  · have hok : hslCmd (_rgb_to_hsl r g b).1 (_rgb_to_hsl r g b).2.1 (_rgb_to_hsl r g b).2.2
        = .ok (pilHsl (_rgb_to_hsl r g b).1 (_rgb_to_hsl r g b).2.1 (_rgb_to_hsl r g b).2.2) := by
      obtain ⟨c1, c2, c3, c4, c5, c6⟩ := hsl_bounds r g b hr hg hb
      rw [hslCmd, if_neg]
      push_neg
      exact ⟨⟨c1, c2⟩, ⟨c3, c4⟩, ⟨c5, c6⟩⟩
    obtain ⟨h1, h2, h3⟩ := hsl_back_channels r g b hr hg hb
    exact ⟨_, hok, h1, h2, h3⟩

theorem cmyk_bounds (r g b : ℕ) (hr : r ≤ 255) (hg : g ≤ 255) (hb : b ≤ 255) :
    0 ≤ (_rgb_to_cmyk r g b).1 ∧ (_rgb_to_cmyk r g b).1 ≤ 100 ∧
    0 ≤ (_rgb_to_cmyk r g b).2.1 ∧ (_rgb_to_cmyk r g b).2.1 ≤ 100 ∧
    0 ≤ (_rgb_to_cmyk r g b).2.2.1 ∧ (_rgb_to_cmyk r g b).2.2.1 ≤ 100 ∧
    0 ≤ (_rgb_to_cmyk r g b).2.2.2 ∧ (_rgb_to_cmyk r g b).2.2.2 ≤ 100 := by
  by_cases h0 : r = 0 ∧ g = 0 ∧ b = 0
  · rcases h0 with ⟨rfl, rfl, rfl⟩
    refine ⟨?_, ?_, ?_, ?_, ?_, ?_, ?_, ?_⟩ <;> decide
  · have hrM : r ≤ max r (max g b) := le_max_left _ _
    have hgM : g ≤ max r (max g b) := le_trans (le_max_left _ _) (le_max_right _ _)
    have hbM : b ≤ max r (max g b) := le_trans (le_max_right _ _) (le_max_right _ _)
    have hM255 : max r (max g b) ≤ 255 := max_le hr (max_le hg hb)
    have hMpos : 0 < max r (max g b) := by omega
    rw [cmyk_comps r g b h0 hM255]
    dsimp only
    refine ⟨Int.ofNat_nonneg _, ?_, Int.ofNat_nonneg _, ?_, Int.ofNat_nonneg _, ?_,
      Int.ofNat_nonneg _, ?_⟩
    · exact_mod_cast cmykC_le _ _ hrM hMpos
    · exact_mod_cast cmykC_le _ _ hgM hMpos
    · exact_mod_cast cmykC_le _ _ hbM hMpos
    · exact_mod_cast cmykK_le _ hM255

/-- C1 counterexample: `(255, 2, 0)` comes back as `(255, 0, 0)` on both the
HSV and the HSL paths, so the green channel is off by 2. -/
theorem c1_roundtrip_counterexample :
    _rgb_to_hsv 255 2 0 = (0, 100, 100) ∧
    hsvCmd 0 100 100 = .ok (255, 0, 0) ∧
    _rgb_to_hsl 255 2 0 = (0, 100, 50) ∧
    hslCmd 0 100 50 = .ok (255, 0, 0) ∧
    ¬ (((255:ℤ), (0:ℤ), (0:ℤ)).2.1 - (2 : ℤ)).natAbs ≤ 1 := by
  refine ⟨by decide, by decide, by decide, by decide, by decide⟩

/-- C2 counterexample: `(65, 64, 64)` comes back as `(64, 62, 62)`, so the
green and blue channels are off by 2. -/
theorem c2_roundtrip_counterexample :
    _rgb_to_cmyk 65 64 64 = (0, 2, 2, 75) ∧
    cmykCmd 0 2 2 75 = .ok (64, 62, 62) ∧
    ¬ (((64:ℤ), (62:ℤ), (62:ℤ)).2.1 - (64 : ℤ)).natAbs ≤ 1 := by
  refine ⟨by decide, by decide, by decide⟩

/-! ### Case folding -/

theorem lowerTable_snd_not_key :
    ∀ p ∈ lowerTable, lowerTable.find? (fun q => q.1 == p.2) = none := by decide

theorem lowerTable_alphanum :
    ∀ p ∈ lowerTable, p.1.isAlphanum = true ∧ p.2.isAlphanum = true := by decide

theorem pyLower_idem (c : Char) : pyLower (pyLower c) = pyLower c := by
  rcases hf : lowerTable.find? (fun p => p.1 == c) with _ | p
  · simp only [pyLower, hf]
  · have hm := List.mem_of_find?_eq_some hf
    simp only [pyLower, hf, lowerTable_snd_not_key p hm]

theorem isAlphanum_pyLower (c : Char) : (pyLower c).isAlphanum = c.isAlphanum := by
  rcases hf : lowerTable.find? (fun p => p.1 == c) with _ | p
  · rw [pyLower, hf]
  · have hm := List.mem_of_find?_eq_some hf
    have hc : p.1 = c := by simpa using List.find?_some hf
    rw [pyLower, hf, (lowerTable_alphanum p hm).2, ← hc, (lowerTable_alphanum p hm).1]

theorem default_process_lower (s : List Char) :
    default_process (s.map pyLower) = default_process s := by
  rw [default_process, default_process, List.filter_map, List.map_map]
  rw [List.filter_congr (fun x _ => by
    show (Char.isAlphanum ∘ pyLower) x = Char.isAlphanum x
    exact isAlphanum_pyLower x)]
  rw [show pyLower ∘ pyLower = pyLower from funext fun c => pyLower_idem c]

theorem fuzzScore_lower (s : String) (c : List Char) :
    fuzzScore (lowerStr s).data c = fuzzScore s.data c := by
  show simScore (default_process (s.data.map pyLower)) (default_process c) = _
  rw [default_process_lower]
  rfl

theorem extractStep_lower (s : String) :
    extractStep (lowerStr s).data = extractStep s.data := by
  funext best c
  cases best with
  | none =>
    show some (c, fuzzScore (lowerStr s).data c) = some (c, fuzzScore s.data c)
    rw [fuzzScore_lower]
  | some p =>
    show (if p.2 < fuzzScore (lowerStr s).data c then
        some (c, fuzzScore (lowerStr s).data c) else some p) = _
    rw [fuzzScore_lower]
    rfl

theorem match_colour_name_lower (palette : List (String × String)) (s : String) :
    match_colour_name palette (lowerStr s) = match_colour_name palette s := by
  rw [match_colour_name, match_colour_name, extractOne, extractOne, extractStep_lower]

/-! ### The scan of `extractOne` -/

theorem firstMax_nil (q w : List Char) : firstMax q w [] = w := rfl

theorem firstMax_cons (q w c : List Char) (cs : List (List Char)) :
    firstMax q w (c :: cs) =
      if fuzzScore q w < fuzzScore q c then firstMax q c cs else firstMax q w cs := rfl

theorem foldl_extractStep (q : List Char) (cs : List (List Char)) (w : List Char) :
    cs.foldl (extractStep q) (some (w, fuzzScore q w)) =
      some (firstMax q w cs, fuzzScore q (firstMax q w cs)) := by
  induction cs generalizing w with
  | nil => rfl
  | cons c cs ih =>
    rw [List.foldl_cons, firstMax_cons]
    by_cases h : fuzzScore q w < fuzzScore q c
    · rw [if_pos h]
      have hstep : extractStep q (some (w, fuzzScore q w)) c = some (c, fuzzScore q c) := by
        show (if (w, fuzzScore q w).2 < fuzzScore q c then _ else _) = _
        dsimp only
        rw [if_pos h]
      rw [hstep]
      exact ih c
    · rw [if_neg h]
      have hstep : extractStep q (some (w, fuzzScore q w)) c = some (w, fuzzScore q w) := by
        show (if (w, fuzzScore q w).2 < fuzzScore q c then _ else _) = _
        dsimp only
        rw [if_neg h]
      rw [hstep]
      exact ih w

theorem extractOne_cons (q c : List Char) (cs : List (List Char)) (cutoff : ℚ) :
    extractOne q (c :: cs) cutoff =
      if cutoff ≤ fuzzScore q (firstMax q c cs) then
        some (firstMax q c cs, fuzzScore q (firstMax q c cs))
      else none := by
  rw [extractOne, List.foldl_cons]
  rw [show extractStep q none c = some (c, fuzzScore q c) from rfl]
  rw [foldl_extractStep]

/-! ### The first maximal entry of the palette -/

theorem palette_split (q : List Char) (κ : String × String → List Char)
    (e0 : String × String) (es : List (String × String)) :
    ∃ pre e post, e0 :: es = pre ++ e :: post ∧
      κ e = firstMax q (κ e0) (es.map κ) ∧
      (∀ x ∈ pre, fuzzScore q (κ x) < fuzzScore q (κ e)) ∧
      (∀ x ∈ e0 :: es, fuzzScore q (κ x) ≤ fuzzScore q (κ e)) := by
  induction es generalizing e0 with
  | nil =>
    refine ⟨[], e0, [], rfl, rfl, ?_, ?_⟩
    · intro x hx
      exact absurd hx (List.not_mem_nil x)
    · intro x hx
      rcases List.mem_cons.mp hx with rfl | hx
      · exact le_refl _
      · exact absurd hx (List.not_mem_nil x)
  | cons c cs ih =>
    rw [List.map_cons, firstMax_cons]
    by_cases h : fuzzScore q (κ e0) < fuzzScore q (κ c)
    · rw [if_pos h]
      obtain ⟨pre, e, post, hsp, hfm, hpre, hub⟩ := ih c
      have hce : fuzzScore q (κ c) ≤ fuzzScore q (κ e) := hub c (List.mem_cons_self c cs)
      refine ⟨e0 :: pre, e, post, ?_, hfm, ?_, ?_⟩
      · rw [List.cons_append, ← hsp]
      · intro x hx
        rcases List.mem_cons.mp hx with rfl | hx
        · exact lt_of_lt_of_le h hce
        · exact hpre x hx
      · intro x hx
        rcases List.mem_cons.mp hx with rfl | hx
        · exact le_of_lt (lt_of_lt_of_le h hce)
        · exact hub x hx
    · rw [if_neg h]
      obtain ⟨pre, e, post, hsp, hfm, hpre, hub⟩ := ih e0
      have hcw : fuzzScore q (κ c) ≤ fuzzScore q (κ e0) := le_of_not_lt h
      have hw : fuzzScore q (κ e0) ≤ fuzzScore q (κ e) := hub e0 (List.mem_cons_self e0 cs)
      rcases pre with _ | ⟨p0, pre2⟩
      · rw [List.nil_append] at hsp
        obtain ⟨he, hps⟩ := List.cons.inj hsp
        refine ⟨[], e, c :: post, ?_, hfm, ?_, ?_⟩
        · rw [List.nil_append, ← he, ← hps]
        · intro x hx
          exact absurd hx (List.not_mem_nil x)
        · intro x hx
          rcases List.mem_cons.mp hx with rfl | hx
          · exact hw
          rcases List.mem_cons.mp hx with rfl | hx
          · exact hcw.trans hw
          · exact hub x (List.mem_cons_of_mem e0 hx)
      · rw [List.cons_append] at hsp
        obtain ⟨he0, hcs⟩ := List.cons.inj hsp
        have hp0 : fuzzScore q (κ e0) < fuzzScore q (κ e) := by
          rw [he0]
          exact hpre p0 (List.mem_cons_self p0 pre2)
        refine ⟨e0 :: c :: pre2, e, post, ?_, hfm, ?_, ?_⟩
        · rw [List.cons_append, List.cons_append, ← hcs]
        · intro x hx
          rcases List.mem_cons.mp hx with rfl | hx
          · exact hp0
          rcases List.mem_cons.mp hx with rfl | hx
          · exact lt_of_le_of_lt hcw hp0
          · exact hpre x (List.mem_cons_of_mem p0 hx)
        · intro x hx
          rcases List.mem_cons.mp hx with rfl | hx
          · exact hw
          rcases List.mem_cons.mp hx with rfl | hx
          · exact hcw.trans hw
          · exact hub x (List.mem_cons_of_mem e0 hx)

theorem find?_first {α : Type} (p : α → Bool) (pre : List α) (e : α) (post : List α)
    (hpre : ∀ x ∈ pre, ¬p x = true) (he : p e = true) :
    (pre ++ e :: post).find? p = some e := by
  induction pre with
  | nil =>
    rw [List.nil_append]
    exact List.find?_cons_of_pos post he
  | cons x xs ih =>
    rw [List.cons_append, List.find?_cons_of_neg _ (hpre x (List.mem_cons_self x xs))]
    exact ih (fun y hy => hpre y (List.mem_cons_of_mem x hy))

/-! ### Claim assemblies -/

theorem rgb_to_name_spec (palette : List (String × String)) (r g b : ℕ) :
    ((_rgb_to_name palette r g b = none ↔
      ∀ e ∈ palette, fuzzScore (_rgb_to_hex r g b).data e.2.data < 80) ∧
    ∀ nm, _rgb_to_name palette r g b = some nm →
      ∃ pre e post, palette = pre ++ e :: post ∧ nm = e.1 ∧
        80 ≤ fuzzScore (_rgb_to_hex r g b).data e.2.data ∧
        (∀ x ∈ palette, fuzzScore (_rgb_to_hex r g b).data x.2.data
          ≤ fuzzScore (_rgb_to_hex r g b).data e.2.data) ∧
        ∀ x ∈ pre, fuzzScore (_rgb_to_hex r g b).data x.2.data
          < fuzzScore (_rgb_to_hex r g b).data e.2.data) := by
  cases palette with
  | nil =>
    constructor
    · constructor
      · intro _ e he
        exact absurd he (List.not_mem_nil e)
      · intro _
        rfl
    · intro nm h
      exact Option.noConfusion h
  | cons e0 es =>
    obtain ⟨pre, e, post, hsp, hfm, hpre, hub⟩ :=
      palette_split (_rgb_to_hex r g b).data (fun x => x.2.data) e0 es
    have hro : _rgb_to_name (e0 :: es) r g b =
        if (80:ℚ) ≤ fuzzScore (_rgb_to_hex r g b).data e.2.data then
          ((e0 :: es).find? fun x => x.2.data == e.2.data).map fun x => x.1
        else none := by
      rw [_rgb_to_name, List.map_cons, extractOne_cons, ← hfm]
      by_cases hc : (80:ℚ) ≤ fuzzScore (_rgb_to_hex r g b).data e.2.data
      · rw [if_pos hc, if_pos hc]
      · rw [if_neg hc, if_neg hc]
    have hfind : ((e0 :: es).find? fun x => x.2.data == e.2.data) = some e := by
      rw [hsp]
      refine find?_first _ pre e post ?_ ?_
      · intro x hx hbeq
        have hxe : x.2.data = e.2.data := by simpa using hbeq
        have hlt := hpre x hx
        rw [hxe] at hlt
        exact lt_irrefl _ hlt
      · simp
    have hemem : e ∈ e0 :: es := by
      rw [hsp]
      exact List.mem_append_right pre (List.mem_cons_self e post)
    constructor
    · rw [hro]
      by_cases hc : (80:ℚ) ≤ fuzzScore (_rgb_to_hex r g b).data e.2.data
      · rw [if_pos hc, hfind]
        constructor
        · intro hnone
          exact absurd hnone (by simp)
        · intro hall
          exact absurd hc (not_le.mpr (hall e hemem))
      · rw [if_neg hc]
        constructor
        · intro _ x hx
          exact lt_of_le_of_lt (hub x hx) (not_le.mp hc)
        · intro _
          rfl
    · intro nm hnm
      rw [hro] at hnm
      by_cases hc : (80:ℚ) ≤ fuzzScore (_rgb_to_hex r g b).data e.2.data
      · rw [if_pos hc, hfind] at hnm
        have hnm' : nm = e.1 := by
          have := Option.some.inj hnm
          exact this.symm
        exact ⟨pre, e, post, hsp, hnm', hc, hub, hpre⟩
      · rw [if_neg hc] at hnm
        exact Option.noConfusion hnm

theorem match_colour_name_spec (palette : List (String × String)) (q : String) :
    ((match_colour_name palette q = none ↔
      ∀ e ∈ palette, fuzzScore q.data e.1.data < 80) ∧
    ∀ hx, match_colour_name palette q = some hx →
      ∃ pre e post, palette = pre ++ e :: post ∧ hx = "#" ++ e.2 ∧
        80 ≤ fuzzScore q.data e.1.data ∧
        (∀ x ∈ palette, fuzzScore q.data x.1.data ≤ fuzzScore q.data e.1.data) ∧
        ∀ x ∈ pre, fuzzScore q.data x.1.data < fuzzScore q.data e.1.data) := by
  cases palette with
  | nil =>
    constructor
    · constructor
      · intro _ e he
        exact absurd he (List.not_mem_nil e)
      · intro _
        rfl
    · intro hx h
      exact Option.noConfusion h
  | cons e0 es =>
    obtain ⟨pre, e, post, hsp, hfm, hpre, hub⟩ :=
      palette_split q.data (fun x => x.1.data) e0 es
    have hro : match_colour_name (e0 :: es) q =
        if (80:ℚ) ≤ fuzzScore q.data e.1.data then
          ((e0 :: es).find? fun x => x.1.data == e.1.data).map fun x => "#" ++ x.2
        else none := by
      rw [match_colour_name, List.map_cons, extractOne_cons, ← hfm]
      by_cases hc : (80:ℚ) ≤ fuzzScore q.data e.1.data
      · rw [if_pos hc, if_pos hc]
      · rw [if_neg hc, if_neg hc]
    have hfind : ((e0 :: es).find? fun x => x.1.data == e.1.data) = some e := by
      rw [hsp]
      refine find?_first _ pre e post ?_ ?_
      · intro x hx hbeq
        have hxe : x.1.data = e.1.data := by simpa using hbeq
        have hlt := hpre x hx
        rw [hxe] at hlt
        exact lt_irrefl _ hlt
      · simp
    have hemem : e ∈ e0 :: es := by
      rw [hsp]
      exact List.mem_append_right pre (List.mem_cons_self e post)
    constructor
    · rw [hro]
      by_cases hc : (80:ℚ) ≤ fuzzScore q.data e.1.data
      · rw [if_pos hc, hfind]
        constructor
        · intro hnone
          exact absurd hnone (by simp)
        · intro hall
          exact absurd hc (not_le.mpr (hall e hemem))
      · rw [if_neg hc]
        constructor
        · intro _ x hx
          exact lt_of_le_of_lt (hub x hx) (not_le.mp hc)
        · intro _
          rfl
    · intro hx hnm
      rw [hro] at hnm
      by_cases hc : (80:ℚ) ≤ fuzzScore q.data e.1.data
      · rw [if_pos hc, hfind] at hnm
        have hnm' : hx = "#" ++ e.2 := (Option.some.inj hnm).symm
        exact ⟨pre, e, post, hsp, hnm', hc, hub, hpre⟩
      · rw [if_neg hc] at hnm
        exact Option.noConfusion hnm

/-! ### The hex command, digit level -/

theorem hexBody_finish_err (ds : List Char) (hval : hexBody ds = .error .badArgument)
    (hshape : ¬hexShape ds) :
    ((∃ t, hexBody ds = .ok t) ↔ hexShape ds) ∧
    (hexBody ds = .error .badArgument ↔ ¬hexShape ds) ∧
    (∀ t, hexBody ds = .ok t → t = parseHexDigits ds) ∧
    hexBody ds ≠ .error .indexError := by
  refine ⟨⟨fun ht => ?_, fun hs => absurd hs hshape⟩, ⟨fun _ => hshape, fun _ => hval⟩,
    fun t ht => ?_, ?_⟩
  · obtain ⟨t, ht⟩ := ht
    rw [hval] at ht
    exact Except.noConfusion ht
  · rw [hval] at ht
    exact Except.noConfusion ht
  · rw [hval]
    intro hx
    exact CmdErr.noConfusion (Except.error.inj hx)

theorem hexBody_finish_ok (ds : List Char) (t0 : ℕ × ℕ × ℕ) (hval : hexBody ds = .ok t0)
    (hshape : hexShape ds) (hpar : t0 = parseHexDigits ds) :
    ((∃ t, hexBody ds = .ok t) ↔ hexShape ds) ∧
    (hexBody ds = .error .badArgument ↔ ¬hexShape ds) ∧
    (∀ t, hexBody ds = .ok t → t = parseHexDigits ds) ∧
    hexBody ds ≠ .error .indexError := by
  refine ⟨⟨fun _ => hshape, fun _ => ⟨t0, hval⟩⟩, ⟨fun herr => ?_, fun hs => absurd hshape hs⟩,
    fun t ht => ?_, ?_⟩
  · rw [hval] at herr
    exact Except.noConfusion herr
  · rw [hval] at ht
    rw [← Except.ok.inj ht]
    exact hpar
  · rw [hval]
    intro hx
    exact Except.noConfusion hx

theorem seventeen_eq (n : ℕ) : 17 * n = 16 * n + n := by omega

theorem hexBody_spec (ds : List Char) :
    ((∃ t, hexBody ds = .ok t) ↔ hexShape ds) ∧
    (hexBody ds = .error .badArgument ↔ ¬hexShape ds) ∧
    (∀ t, hexBody ds = .ok t → t = parseHexDigits ds) ∧
    hexBody ds ≠ .error .indexError := by
  rcases ds with _ | ⟨a, _ | ⟨b, _ | ⟨c, _ | ⟨d, _ | ⟨e, _ | ⟨f, _ | ⟨g, _ | ⟨h, _ | ⟨i, tl⟩⟩⟩⟩⟩⟩⟩⟩⟩
  · refine hexBody_finish_err _ ?_ ?_
    · rw [hexBody, if_neg (fun hcond => by simp at hcond)]
      all_goals simp
    · exact fun hs => by simp [hexShape] at hs
  · refine hexBody_finish_err _ ?_ ?_
    · rw [hexBody, if_neg (fun hcond => by simp at hcond)]
      all_goals simp
    · exact fun hs => by simp [hexShape] at hs
  · refine hexBody_finish_err _ ?_ ?_
    · rw [hexBody, if_neg (fun hcond => by simp at hcond)]
      all_goals simp
    · exact fun hs => by simp [hexShape] at hs
  · by_cases hd : ∀ d ∈ [a, b, c], d ∈ hexdigits
    · refine hexBody_finish_ok _ (17 * hexVal a, 17 * hexVal b, 17 * hexVal c) ?_
        ⟨Or.inl rfl, hd⟩ ?_
      · rw [hexBody, if_pos ⟨Or.inl rfl, hd⟩]
      · show _ = (16 * hexVal a + hexVal a, 16 * hexVal b + hexVal b, 16 * hexVal c + hexVal c)
        simp only [seventeen_eq]
    · refine hexBody_finish_err _ ?_ ?_
      · rw [hexBody, if_neg (fun hcond => hd hcond.2)]
      · exact fun hs => hd hs.2
  · by_cases hd : ∀ x ∈ [a, b, c, d], x ∈ hexdigits
    · refine hexBody_finish_ok _ (17 * hexVal a, 17 * hexVal b, 17 * hexVal c) ?_
        ⟨Or.inr (Or.inl rfl), hd⟩ ?_
      · rw [hexBody, if_pos ⟨Or.inr (Or.inl rfl), hd⟩]
      · show _ = (16 * hexVal a + hexVal a, 16 * hexVal b + hexVal b, 16 * hexVal c + hexVal c)
        simp only [seventeen_eq]
    · refine hexBody_finish_err _ ?_ ?_
      · rw [hexBody, if_neg (fun hcond => hd hcond.2)]
      · exact fun hs => hd hs.2
  · refine hexBody_finish_err _ ?_ ?_
    · rw [hexBody, if_neg (fun hcond => by simp at hcond)]
      all_goals simp
    · exact fun hs => by simp [hexShape] at hs
  · by_cases hd : ∀ x ∈ [a, b, c, d, e, f], x ∈ hexdigits
    · refine hexBody_finish_ok _ _ ?_ ⟨Or.inr (Or.inr (Or.inl rfl)), hd⟩ rfl
      rw [hexBody, if_pos ⟨Or.inr (Or.inr (Or.inl rfl)), hd⟩]
      rfl
    · refine hexBody_finish_err _ ?_ ?_
      · rw [hexBody, if_neg (fun hcond => hd hcond.2)]
      · exact fun hs => hd hs.2
  · refine hexBody_finish_err _ ?_ ?_
    · rw [hexBody, if_neg (fun hcond => by simp at hcond)]
      all_goals simp
    · exact fun hs => by simp [hexShape] at hs
  · by_cases hd : ∀ x ∈ [a, b, c, d, e, f, g, h], x ∈ hexdigits
    · refine hexBody_finish_ok _ _ ?_ ⟨Or.inr (Or.inr (Or.inr rfl)), hd⟩ rfl
      rw [hexBody, if_pos ⟨Or.inr (Or.inr (Or.inr rfl)), hd⟩]
      rfl
    · refine hexBody_finish_err _ ?_ ?_
      · rw [hexBody, if_neg (fun hcond => hd hcond.2)]
      · exact fun hs => hd hs.2
  · refine hexBody_finish_err _ ?_ ?_
    · rw [hexBody, if_neg (fun hcond => by
        obtain ⟨h1, _⟩ := hcond
        simp only [List.length_cons] at h1
        rcases h1 with h1 | h1 | h1 | h1 <;> omega)]
      all_goals simp
    · intro hs
      obtain ⟨h1, _⟩ := hs
      simp only [List.length_cons] at h1
      rcases h1 with h1 | h1 | h1 | h1 <;> omega

theorem hexCmd_nonempty (c0 : Char) (rest : List Char) :
    hexCmd ⟨c0 :: rest⟩ = hexBody (stripHash (c0 :: rest)) := by
  show hexCmd ⟨c0 :: rest⟩ = hexBody (if c0 = '#' then rest else c0 :: rest)
  by_cases h : c0 = '#'
  · subst h
    rw [if_pos rfl]
    rfl
  · rw [if_neg h]
    rw [hexCmd.eq_def]
    dsimp only
    rw [if_pos h]
    rfl

/-! ### Claim assemblies for the hex path -/

/-- C5 (amended): on every nonempty string the hex command succeeds exactly
when the characters after an optional leading `#` are 3, 4, 6 or 8 hexadecimal
digits, in which case the parsed channels follow `parseHexDigits` (3-digit
shorthand duplicates each digit, 4- and 8-digit forms drop the alpha), and it
fails with `BadArgument` exactly otherwise; `#F00` and `f00` both parse to
`(255, 0, 0)` and `#GG0000` is rejected.  On the empty string the command does
not fail with `BadArgument` (see the counterexample below). -/
theorem c5_hex_parsing :
    (∀ s : String, s ≠ "" →
      ((∃ t, hexCmd s = .ok t) ↔ hexShape (stripHash s.data)) ∧
      (hexCmd s = .error .badArgument ↔ ¬hexShape (stripHash s.data)) ∧
      ∀ t, hexCmd s = .ok t → t = parseHexDigits (stripHash s.data)) ∧
    hexCmd "#F00" = .ok (255, 0, 0) ∧
    hexCmd "f00" = .ok (255, 0, 0) ∧
    hexCmd "#GG0000" = .error .badArgument := by
  refine ⟨?_, by decide, by decide, by decide⟩
  intro s hs
  obtain ⟨l⟩ := s
  cases l with
  | nil => exact absurd rfl hs
  | cons c0 rest =>
    have hb := hexBody_spec (stripHash (c0 :: rest))
    show ((∃ t, hexCmd ⟨c0 :: rest⟩ = .ok t) ↔ hexShape (stripHash (c0 :: rest))) ∧
      (hexCmd ⟨c0 :: rest⟩ = .error .badArgument ↔ ¬hexShape (stripHash (c0 :: rest))) ∧
      ∀ t, hexCmd ⟨c0 :: rest⟩ = .ok t → t = parseHexDigits (stripHash (c0 :: rest))
    rw [hexCmd_nonempty]
    exact ⟨hb.1, hb.2.1, hb.2.2.1⟩

/-- C5 counterexample: the empty string escapes with an `IndexError`, not the
validation error the claim asserts for every non-conforming input. -/
theorem c5_empty_counterexample :
    hexCmd "" = .error .indexError ∧
    hexCmd "" ≠ .error .badArgument := by
  refine ⟨by decide, by decide⟩

/-- C10: the hex command applied to the empty string raises `IndexError`
(indexing `hex_code[0]`), and on every nonempty string it never does. -/
theorem c10_empty_index_error :
    hexCmd "" = .error .indexError ∧
    ∀ s : String, s ≠ "" → hexCmd s ≠ .error .indexError := by
  refine ⟨by decide, ?_⟩
  intro s hs
  obtain ⟨l⟩ := s
  cases l with
  | nil => exact absurd rfl hs
  | cons c0 rest =>
    show hexCmd ⟨c0 :: rest⟩ ≠ .error .indexError
    rw [hexCmd_nonempty]
    exact (hexBody_spec (stripHash (c0 :: rest))).2.2.2

/-! ### Range validation (claim C6) -/

/-- C6: each typed input command fails with `BadArgument` exactly when a field
is out of range — `rgb` needs channels in `[0, 255]`, `hsv`/`hsl` need hue in
`[0, 360]` and the other two fields in `[0, 100]`, `cmyk` needs all four fields
in `[0, 100]`; in particular `rgb 256 0 0` and `hsv 361 0 0` fail. -/
theorem c6_range_validation :
    (∀ r g b : ℤ, rgbCmd r g b = .error .badArgument ↔
      ¬((0 ≤ r ∧ r ≤ 255) ∧ (0 ≤ g ∧ g ≤ 255) ∧ (0 ≤ b ∧ b ≤ 255))) ∧
    (∀ h s v : ℤ, hsvCmd h s v = .error .badArgument ↔
      ¬((0 ≤ h ∧ h ≤ 360) ∧ (0 ≤ s ∧ s ≤ 100) ∧ (0 ≤ v ∧ v ≤ 100))) ∧
    (∀ h s l : ℤ, hslCmd h s l = .error .badArgument ↔
      ¬((0 ≤ h ∧ h ≤ 360) ∧ (0 ≤ s ∧ s ≤ 100) ∧ (0 ≤ l ∧ l ≤ 100))) ∧
    (∀ c m y k : ℤ, cmykCmd c m y k = .error .badArgument ↔
      ¬((0 ≤ c ∧ c ≤ 100) ∧ (0 ≤ m ∧ m ≤ 100) ∧ (0 ≤ y ∧ y ≤ 100) ∧ (0 ≤ k ∧ k ≤ 100))) ∧
    rgbCmd 256 0 0 = .error .badArgument ∧
    hsvCmd 361 0 0 = .error .badArgument := by
  refine ⟨?_, ?_, ?_, ?_, by decide, by decide⟩
  · intro r g b
    rw [rgbCmd]
    by_cases hcond : ¬(0 ≤ r ∧ r ≤ 255) ∨ ¬(0 ≤ g ∧ g ≤ 255) ∨ ¬(0 ≤ b ∧ b ≤ 255)
    · rw [if_pos hcond]
      exact ⟨fun _ => by tauto, fun _ => rfl⟩
    · rw [if_neg hcond]
      push_neg at hcond
      exact ⟨fun hco => Except.noConfusion hco, fun hn => absurd hcond hn⟩
  · intro h s v
    rw [hsvCmd]
    by_cases hcond : ¬(0 ≤ h ∧ h ≤ 360) ∨ ¬(0 ≤ s ∧ s ≤ 100) ∨ ¬(0 ≤ v ∧ v ≤ 100)
    · rw [if_pos hcond]
      exact ⟨fun _ => by tauto, fun _ => rfl⟩
    · rw [if_neg hcond]
      push_neg at hcond
      exact ⟨fun hco => Except.noConfusion hco, fun hn => absurd hcond hn⟩
  · intro h s l
    rw [hslCmd]
    by_cases hcond : ¬(0 ≤ h ∧ h ≤ 360) ∨ ¬(0 ≤ s ∧ s ≤ 100) ∨ ¬(0 ≤ l ∧ l ≤ 100)
    · rw [if_pos hcond]
      exact ⟨fun _ => by tauto, fun _ => rfl⟩
    · rw [if_neg hcond]
      push_neg at hcond
      exact ⟨fun hco => Except.noConfusion hco, fun hn => absurd hcond hn⟩
  · intro c m y k
    rw [cmykCmd]
    by_cases hcond : ¬(0 ≤ c ∧ c ≤ 100) ∨ ¬(0 ≤ m ∧ m ≤ 100) ∨ ¬(0 ≤ y ∧ y ≤ 100) ∨
        ¬(0 ≤ k ∧ k ≤ 100)
    · rw [if_pos hcond]
      exact ⟨fun _ => by tauto, fun _ => rfl⟩
    · rw [if_neg hcond]
      push_neg at hcond
      exact ⟨fun hco => Except.noConfusion hco, fun hn => absurd hcond hn⟩

/-! ### The CMYK → RGB formula (claim C7) -/

/-- C7: for in-range CMYK input the `cmyk` command returns exactly
`round(255 * (1 - X/100) * (1 - key/100))` per channel, and `key = 100` forces
the result `(0, 0, 0)` whatever the other fields are. -/
theorem c7_cmyk_formula (c m y k : ℤ) (hc : 0 ≤ c ∧ c ≤ 100) (hm : 0 ≤ m ∧ m ≤ 100)
    (hy : 0 ≤ y ∧ y ≤ 100) (hk : 0 ≤ k ∧ k ≤ 100) :
    cmykCmd c m y k =
      .ok (pyRound (255 * (1 - (c:ℚ)/100) * (1 - (k:ℚ)/100)),
           pyRound (255 * (1 - (m:ℚ)/100) * (1 - (k:ℚ)/100)),
           pyRound (255 * (1 - (y:ℚ)/100) * (1 - (k:ℚ)/100))) ∧
    (k = 100 → cmykCmd c m y k = .ok (0, 0, 0)) := by
  have hcond : ¬(¬(0 ≤ c ∧ c ≤ 100) ∨ ¬(0 ≤ m ∧ m ≤ 100) ∨ ¬(0 ≤ y ∧ y ≤ 100) ∨
      ¬(0 ≤ k ∧ k ≤ 100)) := by
    push_neg
    exact ⟨hc, hm, hy, hk⟩
  constructor
  · rw [cmykCmd, if_neg hcond]
  · intro hk100
    subst hk100
    rw [cmykCmd, if_neg hcond]
    have hz : (1 - ((100:ℤ):ℚ)/100) = 0 := by norm_num
    simp only [hz, mul_zero, pyRound_zero]

/-! ### The hex formatter (claim C9) -/

/-- C9: `_rgb_to_hex` is `#` followed by each channel as exactly two uppercase
hexadecimal digits, a 7-character string; `_rgb_to_hex 255 0 0 = "#FF0000"`. -/
theorem c9_hex_format (r g b : ℕ) (hr : r < 256) (hg : g < 256) (hb : b < 256) :
    _rgb_to_hex r g b = ⟨'#' :: (hex2U r ++ hex2U g ++ hex2U b)⟩ ∧
    (_rgb_to_hex r g b).data.length = 7 ∧
    (∀ c ∈ hex2U r ++ hex2U g ++ hex2U b, c ∈ "0123456789ABCDEF".data) ∧
    _rgb_to_hex 255 0 0 = "#FF0000" := by
  have hhash : '#'.toUpper = '#' := by decide
  have hdig : ∀ m : ℕ, m < 16 → (hexDigitChar m).toUpper ∈ "0123456789ABCDEF".data := by decide
  have heq : _rgb_to_hex r g b = ⟨'#' :: (hex2U r ++ hex2U g ++ hex2U b)⟩ := by
    rw [_rgb_to_hex, hexDigits_eq r hr, hexDigits_eq g hg, hexDigits_eq b hb]
    show String.mk _ = String.mk _
    congr 1
  refine ⟨heq, ?_, ?_, by decide⟩
  · rw [heq, hex2U, hex2U, hex2U]
    rfl
  · intro c hc
    rw [hex2U, hex2U, hex2U] at hc
    simp only [List.cons_append, List.nil_append, List.mem_cons, List.not_mem_nil,
      or_false] at hc
    rcases hc with rfl | rfl | rfl | rfl | rfl | rfl
    · exact hdig _ (by omega)
    · exact hdig _ (by omega)
    · exact hdig _ (by omega)
    · exact hdig _ (by omega)
    · exact hdig _ (by omega)
    · exact hdig _ (by omega)

/-! ### Final claim assemblies: fuzzy lookups, ranges, witnesses -/

/-- C3: the hex-to-name lookup returns `none` exactly when every palette hex
scores below 80 against the formatted query, and any returned name belongs to
the first palette entry attaining the (cutoff-reaching) maximal score; against
the palette `[("Red", "FF0000")]` the triple `(254, 0, 0)` — hex `#FE0000` —
returns `Red` with a score of at least 80.  The scorer is modelled from the
spec's description of `rapidfuzz`. -/
theorem c3_hex_to_name_fuzzy :
    (∀ (palette : List (String × String)) (r g b : ℕ),
      (_rgb_to_name palette r g b = none ↔
        ∀ e ∈ palette, fuzzScore (_rgb_to_hex r g b).data e.2.data < 80) ∧
      ∀ nm, _rgb_to_name palette r g b = some nm →
        ∃ pre e post, palette = pre ++ e :: post ∧ nm = e.1 ∧
          80 ≤ fuzzScore (_rgb_to_hex r g b).data e.2.data ∧
          (∀ x ∈ palette, fuzzScore (_rgb_to_hex r g b).data x.2.data
            ≤ fuzzScore (_rgb_to_hex r g b).data e.2.data) ∧
          ∀ x ∈ pre, fuzzScore (_rgb_to_hex r g b).data x.2.data
            < fuzzScore (_rgb_to_hex r g b).data e.2.data) ∧
    _rgb_to_hex 254 0 0 = "#FE0000" ∧
    _rgb_to_name [("Red", "FF0000")] 254 0 0 = some "Red" ∧
    (80:ℚ) ≤ fuzzScore "#FE0000".data "FF0000".data :=
  ⟨rgb_to_name_spec, by decide, by decide, by decide⟩

/-- C4: the name-to-hex lookup returns `none` exactly when every palette name
scores below 80 against the query, otherwise `#` plus the hex of the first
maximal-scoring entry; the match is case-insensitive (lowering the query does
not change the result), `redd` and `REDD` return Red's hex and `zzzzz` returns
no match.  The scorer is modelled from the spec's description of
`rapidfuzz`. -/
theorem c4_name_to_hex_fuzzy :
    (∀ (palette : List (String × String)) (q : String),
      (match_colour_name palette q = none ↔
        ∀ e ∈ palette, fuzzScore q.data e.1.data < 80) ∧
      ∀ hx, match_colour_name palette q = some hx →
        ∃ pre e post, palette = pre ++ e :: post ∧ hx = "#" ++ e.2 ∧
          80 ≤ fuzzScore q.data e.1.data ∧
          (∀ x ∈ palette, fuzzScore q.data x.1.data ≤ fuzzScore q.data e.1.data) ∧
          ∀ x ∈ pre, fuzzScore q.data x.1.data < fuzzScore q.data e.1.data) ∧
    (∀ (palette : List (String × String)) (s : String),
      match_colour_name palette (lowerStr s) = match_colour_name palette s) ∧
    match_colour_name [("Red", "FF0000")] "redd" = some "#FF0000" ∧
    match_colour_name [("Red", "FF0000")] "REDD" = some "#FF0000" ∧
    match_colour_name [("Red", "FF0000")] "zzzzz" = none :=
  ⟨match_colour_name_spec, match_colour_name_lower, by decide, by decide, by decide⟩

/-- C8: for every RGB triple with each channel in `[0, 255]`, the derived HSV,
HSL and CMYK values all lie in their documented ranges — hue in `[0, 360]`,
saturation / value / lightness and all four CMYK components in `[0, 100]`. -/
theorem c8_output_ranges (r g b : ℕ) (hr : r ≤ 255) (hg : g ≤ 255) (hb : b ≤ 255) :
    (0 ≤ (_rgb_to_hsv r g b).1 ∧ (_rgb_to_hsv r g b).1 ≤ 360 ∧
     0 ≤ (_rgb_to_hsv r g b).2.1 ∧ (_rgb_to_hsv r g b).2.1 ≤ 100 ∧
     0 ≤ (_rgb_to_hsv r g b).2.2 ∧ (_rgb_to_hsv r g b).2.2 ≤ 100) ∧
    (0 ≤ (_rgb_to_hsl r g b).1 ∧ (_rgb_to_hsl r g b).1 ≤ 360 ∧
     0 ≤ (_rgb_to_hsl r g b).2.1 ∧ (_rgb_to_hsl r g b).2.1 ≤ 100 ∧
     0 ≤ (_rgb_to_hsl r g b).2.2 ∧ (_rgb_to_hsl r g b).2.2 ≤ 100) ∧
    (0 ≤ (_rgb_to_cmyk r g b).1 ∧ (_rgb_to_cmyk r g b).1 ≤ 100 ∧
     0 ≤ (_rgb_to_cmyk r g b).2.1 ∧ (_rgb_to_cmyk r g b).2.1 ≤ 100 ∧
     0 ≤ (_rgb_to_cmyk r g b).2.2.1 ∧ (_rgb_to_cmyk r g b).2.2.1 ≤ 100 ∧
     0 ≤ (_rgb_to_cmyk r g b).2.2.2 ∧ (_rgb_to_cmyk r g b).2.2.2 ≤ 100) :=
  ⟨hsv_bounds r g b hr hg hb, hsl_bounds r g b hr hg hb, cmyk_bounds r g b hr hg hb⟩

/-- Witness for C1 at the input `(10, 20, 30)`. -/
theorem c1_hsv_hsl_roundtrip_witness :
    (∃ t : ℤ × ℤ × ℤ,
        hsvCmd (_rgb_to_hsv 10 20 30).1 (_rgb_to_hsv 10 20 30).2.1 (_rgb_to_hsv 10 20 30).2.2
          = .ok t ∧
        (t.1 - 10).natAbs ≤ 3 ∧ (t.2.1 - 20).natAbs ≤ 3 ∧ (t.2.2 - 30).natAbs ≤ 3) ∧
    (∃ t : ℤ × ℤ × ℤ,
        hslCmd (_rgb_to_hsl 10 20 30).1 (_rgb_to_hsl 10 20 30).2.1 (_rgb_to_hsl 10 20 30).2.2
          = .ok t ∧
        (t.1 - 10).natAbs ≤ 5 ∧ (t.2.1 - 20).natAbs ≤ 5 ∧ (t.2.2 - 30).natAbs ≤ 5) :=
  c1_hsv_hsl_roundtrip 10 20 30 (by decide) (by decide) (by decide)

/-- Witness for C2 at the input `(10, 20, 30)`. -/
theorem c2_cmyk_roundtrip_witness :
    (∃ t : ℤ × ℤ × ℤ,
        (cmykCmd (_rgb_to_cmyk 10 20 30).1 (_rgb_to_cmyk 10 20 30).2.1
          (_rgb_to_cmyk 10 20 30).2.2.1 (_rgb_to_cmyk 10 20 30).2.2.2) = .ok t ∧
        (t.1 - 10).natAbs ≤ 2 ∧ (t.2.1 - 20).natAbs ≤ 2 ∧ (t.2.2 - 30).natAbs ≤ 2) ∧
      _rgb_to_cmyk 0 0 0 = (0, 0, 0, 100) :=
  c2_cmyk_roundtrip 10 20 30 (by decide) (by decide) (by decide)

/-- Witness for C7 at the input `(25, 50, 75, 100)`. -/
theorem c7_cmyk_formula_witness :
    cmykCmd 25 50 75 100 =
      .ok (pyRound (255 * (1 - ((25:ℤ):ℚ)/100) * (1 - ((100:ℤ):ℚ)/100)),
           pyRound (255 * (1 - ((50:ℤ):ℚ)/100) * (1 - ((100:ℤ):ℚ)/100)),
           pyRound (255 * (1 - ((75:ℤ):ℚ)/100) * (1 - ((100:ℤ):ℚ)/100))) ∧
    ((100:ℤ) = 100 → cmykCmd 25 50 75 100 = .ok (0, 0, 0)) :=
  c7_cmyk_formula 25 50 75 100 (by decide) (by decide) (by decide) (by decide)

/-- Witness for C8 at the input `(1, 2, 3)`. -/
theorem c8_output_ranges_witness :
    (0 ≤ (_rgb_to_hsv 1 2 3).1 ∧ (_rgb_to_hsv 1 2 3).1 ≤ 360 ∧
     0 ≤ (_rgb_to_hsv 1 2 3).2.1 ∧ (_rgb_to_hsv 1 2 3).2.1 ≤ 100 ∧
     0 ≤ (_rgb_to_hsv 1 2 3).2.2 ∧ (_rgb_to_hsv 1 2 3).2.2 ≤ 100) ∧
    (0 ≤ (_rgb_to_hsl 1 2 3).1 ∧ (_rgb_to_hsl 1 2 3).1 ≤ 360 ∧
     0 ≤ (_rgb_to_hsl 1 2 3).2.1 ∧ (_rgb_to_hsl 1 2 3).2.1 ≤ 100 ∧
     0 ≤ (_rgb_to_hsl 1 2 3).2.2 ∧ (_rgb_to_hsl 1 2 3).2.2 ≤ 100) ∧
    (0 ≤ (_rgb_to_cmyk 1 2 3).1 ∧ (_rgb_to_cmyk 1 2 3).1 ≤ 100 ∧
     0 ≤ (_rgb_to_cmyk 1 2 3).2.1 ∧ (_rgb_to_cmyk 1 2 3).2.1 ≤ 100 ∧
     0 ≤ (_rgb_to_cmyk 1 2 3).2.2.1 ∧ (_rgb_to_cmyk 1 2 3).2.2.1 ≤ 100 ∧
     0 ≤ (_rgb_to_cmyk 1 2 3).2.2.2 ∧ (_rgb_to_cmyk 1 2 3).2.2.2 ≤ 100) :=
  c8_output_ranges 1 2 3 (by decide) (by decide) (by decide)

/-- Witness for C9 at the input `(255, 0, 0)`. -/
theorem c9_hex_format_witness :
    _rgb_to_hex 255 0 0 = ⟨'#' :: (hex2U 255 ++ hex2U 0 ++ hex2U 0)⟩ ∧
    (_rgb_to_hex 255 0 0).data.length = 7 ∧
    (∀ c ∈ hex2U 255 ++ hex2U 0 ++ hex2U 0, c ∈ "0123456789ABCDEF".data) ∧
    _rgb_to_hex 255 0 0 = "#FF0000" :=
  c9_hex_format 255 0 0 (by decide) (by decide) (by decide)


end Octocat
